import Mathlib

/-!
# FastRec ADPCM → PCM transcoder (`pcm_jni.c`)

A shallow embedding of `Java_com_pirorin215_fastrecmob_adpcm_AdpcmDecoder_decodeToPCM`
and `write_pcm_wav_header`.

Conventions of the embedding
* A file is a list of bytes; a byte is a `Fin 256`.
* The host is little-endian (the source's `little_endian_to_native` is the identity) and
  LP64: `long` and `size_t` are 64 bits wide, `int` is 32 bits wide.
* C `int` values are integers; the result of every `int` operation is wrapped by `int32`.
* The block codec `adpcm_decode_block` lives outside this translation unit and is a parameter.
* Handing `free` a pointer that `malloc` never returned is undefined behaviour; a run that
  does so is recorded as not returning (`Run.returns`).
-/

namespace FastRec

abbrev Byte := Fin 256

/-! ## Machine integers -/

/-- Wrap an integer to the range of a 32-bit signed `int`. -/
def int32 (x : Int) : Int := (x + 2147483648) % 4294967296 - 2147483648

/-- Conversion of an integer to `uint32_t`. -/
def u32 (x : Int) : Nat := (x % 4294967296).toNat

/-- Conversion of an integer to `uint16_t`. -/
def u16 (x : Int) : Nat := (x % 65536).toNat

/-- Little-endian `uint16_t` stored at byte offset `off` of a buffer. -/
def get16 (b : List Byte) (off : Nat) : Nat :=
  (b.getD off 0).val + 256 * (b.getD (off + 1) 0).val

/-- Little-endian `uint32_t` stored at byte offset `off` of a buffer. -/
def get32 (b : List Byte) (off : Nat) : Nat :=
  (b.getD off 0).val + 256 * (b.getD (off + 1) 0).val
    + 65536 * (b.getD (off + 2) 0).val + 16777216 * (b.getD (off + 3) 0).val

/-- Memory image of a `uint16_t` holding `n` (low 16 bits). -/
def le16 (n : Nat) : List Byte := [Fin.ofNat n, Fin.ofNat (n / 256)]

/-- Memory image of a `uint32_t` holding `n` (low 32 bits). -/
def le32 (n : Nat) : List Byte :=
  [Fin.ofNat n, Fin.ofNat (n / 256), Fin.ofNat (n / 65536), Fin.ofNat (n / 16777216)]

/-! ## Chunk tags -/

def tagRIFF : List Byte := [82, 73, 70, 70]
def tagWAVE : List Byte := [87, 65, 86, 69]
def tagFmt : List Byte := [102, 109, 116, 32]
def tagData : List Byte := [100, 97, 116, 97]
def tagFact : List Byte := [102, 97, 99, 116]

def WAVE_FORMAT_PCM : Nat := 1
def WAVE_FORMAT_IMA_ADPCM : Nat := 17

/-! ## Block geometry (lines 340-347) -/

/-- The guarded computation of `samples_per_block`; `none` is the `goto end` branch. -/
def samplesPerBlock (adpcm_block_align channels : Int) : Option Int :=
  if adpcm_block_align > int32 (4 * channels) ∧ channels > 0 then
    let q := int32 (Int.tdiv adpcm_block_align channels)
    some (int32 (int32 (int32 (q - 4) * 2) + 1))
  else none

/-! ## Input stream -/

/-- Bytes delivered by `fread (buf, 1, n, in_file)` when the cursor is at `pos`; the cursor
advances by the length of the result. -/
def fread (inp : List Byte) (pos n : Nat) : List Byte := (inp.drop pos).take n

/-- Subtraction of two `size_t` values. -/
def subSize (a b : Nat) : Nat := (a + 18446744073709551616 - b) % 18446744073709551616

/-- The fields of `WaveHeader` that `decodeToPCM` reads. -/
structure WaveHeader where
  format_tag : Nat
  channels : Nat
  sample_rate : Nat
  bytes_per_second : Nat
  block_align : Nat
  bits_per_sample : Nat
  cb_size : Nat
  valid_bits_per_sample : Nat
deriving DecidableEq

/-- The `goto end` sites of `decodeToPCM`, one per logged error; `fuel` marks a loop of the
model that was cut short and corresponds to no site of the source. -/
inductive Fail
  | globalRef | openIn | openOut | notRiff | notWave | missingFmt | fmtTooSmall | fmtShort
  | cbRead | vbRead | unsupported | factRead | noData | geometry | fallback | alloc | codec
  | fuel
deriving DecidableEq

/-- Outcome of lines 226-305: a failure site with the input cursor there, or the header
with the cursor after the `fmt ` chunk. -/
inductive FmtRes
  | fail (why : Fail) (pos : Nat)
  | ok (hdr : WaveHeader) (pos : Nat)
deriving DecidableEq

/-- Lines 297-305: skip the unread rest of the `fmt ` payload. -/
def fmtFinish (size bytes_read_in_fmt : Nat) (hdr : WaveHeader) : FmtRes :=
  if size > bytes_read_in_fmt then
    .ok hdr (20 + bytes_read_in_fmt + subSize size bytes_read_in_fmt)
  else .ok hdr (20 + bytes_read_in_fmt)

/-- Lines 280-291: the optional `valid_bits_per_sample` field. -/
def fmtValidBits (inp : List Byte) (size bytes_read_in_fmt : Nat) (hdr : WaveHeader) : FmtRes :=
  if hdr.cb_size ≥ 2 then
    if subSize size bytes_read_in_fmt ≥ 2 then
      let r := fread inp (20 + bytes_read_in_fmt) 2
      if r.length ≠ 2 then .fail .vbRead (20 + bytes_read_in_fmt + r.length)
      else fmtFinish size (bytes_read_in_fmt + 2) { hdr with valid_bits_per_sample := get16 r 0 }
    else fmtFinish size bytes_read_in_fmt hdr
  else fmtFinish size bytes_read_in_fmt hdr

/-- Lines 266-295: the format-tag test and the optional `cb_size` field. -/
def fmtExtension (inp : List Byte) (size : Nat) (hdr : WaveHeader) : FmtRes :=
  if hdr.format_tag = WAVE_FORMAT_IMA_ADPCM then
    if subSize size 16 ≥ 2 then
      let r := fread inp 36 2
      if r.length ≠ 2 then .fail .cbRead (36 + r.length)
      else fmtValidBits inp size 18 { hdr with cb_size := get16 r 0 }
    else fmtValidBits inp size 16 hdr
  else .fail .unsupported 36

/-- Lines 226-305. `junkCb` and `junkVb` are the indeterminate initial contents of the two
extension fields of the local `wave_header`. -/
def readFmt (junkCb junkVb : Nat) (inp : List Byte) : FmtRes :=
  let riff := fread inp 0 8
  if riff.length ≠ 8 ∨ riff.take 4 ≠ tagRIFF then .fail .notRiff riff.length
  else
    let wave := fread inp 8 4
    if wave.length ≠ 4 ∨ wave ≠ tagWAVE then .fail .notWave (8 + wave.length)
    else
      let ch := fread inp 12 8
      if ch.length ≠ 8 ∨ ch.take 4 ≠ tagFmt then .fail .missingFmt (12 + ch.length)
      else
        let fmt_chunk_size_actual := get32 ch 4
        if fmt_chunk_size_actual < 16 then .fail .fmtTooSmall 20
        else
          let base := fread inp 20 16
          if base.length ≠ 16 then .fail .fmtShort (20 + base.length)
          else
            fmtExtension inp fmt_chunk_size_actual
              { format_tag := get16 base 0, channels := get16 base 2,
                sample_rate := get32 base 4, bytes_per_second := get32 base 8,
                block_align := get16 base 12, bits_per_sample := get16 base 14,
                cb_size := junkCb, valid_bits_per_sample := junkVb }

/-! ## Chunk scanning (lines 307-333) -/

/-- State of the chunk scan. `hdrs` (chunk headers read in full) and `sawData` (a header
tagged `data` was read) are observers; the others are the source's variables. -/
structure Scan where
  pos : Nat
  fact : Nat
  dataSize : Nat
  hdrs : Nat
  sawData : Bool
deriving DecidableEq

/-- Result of one evaluation of the scan loop: `next` goes round again, `stop` leaves the
loop (`break`, or the header read came up short), `fail` is the `goto end` of line 319. -/
inductive ScanStep
  | next (s : Scan)
  | stop (s : Scan)
  | fail (s : Scan)
deriving DecidableEq

/-- One evaluation of the loop condition and body of lines 308-333. -/
def scanStep (inp : List Byte) (s : Scan) : ScanStep :=
  let h := fread inp s.pos 8
  if h.length ≠ 8 then .stop { s with pos := s.pos + h.length }
  else
    let size := get32 h 4
    let s1 : Scan := { s with pos := s.pos + 8, hdrs := s.hdrs + 1 }
    if h.take 4 = tagData then .stop { s1 with dataSize := size, sawData := true }
    else if h.take 4 = tagFact then
      if size ≥ 4 then
        let f := fread inp s1.pos 4
        if f.length ≠ 4 then .fail { s1 with pos := s1.pos + f.length }
        else if size > 4 then
          .next { s1 with pos := s1.pos + 4 + subSize size 4, fact := get32 f 0 }
        else .next { s1 with pos := s1.pos + 4, fact := get32 f 0 }
      else .next { s1 with pos := s1.pos + size }
    else .next { s1 with pos := s1.pos + size }

/-- The scan state with which `decodeToPCM` enters the scan loop at input offset `pos`. -/
def scanStart (pos : Nat) : Scan :=
  { pos := pos, fact := 0, dataSize := 0, hdrs := 0, sawData := false }

/-- The scan loop, cut after `fuel` rounds (`next` is then returned). -/
def scanLoop (inp : List Byte) : Nat → Scan → ScanStep
  | 0, s => .next s
  | fuel + 1, s =>
    match scanStep inp s with
    | .next s1 => scanLoop inp fuel s1
    | r => r

/-! ## Transcode loop (lines 377-402) -/

/-- What one call of `adpcm_decode_block` leaves behind: the returned frame count and the
byte image of `out_block_buffer`. The count is a natural number: a negative return value,
or one that overruns `out_block_buffer`, is outside the codec's contract. -/
structure Decoded where
  frames : Nat
  pcm : Nat → Byte

/-- The block codec: compressed block and channel count to `Decoded`. -/
abbrev Codec := List Byte → Nat → Decoded

/-- State of the transcode loop. `blocks` (bytes handed to the codec and frames it returned,
per call) and `updates` (values assigned to `progress_percent`) are observers. -/
structure Loop where
  pos : Nat
  out : List Byte
  total : Nat
  progress : Int
  blocks : List (Nat × Nat)
  updates : List Int

/-- Result of one evaluation of the transcode loop: `next` goes round again, `exit` is a
false loop condition, `eof` the `break` of line 385, `codecFail` the `goto end` of
line 391. -/
inductive LoopStep
  | next (l : Loop)
  | exit (l : Loop)
  | eof (l : Loop)
  | codecFail (l : Loop)

/-- Bytes that `fwrite (out_block_buffer, sizeof (int16_t), count, out_file)` appends. -/
def pcmBytes (pcm : Nat → Byte) (count : Nat) : List Byte := (List.range (2 * count)).map pcm

/-- One evaluation of the loop condition and body of lines 381-402. `progressOf` stands for
the floating-point expression of line 397. -/
def loopStep (codec : Codec) (progressOf : Nat → Nat → Int) (inp : List Byte)
    (adpcm_block_align channels adpcm_data_size : Nat) (l : Loop) : LoopStep :=
  if l.total < adpcm_data_size then
    let blk := fread inp l.pos adpcm_block_align
    if blk.length = 0 then .eof l
    else
      let d := codec blk channels
      let l1 : Loop :=
        { l with pos := l.pos + blk.length, blocks := l.blocks ++ [(blk.length, d.frames)] }
      if d.frames = 0 then .codecFail l1
      else
        let total := l.total + blk.length
        let current_progress := progressOf total adpcm_data_size
        .next { l1 with
          out := l.out ++ pcmBytes d.pcm (d.frames * channels)
          total := total
          progress := if current_progress > l.progress then current_progress else l.progress
          updates := if current_progress > l.progress then l.updates ++ [current_progress]
                     else l.updates }
  else .exit l

/-- The 44 zero bytes of `dummy_header`. -/
def dummy_header : List Byte := List.replicate 44 0

/-- The state in which `decodeToPCM` enters the transcode loop at input offset `pos`
(lines 377-379, the output holding the placeholder). -/
def loopStart (pos : Nat) : Loop :=
  { pos := pos, out := dummy_header, total := 0, progress := 0, blocks := [], updates := [] }

/-- The transcode loop, cut after `fuel` rounds (`next` is then returned). -/
def transcodeLoop (codec : Codec) (progressOf : Nat → Nat → Int) (inp : List Byte)
    (adpcm_block_align channels adpcm_data_size : Nat) : Nat → Loop → LoopStep
  | 0, l => .next l
  | fuel + 1, l =>
    match loopStep codec progressOf inp adpcm_block_align channels adpcm_data_size l with
    | .next l1 =>
      transcodeLoop codec progressOf inp adpcm_block_align channels adpcm_data_size fuel l1
    | r => r

/-! ## Output header (lines 75-101) -/

/-- The 44 bytes written by `write_pcm_wav_header`. -/
def write_pcm_wav_header (channels sample_rate bits_per_sample : Int) (pcm_data_size : Nat) :
    List Byte :=
  let riff_size := (36 + pcm_data_size) % 4294967296
  let format_tag := u16 WAVE_FORMAT_PCM
  let channels16 := u16 channels
  let sample_rate32 := u32 sample_rate
  let bits16 := u16 bits_per_sample
  let block_align := u16 (int32 (Int.tdiv (int32 (channels * bits_per_sample)) 8))
  let bytes_per_second := (sample_rate32 * block_align) % 4294967296
  tagRIFF ++ le32 riff_size ++ tagWAVE ++ tagFmt ++ le32 16
    ++ (le16 format_tag ++ le16 channels16 ++ le32 sample_rate32 ++ le32 bytes_per_second
        ++ le16 block_align ++ le16 bits16)
    ++ tagData ++ le32 (pcm_data_size % 4294967296)

/-! ## The entry point (lines 163-435) -/

/-- What the process is given from outside. -/
structure Env where
  /-- No listener (`none`), or whether `NewGlobalRef` returned a reference. -/
  listener : Option Bool
  /-- Contents of the input file when `fopen` succeeds. -/
  inFile : Option (List Byte)
  /-- Whether the output file opens. -/
  outOk : Bool
  /-- Whether the `malloc` of `in_block_buffer` and of `out_block_buffer` succeed. -/
  mallocIn : Bool
  mallocOut : Bool
  /-- Indeterminate initial contents of `wave_header.cb_size` and
  `wave_header.valid_bits_per_sample`. -/
  junkCb : Nat
  junkVb : Nat
  /-- Whether the indeterminate values the two buffer pointers have when a `goto end`
  jumps over their initialisation are non-null. -/
  junkInBuf : Bool
  junkOutBuf : Bool
  codec : Codec
  progressOf : Nat → Nat → Int

/-- Resources the function acquires and releases. -/
inductive Res
  | globalRef | inFile | outFile | inBuf | outBuf
deriving DecidableEq

/-- Observable summary of one call of `decodeToPCM`. -/
structure Run where
  /-- The value of `result` when `end:` is done: the `jboolean` handed back to the caller
  when the call returns (see `returns`). -/
  result : Bool
  /-- The `goto end` site taken, if any. -/
  fail : Option Fail
  /-- Input cursor at exit. -/
  pos : Nat
  /-- Contents of the output file at exit. -/
  out : List Byte
  /-- Chunk headers read in full by the scan loop. -/
  hdrs : Nat
  /-- Whether a header tagged `data` was read. -/
  sawData : Bool
  /-- Whether lines 368-370 (the two `malloc` calls) were executed. -/
  allocated : Bool
  /-- Per codec call: bytes handed over and frames returned. -/
  blocks : List (Nat × Nat)
  /-- `total_adpcm_data_read` at exit. -/
  total : Nat
  /-- `progress_percent` at exit and the values it was updated to. -/
  progress : Int
  updates : List Int
  /-- Whether the transcode loop was left through the `break` of line 385. -/
  viaBreak : Bool
  /-- Values handed to the listener's `onProgressUpdate`. The source makes no such call:
  `update_progress` (lines 140-160) and its call at line 400 survive only as comments. -/
  notified : List Int
  /-- Resources acquired, and resources released at `end:`, in order. -/
  acquired : List Res
  released : List Res
  /-- Whether the call returns to its caller. It does not when `end:` hands `free` a
  pointer that `malloc` never returned (lines 424-425 reached by a `goto end` that jumped
  over lines 368-370, with a non-null indeterminate value): that is undefined behaviour, and
  the process dies in `free`. -/
  returns : Bool

/-- A run in which nothing has happened yet. -/
def Run.init : Run :=
  { result := false, fail := none, pos := 0, out := [], hdrs := 0, sawData := false,
    allocated := false, blocks := [], total := 0, progress := 0, updates := [],
    viaBreak := false, notified := [], acquired := [], released := [], returns := true }

/-- Lines 404-419: patch the header over the placeholder and report success. -/
def finish (hdr : WaveHeader) (s : Scan) (l : Loop) (viaBreak : Bool) : Run :=
  let pcm_data_size := l.out.length - 44
  let header := write_pcm_wav_header (int32 hdr.channels) (int32 hdr.sample_rate) 16 pcm_data_size
  { Run.init with
    result := true, pos := l.pos, out := header ++ l.out.drop header.length,
    hdrs := s.hdrs, sawData := s.sawData, allocated := true, blocks := l.blocks,
    total := l.total, progress := l.progress, updates := l.updates, viaBreak := viaBreak }

/-- Lines 366-419: allocation, the transcode loop and the header patch. -/
def transcode (env : Env) (inp : List Byte) (hdr : WaveHeader) (s : Scan) : Run :=
  let base : Run :=
    { Run.init with pos := s.pos, out := dummy_header, hdrs := s.hdrs, sawData := s.sawData,
                    allocated := true }
  if env.mallocIn = false ∨ env.mallocOut = false then { base with fail := some .alloc }
  else
    match transcodeLoop env.codec env.progressOf inp hdr.block_align hdr.channels s.dataSize
        (s.dataSize + 1) (loopStart s.pos) with
    | .exit l => finish hdr s l false
    | .eof l => finish hdr s l true
    | .codecFail l =>
      { base with fail := some .codec, pos := l.pos, out := l.out, blocks := l.blocks,
                  total := l.total, progress := l.progress, updates := l.updates }
    | .next l =>
      { base with fail := some .fuel, pos := l.pos, out := l.out, blocks := l.blocks,
                  total := l.total, progress := l.progress, updates := l.updates }

/-- Lines 335-364: the data-size test, the geometry test and the sample-count estimate. -/
def checks (env : Env) (inp : List Byte) (hdr : WaveHeader) (s : Scan) : Run :=
  let base : Run :=
    { Run.init with pos := s.pos, out := dummy_header, hdrs := s.hdrs, sawData := s.sawData }
  if s.dataSize = 0 then { base with fail := some .noData }
  else
    match samplesPerBlock (int32 hdr.block_align) (int32 hdr.channels) with
    | none => { base with fail := some .geometry }
    | some _ =>
      if s.fact ≠ 0 ∧ s.fact > 0 then transcode env inp hdr s
      else if s.dataSize > 0 ∧ int32 hdr.block_align > 0 then transcode env inp hdr s
      else { base with fail := some .fallback }

/-- Lines 222-419, entered with both files open. -/
def body (env : Env) (inp : List Byte) : Run :=
  match readFmt env.junkCb env.junkVb inp with
  | .fail why pos => { Run.init with fail := some why, pos := pos, out := dummy_header }
  | .ok hdr pos =>
    match scanLoop inp (inp.length + 1) (scanStart pos) with
    | .stop s => checks env inp hdr s
    | .fail s =>
      { Run.init with fail := some .factRead, pos := s.pos, out := dummy_header,
                      hdrs := s.hdrs, sawData := s.sawData }
    | .next s =>
      { Run.init with fail := some .fuel, pos := s.pos, out := dummy_header,
                      hdrs := s.hdrs, sawData := s.sawData }

/-- Lines 421-434: the releases performed at `end:`. When the allocation was jumped over,
the two buffer pointers are indeterminate: a non-null one is passed to `free`, and the call
does not return. -/
def endLabel (env : Env) (inOpen outOpen : Bool) (r : Run) : Run :=
  let inBuf := if r.allocated then env.mallocIn else env.junkInBuf
  let outBuf := if r.allocated then env.mallocOut else env.junkOutBuf
  { r with
    acquired :=
      (if env.listener = some true then [Res.globalRef] else [])
        ++ (if inOpen then [Res.inFile] else []) ++ (if outOpen then [Res.outFile] else [])
        ++ (if r.allocated && env.mallocIn then [Res.inBuf] else [])
        ++ (if r.allocated && env.mallocOut then [Res.outBuf] else [])
    released :=
      (if inOpen then [Res.inFile] else []) ++ (if outOpen then [Res.outFile] else [])
        ++ (if inBuf then [Res.inBuf] else []) ++ (if outBuf then [Res.outBuf] else [])
        ++ (if env.listener = some true then [Res.globalRef] else [])
    returns := if r.allocated then true else !(env.junkInBuf || env.junkOutBuf) }

/-- The JNI entry point `decodeToPCM`. -/
def decodeToPCM (env : Env) : Run :=
  if env.listener = some false then
    endLabel env false false { Run.init with fail := some .globalRef }
  else
    match env.inFile with
    | none => endLabel env false false { Run.init with fail := some .openIn }
    | some inp =>
      if env.outOk = false then endLabel env true false { Run.init with fail := some .openOut }
      else endLabel env true true (body env inp)

/-! ## Concrete inputs for the examples -/

/-- An example codec: for a block of at least `4 * channels` bytes it reports one frame plus
eight per further group of `4 * channels` bytes, for a shorter block it reports failure; the
buffer it leaves is all zero. -/
def exampleCodec : Codec := fun blk channels =>
  { frames := if blk.length < 4 * channels then 0
              else 1 + (blk.length - 4 * channels) / (4 * channels) * 8,
    pcm := fun _ => 0 }

/-- An example environment: input file `inp`, everything opens and allocates, no listener,
whole-percent progress computed over the naturals. -/
def exampleEnv (inp : List Byte) : Env :=
  { listener := none, inFile := some inp, outOk := true, mallocIn := true, mallocOut := true,
    junkCb := 0, junkVb := 0, junkInBuf := false, junkOutBuf := false, codec := exampleCodec,
    progressOf := fun total size => ((total * 100 / size : Nat) : Int) }

/-- An example file head: `RIFF`, `WAVE` and a 20-byte `fmt ` chunk with the given format
tag, channel count, sample rate and block alignment (`cb_size` 2, 4 bits per sample). -/
def exampleHead (tag channels rate blockAlign : Nat) : List Byte :=
  tagRIFF ++ le32 100 ++ tagWAVE ++ tagFmt ++ le32 20 ++ le16 tag ++ le16 channels
    ++ le32 rate ++ le32 0 ++ le16 blockAlign ++ le16 4 ++ le16 2 ++ le16 9

/-- Both files open and no global reference fails: the run reaches line 222 with input
`inp`. -/
def Env.opens (env : Env) (inp : List Byte) : Prop :=
  env.listener ≠ some false ∧ env.inFile = some inp ∧ env.outOk = true

/-- The base `WaveHeader` that line 258 reads from the 16 bytes at offset 20. -/
def baseHeader (junkCb junkVb : Nat) (inp : List Byte) : WaveHeader :=
  { format_tag := get16 (inp.drop 20) 0, channels := get16 (inp.drop 20) 2,
    sample_rate := get32 (inp.drop 20) 4, bytes_per_second := get32 (inp.drop 20) 8,
    block_align := get16 (inp.drop 20) 12, bits_per_sample := get16 (inp.drop 20) 14,
    cb_size := junkCb, valid_bits_per_sample := junkVb }

/-- The input starts with `RIFF`, four size bytes and `WAVE`. -/
def riffWave (inp : List Byte) : Prop :=
  12 ≤ inp.length ∧ inp.take 4 = tagRIFF ∧ (inp.drop 8).take 4 = tagWAVE

/-- The base fields of two headers agree. -/
def sameBase (a b : WaveHeader) : Prop :=
  b.format_tag = a.format_tag ∧ b.channels = a.channels ∧ b.sample_rate = a.sample_rate
    ∧ b.block_align = a.block_align

/-- The header layout in the words of the specification: each field is the little-endian
image of the stated value at the stated width. -/
def specHeader (channels sample_rate : Int) (pcm_data_size : Nat) : List Byte :=
  let blockAlign := u16 (channels * 2)
  let byteRate := u32 sample_rate * blockAlign
  tagRIFF ++ le32 (36 + pcm_data_size) ++ tagWAVE ++ tagFmt ++ le32 16 ++ le16 1
    ++ le16 (u16 channels) ++ le32 (u32 sample_rate) ++ le32 byteRate ++ le16 blockAlign
    ++ le16 16 ++ tagData ++ le32 pcm_data_size

/-! ## Specification-side notions for the transcode loop -/

/-- Auxiliary for `splitBlocks`, cut after `fuel` blocks. -/
def splitAux (n : Nat) : Nat → List Byte → List (List Byte)
  | 0, _ => []
  | _ + 1, [] => []
  | fuel + 1, x :: xs => (x :: xs).take n :: splitAux n fuel ((x :: xs).drop n)

/-- The blocks of `n` bytes a byte string falls into, the last one possibly shorter. -/
def splitBlocks (n : Nat) (xs : List Byte) : List (List Byte) := splitAux n xs.length xs

/-- The bytes the transcode loop writes for one block. -/
def blockPcm (codec : Codec) (channels : Nat) (blk : List Byte) : List Byte :=
  pcmBytes (codec blk channels).pcm ((codec blk channels).frames * channels)

/-- Sum of the frame counts in a block log. -/
def framesSum (blocks : List (Nat × Nat)) : Nat := (blocks.map Prod.snd).sum

/-- The loop state carried by a step result. -/
def LoopStep.state : LoopStep → Loop
  | .next l => l
  | .exit l => l
  | .eof l => l
  | .codecFail l => l

/-- Every byte after the placeholder was written for a frame the codec reported. -/
def LoopInv (channels : Nat) (l : Loop) : Prop :=
  l.out.length = 44 + 2 * (framesSum l.blocks * channels)

/-- While no `data` header has been read the data size is still zero. -/
def ScanInv (s : Scan) : Prop := s.sawData = false → s.dataSize = 0

/-- An example input whose final block is cut to half of `blockAlign`: mono, block
alignment 8, declared data size 16, 12 payload bytes. -/
def exampleTruncated : List Byte :=
  exampleHead 17 1 8000 8 ++ tagData ++ le32 16 ++ List.replicate 12 7

/-- An example input whose `data` chunk declares size 0. -/
def exampleZeroData : List Byte := exampleHead 17 1 8000 8 ++ tagData ++ le32 0

/-- An example of a large well-formed input: mono, block alignment 65532, a `data` chunk of
16386 whole blocks of zero bytes. -/
def exampleLarge : List Byte :=
  exampleHead 17 1 8000 65532 ++ tagData ++ le32 1073807352 ++ List.replicate 1073807352 0

/-- The run summary that `transcode` builds from the result of the transcode loop
(lines 404-419 after the loop, the `end:` label after a codec failure). -/
def loopRun (hdr : WaveHeader) (s : Scan) : LoopStep → Run
  | .exit l => finish hdr s l false
  | .eof l => finish hdr s l true
  | .codecFail l =>
    { Run.init with pos := l.pos, out := l.out, hdrs := s.hdrs, sawData := s.sawData,
                    allocated := true, fail := some .codec, blocks := l.blocks,
                    total := l.total, progress := l.progress, updates := l.updates }
  | .next l =>
    { Run.init with pos := l.pos, out := l.out, hdrs := s.hdrs, sawData := s.sawData,
                    allocated := true, fail := some .fuel, blocks := l.blocks,
                    total := l.total, progress := l.progress, updates := l.updates }

/-- The log entry of a block: its length and the frame count the codec returns for it. -/
def blockEntry (codec : Codec) (channels : Nat) (blk : List Byte) : Nat × Nat :=
  (blk.length, (codec blk channels).frames)

/-- Total length of a list of blocks. -/
def blocksLength (bs : List (List Byte)) : Nat := (bs.map List.length).sum

/-- The example environment with a progress listener supplied by the caller. -/
def exampleEnvListener (inp : List Byte) : Env :=
  { exampleEnv inp with listener := some true }

/-- An example of the first end-to-end scenario: mono, 8 kHz, block alignment 256 (505
samples per block), a `fact` chunk stating 1000 samples, a `data` chunk of two whole blocks
of zero bytes. -/
def exampleScenarioA : List Byte :=
  tagRIFF ++ le32 564 ++ tagWAVE ++ tagFmt ++ le32 20 ++ le16 17 ++ le16 1 ++ le32 8000
    ++ le32 4055 ++ le16 256 ++ le16 4 ++ le16 2 ++ le16 505
    ++ tagFact ++ le32 4 ++ le32 1000 ++ tagData ++ le32 512 ++ List.replicate 512 0

/-- A run that stopped before the buffers were allocated: it failed, no block went through
the codec and the output holds nothing or the placeholder. -/
def StoppedEarly (r : Run) : Prop :=
  r.result = false ∧ r.allocated = false ∧ r.blocks = [] ∧ r.total = 0 ∧ r.progress = 0
    ∧ r.updates = [] ∧ r.notified = [] ∧ (r.out = [] ∨ r.out = dummy_header)
    ∧ r.fail ≠ none ∧ r.fail ≠ some Fail.fuel ∧ r.fail ≠ some Fail.codec

/-- The bytes the transcode loop writes for a sequence of blocks. -/
def blocksPcm (codec : Codec) (channels : Nat) : List (List Byte) → List Byte
  | [] => []
  | b :: bs => blockPcm codec channels b ++ blocksPcm codec channels bs

/-- Progress bookkeeping of the transcode loop: the values `progress_percent` was updated to
are positive and strictly increasing, and `progress_percent` is the last of them (0 when
there is none). -/
def ProgressInv (l : Loop) : Prop :=
  List.Pairwise (fun a b => a < b) l.updates ∧ (∀ u ∈ l.updates, 0 < u ∧ u ≤ l.progress)
    ∧ l.progress = l.updates.getLastD 0

/-- Byte accounting of the transcode loop for block alignment `ba` and declared data size
`size`. -/
def TotalInv (ba size : Nat) (l : Loop) : Prop :=
  l.total < size + ba ∧ l.blocks.length ≤ l.total ∧ l.blocks.length ≤ size

/-- The blocks that went through the codec so far are the first blocks of the input from
offset `start`, each gave a non-zero frame count, and the output holds the placeholder and
what the codec returned for them. -/
def TraceInv (codec : Codec) (inp : List Byte) (ba ch start : Nat) (l : Loop) : Prop :=
  ∃ pre : List (List Byte), (∀ b ∈ pre, b ≠ [] ∧ (codec b ch).frames ≠ 0)
    ∧ l.blocks = pre.map (blockEntry codec ch)
    ∧ l.out = dummy_header ++ blocksPcm codec ch pre
    ∧ l.pos = start + blocksLength pre ∧ l.total = blocksLength pre
    ∧ splitBlocks ba (inp.drop start) = pre ++ splitBlocks ba (inp.drop l.pos)

/-- An example input whose `data` chunk declares 12 bytes while 16 follow: with block
alignment 8 the second block read runs 4 bytes past the declared end. -/
def exampleOverrun : List Byte :=
  exampleHead 17 1 8000 8 ++ tagData ++ le32 12 ++ List.replicate 16 7

/-- An example environment for an early failure: the input file is three bytes long (no
`RIFF` header), and the two buffer pointers, jumped over by the `goto end`, hold non-null
indeterminate values. -/
def exampleEnvJunk : Env :=
  { exampleEnv [1, 2, 3] with junkInBuf := true, junkOutBuf := true }

/-- An example input whose second block is two bytes long: mono, block alignment 8, declared
data size 16, 10 payload bytes; `exampleCodec` reports zero frames for the second block. -/
def exampleShortTail : List Byte :=
  exampleHead 17 1 8000 8 ++ tagData ++ le32 16 ++ List.replicate 10 7

/-- An example of a large input whose payload ends one byte before the declared data size:
mono, block alignment 65532, a `data` header declaring 1073807353 bytes, followed by 16386
whole blocks of zero bytes (1073807352 bytes). -/
def exampleLargeTruncated : List Byte :=
  exampleHead 17 1 8000 65532 ++ tagData ++ le32 1073807353 ++ List.replicate 1073807352 0

end FastRec

namespace FastRec

/-! ## Auxiliary lemmas -/

theorem int32_of_range {x : Int} (h1 : -2147483648 ≤ x) (h2 : x < 2147483648) :
    int32 x = x := by
  unfold int32; omega

theorem decodeToPCM_of_opens {env : Env} {inp : List Byte} (h : env.opens inp) :
    decodeToPCM env = endLabel env true true (body env inp) := by
  obtain ⟨h1, h2, h3⟩ := h
  simp [decodeToPCM, h1, h2, h3]

@[simp] theorem endLabel_result (env : Env) (a b : Bool) (r : Run) :
    (endLabel env a b r).result = r.result := rfl
@[simp] theorem endLabel_fail (env : Env) (a b : Bool) (r : Run) :
    (endLabel env a b r).fail = r.fail := rfl
@[simp] theorem endLabel_pos (env : Env) (a b : Bool) (r : Run) :
    (endLabel env a b r).pos = r.pos := rfl
@[simp] theorem endLabel_out (env : Env) (a b : Bool) (r : Run) :
    (endLabel env a b r).out = r.out := rfl
@[simp] theorem endLabel_hdrs (env : Env) (a b : Bool) (r : Run) :
    (endLabel env a b r).hdrs = r.hdrs := rfl
@[simp] theorem endLabel_sawData (env : Env) (a b : Bool) (r : Run) :
    (endLabel env a b r).sawData = r.sawData := rfl
@[simp] theorem endLabel_allocated (env : Env) (a b : Bool) (r : Run) :
    (endLabel env a b r).allocated = r.allocated := rfl
@[simp] theorem endLabel_blocks (env : Env) (a b : Bool) (r : Run) :
    (endLabel env a b r).blocks = r.blocks := rfl
@[simp] theorem endLabel_total (env : Env) (a b : Bool) (r : Run) :
    (endLabel env a b r).total = r.total := rfl
@[simp] theorem endLabel_viaBreak (env : Env) (a b : Bool) (r : Run) :
    (endLabel env a b r).viaBreak = r.viaBreak := rfl

theorem get16_lt (b : List Byte) (off : Nat) : get16 b off < 65536 := by
  unfold get16
  have h1 := (b.getD off 0).isLt
  have h2 := (b.getD (off + 1) 0).isLt
  omega

theorem get32_lt (b : List Byte) (off : Nat) : get32 b off < 4294967296 := by
  unfold get32
  have h1 := (b.getD off 0).isLt
  have h2 := (b.getD (off + 1) 0).isLt
  have h3 := (b.getD (off + 2) 0).isLt
  have h4 := (b.getD (off + 3) 0).isLt
  omega

theorem getD_take {l : List Byte} {n i : Nat} (h : i < n) :
    (l.take n).getD i 0 = l.getD i 0 := by
  simp [List.getD_eq_getElem?_getD, List.getElem?_take, h]

theorem get32_fread {inp : List Byte} {pos n off : Nat} (h : off + 4 ≤ n) :
    get32 (fread inp pos n) off = get32 (inp.drop pos) off := by
  unfold get32 fread
  rw [getD_take (by omega), getD_take (by omega), getD_take (by omega), getD_take (by omega)]

theorem get16_fread {inp : List Byte} {pos n off : Nat} (h : off + 2 ≤ n) :
    get16 (fread inp pos n) off = get16 (inp.drop pos) off := by
  unfold get16 fread
  rw [getD_take (by omega), getD_take (by omega)]

theorem length_fread (inp : List Byte) (pos n : Nat) :
    (fread inp pos n).length = min n (inp.length - pos) := by
  simp [fread]

theorem take_fread {inp : List Byte} {pos n k : Nat} (h : k ≤ n) :
    (fread inp pos n).take k = (inp.drop pos).take k := by
  simp [fread, List.take_take, Nat.min_eq_left h]

/-! ### The `fmt ` parser -/

theorem fmtFinish_ok {size n : Nat} {hdr hdr1 : WaveHeader} {pos : Nat}
    (h : fmtFinish size n hdr = .ok hdr1 pos) : hdr1 = hdr ∧ 20 + n ≤ pos := by
  unfold fmtFinish at h
  split_ifs at h <;> (injection h with h1 h2; subst h1; subst h2; exact ⟨rfl, by omega⟩)

theorem fmtValidBits_ok {inp : List Byte} {size n : Nat} {hdr hdr1 : WaveHeader} {pos : Nat}
    (h : fmtValidBits inp size n hdr = .ok hdr1 pos) : sameBase hdr hdr1 ∧ 20 + n ≤ pos := by
  unfold fmtValidBits at h
  dsimp only at h
  split_ifs at h <;>
    (obtain ⟨e, hp⟩ := fmtFinish_ok h
     subst e
     exact ⟨⟨rfl, rfl, rfl, rfl⟩, by omega⟩)

theorem fmtExtension_ok {inp : List Byte} {size : Nat} {hdr hdr1 : WaveHeader} {pos : Nat}
    (h : fmtExtension inp size hdr = .ok hdr1 pos) :
    hdr.format_tag = WAVE_FORMAT_IMA_ADPCM ∧ sameBase hdr hdr1 ∧ 36 ≤ pos := by
  unfold fmtExtension at h
  dsimp only at h
  split_ifs at h with h1 <;>
    (obtain ⟨e, hp⟩ := fmtValidBits_ok h
     exact ⟨h1, e, by omega⟩)

/-- A successful parse returns the base fields stored at offset 20. -/
theorem readFmt_ok_fields {j1 j2 : Nat} {inp : List Byte} {hdr : WaveHeader} {pos : Nat}
    (h : readFmt j1 j2 inp = .ok hdr pos) :
    hdr.format_tag = WAVE_FORMAT_IMA_ADPCM
      ∧ hdr.channels = get16 (inp.drop 20) 2
      ∧ hdr.sample_rate = get32 (inp.drop 20) 4
      ∧ hdr.block_align = get16 (inp.drop 20) 12
      ∧ 36 ≤ pos := by
  unfold readFmt at h
  dsimp only at h
  split_ifs at h
  obtain ⟨e1, ⟨e2, e3, e4, e5⟩, hp⟩ := fmtExtension_ok h
  dsimp only at e1 e2 e3 e4 e5
  rw [get16_fread (by omega)] at e1 e2 e3 e5
  rw [get32_fread (by omega)] at e4
  exact ⟨by rw [e2]; exact e1, e3, e4, e5, hp⟩

/-- Without the `RIFF`/`WAVE` prefix the parse stops at one of the first two sites. -/
theorem readFmt_bad_magic {j1 j2 : Nat} {inp : List Byte}
    (h : inp.length < 8 ∨ inp.take 4 ≠ tagRIFF ∨ inp.length < 12
          ∨ (inp.drop 8).take 4 ≠ tagWAVE) :
    ∃ why p, readFmt j1 j2 inp = .fail why p ∧ (why = .notRiff ∨ why = .notWave) := by
  unfold readFmt
  dsimp only
  by_cases c1 : (fread inp 0 8).length ≠ 8 ∨ (fread inp 0 8).take 4 ≠ tagRIFF
  · rw [if_pos c1]; exact ⟨_, _, rfl, Or.inl rfl⟩
  · rw [if_neg c1]
    have c2 : (fread inp 8 4).length ≠ 4 ∨ fread inp 8 4 ≠ tagWAVE := by
      rw [not_or, not_not, not_not, length_fread, take_fread (by omega)] at c1
      obtain ⟨c1a, c1b⟩ := c1
      rcases h with h | h | h | h
      · omega
      · exact absurd c1b h
      · left; rw [length_fread]; omega
      · right; exact h
    rw [if_pos c2]; exact ⟨_, _, rfl, Or.inr rfl⟩

/-- With the `RIFF`/`WAVE` prefix in place the parse reaches the `fmt ` chunk header. -/
theorem readFmt_of_riffWave {j1 j2 : Nat} {inp : List Byte} (h : riffWave inp) :
    readFmt j1 j2 inp =
      (let ch := fread inp 12 8
       if ch.length ≠ 8 ∨ ch.take 4 ≠ tagFmt then .fail .missingFmt (12 + ch.length)
       else if get32 ch 4 < 16 then .fail .fmtTooSmall 20
       else
         let base := fread inp 20 16
         if base.length ≠ 16 then .fail .fmtShort (20 + base.length)
         else fmtExtension inp (get32 ch 4)
           { format_tag := get16 base 0, channels := get16 base 2,
             sample_rate := get32 base 4, bytes_per_second := get32 base 8,
             block_align := get16 base 12, bits_per_sample := get16 base 14,
             cb_size := j1, valid_bits_per_sample := j2 }) := by
  obtain ⟨h1, h2, h3⟩ := h
  unfold readFmt
  dsimp only
  have c1 : ¬ ((fread inp 0 8).length ≠ 8 ∨ (fread inp 0 8).take 4 ≠ tagRIFF) := by
    rw [not_or, not_not, not_not, length_fread, take_fread (by omega)]
    exact ⟨by omega, by simpa using h2⟩
  have c2 : ¬ ((fread inp 8 4).length ≠ 4 ∨ fread inp 8 4 ≠ tagWAVE) := by
    rw [not_or, not_not, not_not, length_fread]
    exact ⟨by omega, h3⟩
  rw [if_neg c1, if_neg c2]

/-- With a well-formed `fmt ` header and its 16 base bytes present, the parse reaches the
format-tag test with the base header. -/
theorem readFmt_of_fmt {j1 j2 : Nat} {inp : List Byte} (h : riffWave inp)
    (hlen : 36 ≤ inp.length) (htag : (inp.drop 12).take 4 = tagFmt)
    (hsize : 16 ≤ get32 (inp.drop 12) 4) :
    readFmt j1 j2 inp = fmtExtension inp (get32 (inp.drop 12) 4) (baseHeader j1 j2 inp) := by
  rw [readFmt_of_riffWave h]
  dsimp only
  have c3 : ¬ ((fread inp 12 8).length ≠ 8 ∨ (fread inp 12 8).take 4 ≠ tagFmt) := by
    rw [not_or, not_not, not_not, length_fread, take_fread (by omega)]
    exact ⟨by omega, htag⟩
  have c4 : ¬ get32 (fread inp 12 8) 4 < 16 := by
    rw [get32_fread (by omega)]; omega
  have c5 : ¬ (fread inp 20 16).length ≠ 16 := by
    rw [not_not, length_fread]; omega
  rw [if_neg c3, if_neg c4, if_neg c5]
  rw [get32_fread (by omega), get32_fread (by omega), get32_fread (by omega),
    get16_fread (by omega), get16_fread (by omega), get16_fread (by omega),
    get16_fread (by omega)]
  rfl

theorem body_of_fail {env : Env} {inp : List Byte} {why : Fail} {p : Nat}
    (h : readFmt env.junkCb env.junkVb inp = .fail why p) :
    body env inp = { Run.init with fail := some why, pos := p, out := dummy_header } := by
  simp [body, h]

/-! ### The output header -/

theorem le32_mod (n : Nat) : le32 (n % 4294967296) = le32 n := by
  unfold le32
  have e0 : (Fin.ofNat (n % 4294967296) : Byte) = Fin.ofNat n := by
    apply Fin.ext; simp only [Fin.ofNat]; omega
  have e1 : (Fin.ofNat (n % 4294967296 / 256) : Byte) = Fin.ofNat (n / 256) := by
    apply Fin.ext; simp only [Fin.ofNat]; omega
  have e2 : (Fin.ofNat (n % 4294967296 / 65536) : Byte) = Fin.ofNat (n / 65536) := by
    apply Fin.ext; simp only [Fin.ofNat]; omega
  have e3 : (Fin.ofNat (n % 4294967296 / 16777216) : Byte) = Fin.ofNat (n / 16777216) := by
    apply Fin.ext; simp only [Fin.ofNat]; omega
  rw [e0, e1, e2, e3]

/-- The `int` expression `channels * 16 / 8`, stored in 16 bits, is `channels * 2` stored in
16 bits. -/
theorem blockAlign_field (c : Int) :
    u16 (int32 (Int.tdiv (int32 (c * 16)) 8)) = u16 (c * 2) := by
  have hd : (8 : Int) ∣ int32 (c * 16) := by
    unfold int32; omega
  rw [Int.tdiv_eq_ediv_of_dvd hd]
  unfold u16 int32
  omega

/-! ### The scan loop -/

theorem scanStep_next {inp : List Byte} {s s1 : Scan} (h : scanStep inp s = .next s1) :
    s.pos + 8 ≤ inp.length ∧ s.pos + 8 ≤ s1.pos := by
  unfold scanStep at h
  dsimp only at h
  split_ifs at h with c1 c2 c3 c4 c5 c6
  all_goals
    injection h with h
    subst h
    rw [not_not, length_fread] at c1
    exact ⟨by omega, by dsimp only; omega⟩

/-- The scan loop finishes within `inp.length - s.pos + 1` rounds. -/
theorem scanLoop_ne_next {inp : List Byte} :
    ∀ (fuel : Nat) (s : Scan), inp.length - s.pos < fuel → ∀ s1, scanLoop inp fuel s ≠ .next s1
  | 0, s, h, s1 => by omega
  | fuel + 1, s, h, s1 => by
    unfold scanLoop
    cases hs : scanStep inp s with
    | next s2 =>
      obtain ⟨h1, h2⟩ := scanStep_next hs
      exact scanLoop_ne_next fuel s2 (by omega) s1
    | stop s2 => simp
    | fail s2 => simp

theorem scanStep_unknown {inp : List Byte} {s : Scan} (hhdr : s.pos + 8 ≤ inp.length)
    (hdata : (inp.drop s.pos).take 4 ≠ tagData) (hfact : (inp.drop s.pos).take 4 ≠ tagFact) :
    scanStep inp s = .next { s with pos := s.pos + 8 + get32 (inp.drop s.pos) 4,
                                    hdrs := s.hdrs + 1 } := by
  unfold scanStep
  dsimp only
  have c1 : ¬ (fread inp s.pos 8).length ≠ 8 := by
    rw [not_not, length_fread]; omega
  rw [if_neg c1, take_fread (by omega), if_neg hdata, if_neg hfact, get32_fread (by omega)]

theorem scanLoop_succ (inp : List Byte) (fuel : Nat) (s : Scan) :
    scanLoop inp (fuel + 1) s
      = match scanStep inp s with
        | .next s1 => scanLoop inp fuel s1
        | r => r := rfl

/-! ### The checks between the loops -/

theorem samplesPerBlock_none {ba ch : Nat} (hb : ba < 65536) (hc : ch < 65536)
    (h : ba ≤ 4 * ch ∨ ch = 0) : samplesPerBlock (int32 ba) (int32 ch) = none := by
  have e1 : int32 (ba : Int) = ba := int32_of_range (by omega) (by omega)
  have e2 : int32 (ch : Int) = ch := int32_of_range (by omega) (by omega)
  have e3 : int32 (4 * (ch : Int)) = 4 * (ch : Int) := int32_of_range (by omega) (by omega)
  unfold samplesPerBlock
  rw [e1, e2, e3, if_neg]
  omega

theorem body_of_ok {env : Env} {inp : List Byte} {hdr : WaveHeader} {p : Nat}
    (h : readFmt env.junkCb env.junkVb inp = .ok hdr p) :
    body env inp =
      match scanLoop inp (inp.length + 1) (scanStart p) with
      | .stop s => checks env inp hdr s
      | .fail s =>
        { Run.init with fail := some .factRead, pos := s.pos, out := dummy_header,
                        hdrs := s.hdrs, sawData := s.sawData }
      | .next s =>
        { Run.init with fail := some .fuel, pos := s.pos, out := dummy_header,
                        hdrs := s.hdrs, sawData := s.sawData } := by
  simp only [body, h]

theorem checks_noData {env : Env} {inp : List Byte} {hdr : WaveHeader} {s : Scan}
    (hz : s.dataSize = 0) :
    checks env inp hdr s =
      { Run.init with pos := s.pos, out := dummy_header, hdrs := s.hdrs, sawData := s.sawData,
                      fail := some .noData } := by
  unfold checks
  rw [if_pos hz]

theorem checks_geometry {env : Env} {inp : List Byte} {hdr : WaveHeader} {s : Scan}
    (hz : s.dataSize ≠ 0)
    (hnone : samplesPerBlock (int32 hdr.block_align) (int32 hdr.channels) = none) :
    checks env inp hdr s =
      { Run.init with pos := s.pos, out := dummy_header, hdrs := s.hdrs, sawData := s.sawData,
                      fail := some .geometry } := by
  unfold checks
  rw [if_neg hz, hnone]

/-! ### The transcode loop -/

theorem splitAux_of_le {n : Nat} (hn : 0 < n) :
    ∀ (fuel : Nat) (xs : List Byte), xs.length ≤ fuel →
      splitAux n fuel xs = splitAux n xs.length xs
  | 0, xs, h => by
    have : xs = [] := List.eq_nil_of_length_eq_zero (by omega)
    subst this; rfl
  | fuel + 1, [], h => rfl
  | fuel + 1, x :: xs, h => by
    have hl : ((x :: xs).drop n).length ≤ xs.length := by
      rw [List.length_drop, List.length_cons]; omega
    show _ :: splitAux n fuel _ = _ :: splitAux n xs.length _
    rw [splitAux_of_le hn fuel _ (by simp only [List.length_cons] at h; omega),
      splitAux_of_le hn xs.length _ hl]

theorem splitBlocks_nil (n : Nat) : splitBlocks n [] = [] := rfl

theorem splitBlocks_of_ne_nil {n : Nat} (hn : 0 < n) {xs : List Byte} (hx : xs ≠ []) :
    splitBlocks n xs = xs.take n :: splitBlocks n (xs.drop n) := by
  cases xs with
  | nil => exact absurd rfl hx
  | cons x xs =>
    have hl : ((x :: xs).drop n).length ≤ xs.length := by
      rw [List.length_drop, List.length_cons]; omega
    show _ :: splitAux n xs.length _ = _ :: splitAux n _ _
    rw [splitAux_of_le hn xs.length _ hl]

theorem transcodeLoop_succ (codec : Codec) (pf : Nat → Nat → Int) (inp : List Byte)
    (ba ch size fuel : Nat) (l : Loop) :
    transcodeLoop codec pf inp ba ch size (fuel + 1) l
      = match loopStep codec pf inp ba ch size l with
        | .next l1 => transcodeLoop codec pf inp ba ch size fuel l1
        | r => r := rfl

theorem length_pcmBytes (pcm : Nat → Byte) (count : Nat) :
    (pcmBytes pcm count).length = 2 * count := by
  simp [pcmBytes]

theorem framesSum_append (bs : List (Nat × Nat)) (n f : Nat) :
    framesSum (bs ++ [(n, f)]) = framesSum bs + f := by
  simp [framesSum]

theorem loopStep_exit {codec : Codec} {pf : Nat → Nat → Int} {inp : List Byte}
    {ba ch size : Nat} {l : Loop} (h : ¬ l.total < size) :
    loopStep codec pf inp ba ch size l = .exit l := by
  unfold loopStep
  rw [if_neg h]

theorem loopStep_eof {codec : Codec} {pf : Nat → Nat → Int} {inp : List Byte}
    {ba ch size : Nat} {l : Loop} (h : l.total < size) (hz : (fread inp l.pos ba).length = 0) :
    loopStep codec pf inp ba ch size l = .eof l := by
  unfold loopStep
  rw [if_pos h]
  dsimp only
  rw [if_pos hz]

theorem loopStep_codecFail {codec : Codec} {pf : Nat → Nat → Int} {inp : List Byte}
    {ba ch size : Nat} {l : Loop} (h : l.total < size) (hz : (fread inp l.pos ba).length ≠ 0)
    (hf : (codec (fread inp l.pos ba) ch).frames = 0) :
    loopStep codec pf inp ba ch size l
      = .codecFail { l with pos := l.pos + (fread inp l.pos ba).length,
                            blocks := l.blocks ++ [((fread inp l.pos ba).length, 0)] } := by
  unfold loopStep
  rw [if_pos h]
  dsimp only
  rw [if_neg hz, if_pos hf, hf]

theorem loopStep_next {codec : Codec} {pf : Nat → Nat → Int} {inp : List Byte}
    {ba ch size : Nat} {l : Loop} (h : l.total < size) (hz : (fread inp l.pos ba).length ≠ 0)
    (hf : (codec (fread inp l.pos ba) ch).frames ≠ 0) :
    ∃ p u, loopStep codec pf inp ba ch size l
      = .next { pos := l.pos + (fread inp l.pos ba).length,
                out := l.out ++ blockPcm codec ch (fread inp l.pos ba),
                total := l.total + (fread inp l.pos ba).length,
                progress := p,
                blocks := l.blocks ++ [((fread inp l.pos ba).length,
                                        (codec (fread inp l.pos ba) ch).frames)],
                updates := u } := by
  unfold loopStep
  rw [if_pos h]
  dsimp only
  rw [if_neg hz, if_neg hf]
  exact ⟨_, _, rfl⟩

theorem loopStep_inv {codec : Codec} {pf : Nat → Nat → Int} {inp : List Byte}
    {ba ch size : Nat} {l : Loop} (hl : LoopInv ch l) :
    LoopInv ch (loopStep codec pf inp ba ch size l).state := by
  by_cases h : l.total < size
  · by_cases hz : (fread inp l.pos ba).length = 0
    · rw [loopStep_eof h hz]; exact hl
    · by_cases hf : (codec (fread inp l.pos ba) ch).frames = 0
      · rw [loopStep_codecFail h hz hf]
        unfold LoopInv at hl ⊢
        simp only [LoopStep.state, framesSum_append, Nat.add_zero]
        omega
      · obtain ⟨p, u, e⟩ := @loopStep_next codec pf inp ba ch size l h hz hf
        rw [e]
        unfold LoopInv at hl ⊢
        simp only [LoopStep.state, framesSum_append, List.length_append, blockPcm,
          length_pcmBytes]
        rw [hl, Nat.add_mul]
        omega
  · rw [loopStep_exit h]; exact hl

theorem transcodeLoop_inv {codec : Codec} {pf : Nat → Nat → Int} {inp : List Byte}
    {ba ch size : Nat} :
    ∀ (fuel : Nat) (l : Loop), LoopInv ch l →
      LoopInv ch (transcodeLoop codec pf inp ba ch size fuel l).state
  | 0, l, hl => hl
  | fuel + 1, l, hl => by
    have h1 := @loopStep_inv codec pf inp ba ch size l hl
    rw [transcodeLoop_succ]
    cases hs : loopStep codec pf inp ba ch size l with
    | next l1 =>
      rw [hs] at h1
      exact transcodeLoop_inv fuel l1 h1
    | exit l1 => rw [hs] at h1; exact h1
    | eof l1 => rw [hs] at h1; exact h1
    | codecFail l1 => rw [hs] at h1; exact h1

theorem drop_length_take (xs : List Byte) (n : Nat) :
    xs.drop (xs.take n).length = xs.drop n := by
  rw [List.length_take]
  by_cases h : n ≤ xs.length
  · rw [Nat.min_eq_left h]
  · rw [Nat.min_eq_right (by omega), List.drop_eq_nil_of_le (Nat.le_refl _),
      List.drop_eq_nil_of_le (by omega)]

/-- The transcode loop on a payload that ends before the declared size: every block of the
payload goes through the codec and the loop leaves through the zero-byte read. -/
theorem transcodeLoop_truncated {codec : Codec} {pf : Nat → Nat → Int} {inp : List Byte}
    {ba ch size : Nat} (hba : 0 < ba) :
    ∀ (fuel : Nat) (l : Loop), l.total + (inp.drop l.pos).length < size →
      size < fuel + l.total →
      (∀ blk ∈ splitBlocks ba (inp.drop l.pos), (codec blk ch).frames ≠ 0) →
      ∃ l1, transcodeLoop codec pf inp ba ch size fuel l = .eof l1
        ∧ l1.pos = l.pos + (inp.drop l.pos).length
        ∧ l1.out = l.out ++ (splitBlocks ba (inp.drop l.pos)).flatMap (blockPcm codec ch)
        ∧ l1.total = l.total + (inp.drop l.pos).length
        ∧ l1.blocks = l.blocks
            ++ (splitBlocks ba (inp.drop l.pos)).map (fun b => (b.length, (codec b ch).frames))
  | 0, l, h1, h2, _ => by omega
  | fuel + 1, l, h1, h2, h3 => by
    rw [transcodeLoop_succ]
    have ht : l.total < size := by omega
    by_cases hrem : inp.drop l.pos = []
    · have hz : (fread inp l.pos ba).length = 0 := by
        unfold fread; rw [hrem]; simp
      rw [loopStep_eof ht hz, hrem]
      exact ⟨l, rfl, rfl, by simp [splitBlocks_nil], rfl, by simp [splitBlocks_nil]⟩
    · have hsplit := splitBlocks_of_ne_nil hba hrem
      have hblk : fread inp l.pos ba = (inp.drop l.pos).take ba := rfl
      have hpos : 0 < (inp.drop l.pos).length := List.length_pos.mpr hrem
      have hlen : (fread inp l.pos ba).length = min ba (inp.drop l.pos).length := by
        rw [hblk, List.length_take]
      have hz : (fread inp l.pos ba).length ≠ 0 := by
        rw [hlen]; omega
      have hf : (codec (fread inp l.pos ba) ch).frames ≠ 0 := by
        apply h3
        rw [hsplit, hblk]
        exact List.mem_cons_self _ _
      obtain ⟨p, u, e⟩ := @loopStep_next codec pf inp ba ch size l ht hz hf
      rw [e]
      dsimp only
      have hdrop : inp.drop (l.pos + (fread inp l.pos ba).length)
          = (inp.drop l.pos).drop ba := by
        rw [← List.drop_drop, hblk, drop_length_take]
      have hlen2 : ((inp.drop l.pos).drop ba).length + (fread inp l.pos ba).length
          = (inp.drop l.pos).length := by
        rw [hlen, List.length_drop]; omega
      have key := @transcodeLoop_truncated codec pf inp ba ch size hba fuel
        { pos := l.pos + (fread inp l.pos ba).length,
          out := l.out ++ blockPcm codec ch (fread inp l.pos ba),
          total := l.total + (fread inp l.pos ba).length,
          progress := p,
          blocks := l.blocks ++ [((fread inp l.pos ba).length,
                                  (codec (fread inp l.pos ba) ch).frames)],
          updates := u }
      dsimp only at key
      rw [hdrop] at key
      obtain ⟨l1, r1, r2, r3, r4, r5⟩ := key (by omega) (by omega)
        (by
          intro blk hb
          apply h3
          rw [hsplit]
          exact List.mem_cons_of_mem _ hb)
      refine ⟨l1, r1, ?_, ?_, ?_, ?_⟩
      · rw [r2]; omega
      · rw [r3, hsplit, List.flatMap_cons, List.append_assoc, hblk]
      · rw [r4]; omega
      · rw [r5, hsplit, List.map_cons, List.append_assoc, hblk]
        rfl

/-! ### The header patch and the run as a whole -/

theorem length_write_pcm_wav_header (c r b : Int) (n : Nat) :
    (write_pcm_wav_header c r b n).length = 44 := by
  simp [write_pcm_wav_header, tagRIFF, tagWAVE, tagFmt, tagData, le32, le16]

theorem getD_append_add (pre l : List Byte) (i : Nat) :
    (pre ++ l).getD (pre.length + i) 0 = l.getD i 0 := by
  simp [List.getD_eq_getElem?_getD, List.getElem?_append_right]

theorem get32_le32 (x : Nat) (rest : List Byte) :
    get32 (le32 x ++ rest) 0 = x % 4294967296 := by
  simp only [get32, le32, List.cons_append, List.nil_append, List.getD_cons_zero,
    List.getD_cons_succ, Fin.ofNat]
  omega

theorem get32_le32_at (pre rest : List Byte) (x k : Nat) (h : pre.length = k) :
    get32 (pre ++ (le32 x ++ rest)) k = x % 4294967296 := by
  subst h
  rw [← get32_le32 x rest]
  unfold get32
  rw [← getD_append_add pre (le32 x ++ rest) 0, ← getD_append_add pre (le32 x ++ rest) (0 + 1),
    ← getD_append_add pre (le32 x ++ rest) (0 + 2), ← getD_append_add pre (le32 x ++ rest) (0 + 3)]
  simp only [Nat.add_zero, Nat.zero_add, Nat.add_assoc]

theorem get32_data_field (c r b : Int) (n : Nat) (rest : List Byte) :
    get32 (write_pcm_wav_header c r b n ++ rest) 40 = n % 4294967296 := by
  unfold write_pcm_wav_header
  dsimp only
  rw [List.append_assoc _ (le32 _) rest]
  rw [get32_le32_at _ _ _ 40 (by simp [tagRIFF, tagWAVE, tagFmt, tagData, le32, le16])]
  omega

theorem loopInv_start (ch pos : Nat) : LoopInv ch (loopStart pos) := by
  simp [LoopInv, loopStart, framesSum, dummy_header]

theorem transcode_of_alloc {env : Env} {inp : List Byte} {hdr : WaveHeader} {s : Scan}
    (hm1 : env.mallocIn = true) (hm2 : env.mallocOut = true) :
    transcode env inp hdr s =
      match transcodeLoop env.codec env.progressOf inp hdr.block_align hdr.channels s.dataSize
          (s.dataSize + 1) (loopStart s.pos) with
      | .exit l => finish hdr s l false
      | .eof l => finish hdr s l true
      | .codecFail l =>
        { Run.init with pos := l.pos, out := l.out, hdrs := s.hdrs, sawData := s.sawData,
                        allocated := true, fail := some .codec, blocks := l.blocks,
                        total := l.total, progress := l.progress, updates := l.updates }
      | .next l =>
        { Run.init with pos := l.pos, out := l.out, hdrs := s.hdrs, sawData := s.sawData,
                        allocated := true, fail := some .fuel, blocks := l.blocks,
                        total := l.total, progress := l.progress, updates := l.updates } := by
  unfold transcode
  rw [if_neg (by rw [hm1, hm2]; decide)]

theorem transcode_no_alloc {env : Env} {inp : List Byte} {hdr : WaveHeader} {s : Scan}
    (hm : env.mallocIn = false ∨ env.mallocOut = false) :
    transcode env inp hdr s =
      { Run.init with pos := s.pos, out := dummy_header, hdrs := s.hdrs, sawData := s.sawData,
                      allocated := true, fail := some .alloc } := by
  unfold transcode
  rw [if_pos hm]

theorem samplesPerBlock_some {ba ch : Nat} (hb : ba < 65536) (hc : ch < 65536)
    (h : ba > 4 * ch ∧ ch > 0) :
    ∃ v, samplesPerBlock (int32 ba) (int32 ch) = some v := by
  have e1 : int32 (ba : Int) = ba := int32_of_range (by omega) (by omega)
  have e2 : int32 (ch : Int) = ch := int32_of_range (by omega) (by omega)
  have e3 : int32 (4 * (ch : Int)) = 4 * (ch : Int) := int32_of_range (by omega) (by omega)
  unfold samplesPerBlock
  rw [e1, e2, e3, if_pos (by omega)]
  exact ⟨_, rfl⟩

/-- Past the data-size and geometry tests, the checks hand over to the allocation. -/
theorem checks_pass {env : Env} {inp : List Byte} {hdr : WaveHeader} {s : Scan}
    (hz : s.dataSize ≠ 0) (hb : hdr.block_align < 65536) (hc : hdr.channels < 65536)
    (hgeo : hdr.block_align > 4 * hdr.channels ∧ hdr.channels > 0) :
    checks env inp hdr s = transcode env inp hdr s := by
  obtain ⟨v, hv⟩ := samplesPerBlock_some hb hc hgeo
  have e1 : int32 (hdr.block_align : Int) = hdr.block_align :=
    int32_of_range (by omega) (by omega)
  unfold checks
  rw [if_neg hz, hv]
  dsimp only
  by_cases hf : s.fact ≠ 0 ∧ s.fact > 0
  · rw [if_pos hf]
  · rw [if_neg hf, if_pos (by rw [e1]; omega)]

/-- The checks either stop the run or hand over to the allocation. -/
theorem checks_cases (env : Env) (inp : List Byte) (hdr : WaveHeader) (s : Scan) :
    (checks env inp hdr s).result = false ∨ checks env inp hdr s = transcode env inp hdr s := by
  unfold checks
  by_cases hz : s.dataSize = 0
  · rw [if_pos hz]; exact Or.inl rfl
  · rw [if_neg hz]
    cases hv : samplesPerBlock (int32 hdr.block_align) (int32 hdr.channels) with
    | none => exact Or.inl rfl
    | some v =>
      dsimp only
      by_cases hf : s.fact ≠ 0 ∧ s.fact > 0
      · rw [if_pos hf]; exact Or.inr rfl
      · rw [if_neg hf]
        by_cases hg : s.dataSize > 0 ∧ int32 hdr.block_align > 0
        · rw [if_pos hg]; exact Or.inr rfl
        · rw [if_neg hg]; exact Or.inl rfl

theorem finish_facts {ch : Nat} (hdr : WaveHeader) (s : Scan) (l : Loop) (vb : Bool)
    (hl : LoopInv ch l) :
    (finish hdr s l vb).result = true
      ∧ (finish hdr s l vb).blocks = l.blocks
      ∧ (finish hdr s l vb).out
          = write_pcm_wav_header (int32 hdr.channels) (int32 hdr.sample_rate) 16
              (l.out.length - 44) ++ l.out.drop 44
      ∧ (finish hdr s l vb).out.length = 44 + framesSum l.blocks * ch * 2
      ∧ get32 (finish hdr s l vb).out 40 = (framesSum l.blocks * ch * 2) % 4294967296 := by
  have hout : (finish hdr s l vb).out
      = write_pcm_wav_header (int32 hdr.channels) (int32 hdr.sample_rate) 16
          (l.out.length - 44) ++ l.out.drop 44 := by
    unfold finish
    dsimp only
    rw [length_write_pcm_wav_header]
  unfold LoopInv at hl
  refine ⟨rfl, rfl, hout, ?_, ?_⟩
  · rw [hout, List.length_append, length_write_pcm_wav_header, List.length_drop, hl]
    omega
  · rw [hout, get32_data_field, hl]
    congr 1
    omega

/-- A successful run ends in `finish` on a loop state that satisfies the loop invariant. -/
theorem body_success {env : Env} {inp : List Byte} (hres : (body env inp).result = true) :
    ∃ hdr p s l vb, readFmt env.junkCb env.junkVb inp = .ok hdr p
      ∧ LoopInv hdr.channels l ∧ body env inp = finish hdr s l vb := by
  cases hfmt : readFmt env.junkCb env.junkVb inp with
  | fail why p =>
    rw [body_of_fail hfmt] at hres
    cases hres
  | ok hdr p =>
    rw [body_of_ok hfmt] at hres ⊢
    cases hs : scanLoop inp (inp.length + 1) (scanStart p) with
    | next s => rw [hs] at hres; cases hres
    | fail s => rw [hs] at hres; cases hres
    | stop s =>
      rw [hs] at hres
      dsimp only at hres ⊢
      rcases checks_cases env inp hdr s with hc | hc
      · rw [hc] at hres; cases hres
      · rw [hc] at hres ⊢
        by_cases hm : env.mallocIn = false ∨ env.mallocOut = false
        · rw [transcode_no_alloc hm] at hres; cases hres
        · have hm1 : env.mallocIn = true := by
            cases h : env.mallocIn with
            | true => rfl
            | false => exact absurd (Or.inl h) hm
          have hm2 : env.mallocOut = true := by
            cases h : env.mallocOut with
            | true => rfl
            | false => exact absurd (Or.inr h) hm
          have hinv := @transcodeLoop_inv env.codec env.progressOf inp hdr.block_align
            hdr.channels s.dataSize (s.dataSize + 1) (loopStart s.pos) (loopInv_start _ _)
          rw [transcode_of_alloc hm1 hm2] at hres ⊢
          cases hl : transcodeLoop env.codec env.progressOf inp hdr.block_align hdr.channels
              s.dataSize (s.dataSize + 1) (loopStart s.pos) with
          | next l => rw [hl] at hres; cases hres
          | codecFail l => rw [hl] at hres; cases hres
          | exit l =>
            rw [hl] at hinv
            exact ⟨hdr, p, s, l, false, rfl, hinv, rfl⟩
          | eof l =>
            rw [hl] at hinv
            exact ⟨hdr, p, s, l, true, rfl, hinv, rfl⟩

/-! ### The scan invariant -/

theorem scanStep_data {inp : List Byte} {s : Scan} (hhdr : s.pos + 8 ≤ inp.length)
    (hdata : (inp.drop s.pos).take 4 = tagData) :
    scanStep inp s = .stop { s with pos := s.pos + 8, hdrs := s.hdrs + 1,
                                    dataSize := get32 (inp.drop s.pos) 4, sawData := true } := by
  unfold scanStep
  dsimp only
  have c1 : ¬ (fread inp s.pos 8).length ≠ 8 := by
    rw [not_not, length_fread]; omega
  rw [if_neg c1, take_fread (by omega), if_pos hdata, get32_fread (by omega)]

theorem scanStep_inv {inp : List Byte} {s : Scan} (hs : ScanInv s) :
    (∀ s1, scanStep inp s = .next s1 → ScanInv s1)
      ∧ (∀ s1, scanStep inp s = .stop s1 →
          ScanInv s1 ∧ (s1.sawData = false → s.sawData = false ∧ inp.length ≤ s1.pos)) := by
  unfold scanStep
  dsimp only
  constructor
  · intro s1 h
    split_ifs at h
    all_goals
      have e := ScanStep.next.inj h
      subst e
      intro h2
      exact hs h2
  · intro s1 h
    split_ifs at h with c1
    · have e := ScanStep.stop.inj h
      subst e
      rw [length_fread] at c1
      refine ⟨fun h2 => hs h2, ?_⟩
      intro h2
      refine ⟨h2, ?_⟩
      show inp.length ≤ s.pos + (fread inp s.pos 8).length
      rw [length_fread]
      omega
    · have e := ScanStep.stop.inj h
      subst e
      refine ⟨?_, ?_⟩
      · intro h2; cases h2
      · intro h2; cases h2

theorem scanLoop_inv {inp : List Byte} :
    ∀ (fuel : Nat) (s s1 : Scan), ScanInv s → s.sawData = false →
      scanLoop inp fuel s = .stop s1 →
      ScanInv s1 ∧ (s1.sawData = false → inp.length ≤ s1.pos)
  | 0, s, s1, _, _, h => by cases h
  | fuel + 1, s, s1, hs, hf, h => by
    rw [scanLoop_succ] at h
    obtain ⟨i1, i2⟩ := @scanStep_inv inp s hs
    cases hstep : scanStep inp s with
    | next s2 =>
      rw [hstep] at h
      have hf2 : s2.sawData = false := by
        unfold scanStep at hstep
        dsimp only at hstep
        split_ifs at hstep
        all_goals
          have e := ScanStep.next.inj hstep
          subst e
          exact hf
      exact scanLoop_inv fuel s2 s1 (i1 s2 hstep) hf2 h
    | stop s2 =>
      rw [hstep] at h
      have e := ScanStep.stop.inj h
      subst e
      obtain ⟨j1, j2⟩ := i2 s2 hstep
      exact ⟨j1, fun h2 => (j2 h2).2⟩
    | fail s2 =>
      rw [hstep] at h
      cases h

theorem transcode_fail_ne_noData (env : Env) (inp : List Byte) (hdr : WaveHeader) (s : Scan) :
    (transcode env inp hdr s).fail ≠ some Fail.noData := by
  by_cases hm : env.mallocIn = false ∨ env.mallocOut = false
  · rw [transcode_no_alloc hm]; intro h; cases h
  · have hm1 : env.mallocIn = true := by
      cases h : env.mallocIn with
      | true => rfl
      | false => exact absurd (Or.inl h) hm
    have hm2 : env.mallocOut = true := by
      cases h : env.mallocOut with
      | true => rfl
      | false => exact absurd (Or.inr h) hm
    rw [transcode_of_alloc hm1 hm2]
    cases transcodeLoop env.codec env.progressOf inp hdr.block_align hdr.channels
        s.dataSize (s.dataSize + 1) (loopStart s.pos) with
    | next l => intro h; cases h
    | codecFail l => intro h; cases h
    | exit l => intro h; cases h
    | eof l => intro h; cases h

theorem checks_fail_ne_noData {env : Env} {inp : List Byte} {hdr : WaveHeader} {s : Scan}
    (hz : s.dataSize ≠ 0) : (checks env inp hdr s).fail ≠ some Fail.noData := by
  unfold checks
  rw [if_neg hz]
  cases hv : samplesPerBlock (int32 hdr.block_align) (int32 hdr.channels) with
  | none => intro h; cases h
  | some v =>
    dsimp only
    by_cases hf : s.fact ≠ 0 ∧ s.fact > 0
    · rw [if_pos hf]; exact transcode_fail_ne_noData env inp hdr s
    · rw [if_neg hf]
      by_cases hg : s.dataSize > 0 ∧ int32 hdr.block_align > 0
      · rw [if_pos hg]; exact transcode_fail_ne_noData env inp hdr s
      · rw [if_neg hg]; intro h; cases h

/-! ### Runs on whole blocks and the large example -/

/-- The transcode loop on a payload that holds the declared size in whole blocks: every
block goes through the codec and the loop leaves through its condition. -/
theorem transcodeLoop_exact {codec : Codec} {pf : Nat → Nat → Int} {inp : List Byte}
    {ba ch size : Nat} (hba : 0 < ba) :
    ∀ (k fuel : Nat) (l : Loop), k < fuel → l.total + k * ba = size →
      k * ba ≤ (inp.drop l.pos).length →
      (∀ blk ∈ splitBlocks ba ((inp.drop l.pos).take (k * ba)), (codec blk ch).frames ≠ 0) →
      ∃ l1, transcodeLoop codec pf inp ba ch size fuel l = .exit l1
        ∧ l1.total = size
        ∧ l1.out = l.out
            ++ (splitBlocks ba ((inp.drop l.pos).take (k * ba))).flatMap (blockPcm codec ch)
        ∧ l1.blocks = l.blocks
            ++ (splitBlocks ba ((inp.drop l.pos).take (k * ba))).map
                (fun b => (b.length, (codec b ch).frames))
  | _, 0, _, h, _, _, _ => by omega
  | 0, fuel + 1, l, _, h2, _, _ => by
    rw [transcodeLoop_succ, loopStep_exit (by omega)]
    refine ⟨l, rfl, by omega, ?_, ?_⟩
    · simp [splitBlocks_nil]
    · simp [splitBlocks_nil]
  | k + 1, fuel + 1, l, h1, h2, h3, h4 => by
    rw [transcodeLoop_succ]
    have hmul : (k + 1) * ba = k * ba + ba := Nat.succ_mul k ba
    have ht : l.total < size := by omega
    have hblk : fread inp l.pos ba = (inp.drop l.pos).take ba := rfl
    have hlen : (fread inp l.pos ba).length = ba := by
      rw [hblk, List.length_take]; omega
    have hne : (inp.drop l.pos).take ((k + 1) * ba) ≠ [] := by
      intro h
      have := congrArg List.length h
      rw [List.length_take] at this
      simp only [List.length_nil] at this
      omega
    have hsplit : splitBlocks ba ((inp.drop l.pos).take ((k + 1) * ba))
        = (inp.drop l.pos).take ba
          :: splitBlocks ba (((inp.drop l.pos).drop ba).take (k * ba)) := by
      rw [splitBlocks_of_ne_nil hba hne, List.take_take, List.drop_take,
        Nat.min_eq_left (by omega)]
      congr 3
      omega
    have hz : (fread inp l.pos ba).length ≠ 0 := by omega
    have hf : (codec (fread inp l.pos ba) ch).frames ≠ 0 := by
      apply h4
      rw [hsplit, hblk]
      exact List.mem_cons_self _ _
    obtain ⟨p, u, e⟩ := @loopStep_next codec pf inp ba ch size l ht hz hf
    rw [e]
    dsimp only
    have hdrop : inp.drop (l.pos + (fread inp l.pos ba).length)
        = (inp.drop l.pos).drop ba := by
      rw [← List.drop_drop, hblk, drop_length_take]
    have key := @transcodeLoop_exact codec pf inp ba ch size hba k fuel
      { pos := l.pos + (fread inp l.pos ba).length,
        out := l.out ++ blockPcm codec ch (fread inp l.pos ba),
        total := l.total + (fread inp l.pos ba).length,
        progress := p,
        blocks := l.blocks ++ [((fread inp l.pos ba).length,
                                (codec (fread inp l.pos ba) ch).frames)],
        updates := u }
    dsimp only at key
    rw [hdrop] at key
    obtain ⟨l1, r1, r2, r3, r4⟩ := key (by omega) (by omega)
      (by rw [List.length_drop]; omega)
      (by
        intro blk hb
        apply h4
        rw [hsplit]
        exact List.mem_cons_of_mem _ hb)
    refine ⟨l1, r1, r2, ?_, ?_⟩
    · rw [r3, hsplit, List.flatMap_cons, List.append_assoc, hblk]
    · rw [r4, hsplit, List.map_cons, List.append_assoc, hblk]
      rfl

theorem splitBlocks_replicate {n : Nat} (hn : 0 < n) (b : Byte) :
    ∀ k : Nat, splitBlocks n (List.replicate (k * n) b)
      = List.replicate k (List.replicate n b)
  | 0 => by simp [splitBlocks_nil]
  | k + 1 => by
    have hmul : (k + 1) * n = k * n + n := Nat.succ_mul k n
    have hne : List.replicate ((k + 1) * n) b ≠ [] := by
      intro h
      have := congrArg List.length h
      simp only [List.length_replicate, List.length_nil] at this
      omega
    rw [splitBlocks_of_ne_nil hn hne, List.take_replicate, List.drop_replicate,
      Nat.min_eq_left (by omega), List.replicate_succ]
    have e : (k + 1) * n - n = k * n := by omega
    rw [e, splitBlocks_replicate hn b k]

theorem exampleLarge_fmt :
    readFmt 0 0 exampleLarge
      = .ok { format_tag := 17, channels := 1, sample_rate := 8000, bytes_per_second := 0,
              block_align := 65532, bits_per_sample := 4, cb_size := 2,
              valid_bits_per_sample := 9 } 40 := by
  decide

theorem exampleLarge_length : exampleLarge.length = 48 + 1073807352 := by
  unfold exampleLarge
  rw [List.length_append, List.length_replicate]
  rfl

theorem exampleLarge_drop : exampleLarge.drop 48 = List.replicate 1073807352 0 := by
  unfold exampleLarge
  exact List.drop_left' (by decide)

theorem exampleLarge_scan :
    scanLoop exampleLarge (exampleLarge.length + 1) (scanStart 40)
      = .stop { pos := 48, fact := 0, dataSize := 1073807352, hdrs := 1, sawData := true } := by
  have h1 : (scanStart 40).pos + 8 ≤ exampleLarge.length := by
    rw [exampleLarge_length]; decide
  have h2 : (exampleLarge.drop (scanStart 40).pos).take 4 = tagData := by decide
  have h3 : get32 (exampleLarge.drop (scanStart 40).pos) 4 = 1073807352 := by decide
  rw [scanLoop_succ, scanStep_data h1 h2, h3]
  rfl

theorem exampleCodec_frames (blk : List Byte) (ch : Nat) :
    (exampleCodec blk ch).frames
      = if blk.length < 4 * ch then 0 else 1 + (blk.length - 4 * ch) / (4 * ch) * 8 := rfl

theorem framesSum_replicate (k n f : Nat) :
    framesSum (List.replicate k (n, f)) = k * f := by
  unfold framesSum
  rw [List.map_replicate, List.sum_replicate, smul_eq_mul]

/-- A run on a payload that holds the declared size in whole blocks ends in `finish`,
entered from the loop condition, with one log entry per block. -/
theorem decode_exact (env : Env) (inp : List Byte) (hdr : WaveHeader) (pos : Nat) (s : Scan)
    (k : Nat) (hopen : env.opens inp)
    (hm1 : env.mallocIn = true) (hm2 : env.mallocOut = true)
    (hfmt : readFmt env.junkCb env.junkVb inp = .ok hdr pos)
    (hscan : scanLoop inp (inp.length + 1) (scanStart pos) = .stop s)
    (hgeo : hdr.block_align > 4 * hdr.channels ∧ hdr.channels > 0)
    (hz : s.dataSize ≠ 0) (hsize : k * hdr.block_align = s.dataSize)
    (havail : k * hdr.block_align ≤ (inp.drop s.pos).length)
    (hcodec : ∀ blk ∈ splitBlocks hdr.block_align ((inp.drop s.pos).take (k * hdr.block_align)),
      (env.codec blk hdr.channels).frames ≠ 0) :
    ∃ l1, decodeToPCM env = endLabel env true true (finish hdr s l1 false)
      ∧ LoopInv hdr.channels l1
      ∧ l1.blocks = (splitBlocks hdr.block_align
            ((inp.drop s.pos).take (k * hdr.block_align))).map
          (fun b => (b.length, (env.codec b hdr.channels).frames)) := by
  obtain ⟨-, hch, -, hba, -⟩ := readFmt_ok_fields hfmt
  have hb16 : hdr.block_align < 65536 := by rw [hba]; exact get16_lt _ _
  have hc16 : hdr.channels < 65536 := by rw [hch]; exact get16_lt _ _
  have hk : k ≤ s.dataSize := by
    rw [← hsize]
    exact Nat.le_mul_of_pos_right k (by omega)
  have key := @transcodeLoop_exact env.codec env.progressOf inp
    hdr.block_align hdr.channels s.dataSize (by omega) k (s.dataSize + 1) (loopStart s.pos)
  have e1 : (loopStart s.pos).pos = s.pos := rfl
  have e2 : (loopStart s.pos).total = 0 := rfl
  have e4 : (loopStart s.pos).blocks = [] := rfl
  rw [e1, e2, e4] at key
  obtain ⟨l1, r1, -, -, r4⟩ := key (by omega) (by omega) havail hcodec
  have hinv := @transcodeLoop_inv env.codec env.progressOf inp hdr.block_align hdr.channels
    s.dataSize (s.dataSize + 1) (loopStart s.pos) (loopInv_start _ _)
  rw [r1] at hinv
  refine ⟨l1, ?_, hinv, ?_⟩
  · rw [decodeToPCM_of_opens hopen, body_of_ok hfmt, hscan]
    dsimp only
    rw [checks_pass hz hb16 hc16 hgeo, transcode_of_alloc hm1 hm2, r1]
  · rw [r4, List.nil_append]

theorem subSize_of_le {a b : Nat} (h : b ≤ a) (ha : a < 18446744073709551616) :
    subSize a b = a - b := by
  unfold subSize; omega

theorem fmtFinish_pos {size n : Nat} (hdr : WaveHeader) (h : n ≤ size)
    (hs : size < 18446744073709551616) : fmtFinish size n hdr = .ok hdr (20 + size) := by
  unfold fmtFinish
  by_cases c : size > n
  · rw [if_pos c, subSize_of_le h hs]
    congr 1
    omega
  · rw [if_neg c]
    congr 1
    omega

/-- With the payload of the `fmt ` chunk present, the extension parse ends in `fmtFinish`
with 16, 18 or 20 bytes consumed, never more than the declared size. -/
theorem fmtExtension_consumed {inp : List Byte} {size : Nat} (hdr : WaveHeader)
    (htag : hdr.format_tag = WAVE_FORMAT_IMA_ADPCM) (hsize : 16 ≤ size)
    (hs : size < 18446744073709551616) (havail : 20 + size ≤ inp.length) :
    ∃ hdr1 n, (n = 16 ∨ n = 18 ∨ n = 20) ∧ n ≤ size
      ∧ fmtExtension inp size hdr = fmtFinish size n hdr1 := by
  unfold fmtExtension
  rw [if_pos htag, subSize_of_le hsize hs]
  by_cases c1 : size - 16 ≥ 2
  · rw [if_pos c1]
    dsimp only
    have l1 : ¬ (fread inp 36 2).length ≠ 2 := by
      rw [not_not, length_fread]; omega
    rw [if_neg l1]
    unfold fmtValidBits
    dsimp only
    rw [subSize_of_le (by omega) hs]
    by_cases c2 : get16 (fread inp 36 2) 0 ≥ 2
    · rw [if_pos c2]
      by_cases c3 : size - 18 ≥ 2
      · rw [if_pos c3]
        have l2 : ¬ (fread inp (20 + 18) 2).length ≠ 2 := by
          rw [not_not, length_fread]; omega
        rw [if_neg l2]
        exact ⟨_, 20, Or.inr (Or.inr rfl), by omega, rfl⟩
      · rw [if_neg c3]
        exact ⟨_, 18, Or.inr (Or.inl rfl), by omega, rfl⟩
    · rw [if_neg c2]
      exact ⟨_, 18, Or.inr (Or.inl rfl), by omega, rfl⟩
  · rw [if_neg c1]
    unfold fmtValidBits
    rw [subSize_of_le hsize hs, if_neg c1]
    by_cases c2 : hdr.cb_size ≥ 2
    · rw [if_pos c2]
      exact ⟨_, 16, Or.inl rfl, hsize, rfl⟩
    · rw [if_neg c2]
      exact ⟨_, 16, Or.inl rfl, hsize, rfl⟩

@[simp] theorem endLabel_progress (env : Env) (a b : Bool) (r : Run) :
    (endLabel env a b r).progress = r.progress := rfl

@[simp] theorem endLabel_updates (env : Env) (a b : Bool) (r : Run) :
    (endLabel env a b r).updates = r.updates := rfl

@[simp] theorem endLabel_notified (env : Env) (a b : Bool) (r : Run) :
    (endLabel env a b r).notified = r.notified := rfl

theorem stoppedEarly_endLabel {env : Env} {a b : Bool} {r : Run} (h : StoppedEarly r) :
    StoppedEarly (endLabel env a b r) := h

/-! ### One round of the transcode loop, by cases -/

theorem loopStep_next_eq {codec : Codec} {pf : Nat → Nat → Int} {inp : List Byte}
    {ba ch size : Nat} {l : Loop} (h : l.total < size) (hz : (fread inp l.pos ba).length ≠ 0)
    (hf : (codec (fread inp l.pos ba) ch).frames ≠ 0) :
    loopStep codec pf inp ba ch size l
      = .next { pos := l.pos + (fread inp l.pos ba).length,
                out := l.out ++ blockPcm codec ch (fread inp l.pos ba),
                total := l.total + (fread inp l.pos ba).length,
                progress :=
                  if pf (l.total + (fread inp l.pos ba).length) size > l.progress
                  then pf (l.total + (fread inp l.pos ba).length) size else l.progress,
                blocks := l.blocks ++ [blockEntry codec ch (fread inp l.pos ba)],
                updates :=
                  if pf (l.total + (fread inp l.pos ba).length) size > l.progress
                  then l.updates ++ [pf (l.total + (fread inp l.pos ba).length) size]
                  else l.updates } := by
  unfold loopStep
  rw [if_pos h]
  dsimp only
  rw [if_neg hz, if_neg hf]
  rfl

/-- What a round that goes on to the next one has done. -/
theorem loopStep_next_inv {codec : Codec} {pf : Nat → Nat → Int} {inp : List Byte}
    {ba ch size : Nat} {l l1 : Loop} (h : loopStep codec pf inp ba ch size l = .next l1) :
    l.total < size ∧ (fread inp l.pos ba).length ≠ 0
      ∧ (codec (fread inp l.pos ba) ch).frames ≠ 0
      ∧ l1 = { pos := l.pos + (fread inp l.pos ba).length,
               out := l.out ++ blockPcm codec ch (fread inp l.pos ba),
               total := l.total + (fread inp l.pos ba).length,
               progress :=
                 if pf (l.total + (fread inp l.pos ba).length) size > l.progress
                 then pf (l.total + (fread inp l.pos ba).length) size else l.progress,
               blocks := l.blocks ++ [blockEntry codec ch (fread inp l.pos ba)],
               updates :=
                 if pf (l.total + (fread inp l.pos ba).length) size > l.progress
                 then l.updates ++ [pf (l.total + (fread inp l.pos ba).length) size]
                 else l.updates } := by
  by_cases ht : l.total < size
  · by_cases hz : (fread inp l.pos ba).length = 0
    · rw [loopStep_eof ht hz] at h; cases h
    · by_cases hf : (codec (fread inp l.pos ba) ch).frames = 0
      · rw [loopStep_codecFail ht hz hf] at h; cases h
      · rw [loopStep_next_eq ht hz hf] at h
        exact ⟨ht, hz, hf, (LoopStep.next.inj h).symm⟩
  · rw [loopStep_exit ht] at h; cases h

/-- What a round that ends in a codec failure has done. -/
theorem loopStep_codecFail_inv {codec : Codec} {pf : Nat → Nat → Int} {inp : List Byte}
    {ba ch size : Nat} {l l1 : Loop} (h : loopStep codec pf inp ba ch size l = .codecFail l1) :
    l.total < size ∧ (fread inp l.pos ba).length ≠ 0
      ∧ (codec (fread inp l.pos ba) ch).frames = 0
      ∧ l1 = { l with pos := l.pos + (fread inp l.pos ba).length,
                      blocks := l.blocks ++ [((fread inp l.pos ba).length, 0)] } := by
  by_cases ht : l.total < size
  · by_cases hz : (fread inp l.pos ba).length = 0
    · rw [loopStep_eof ht hz] at h; cases h
    · by_cases hf : (codec (fread inp l.pos ba) ch).frames = 0
      · rw [loopStep_codecFail ht hz hf] at h
        exact ⟨ht, hz, hf, (LoopStep.codecFail.inj h).symm⟩
      · rw [loopStep_next_eq ht hz hf] at h; cases h
  · rw [loopStep_exit ht] at h; cases h

theorem loopStep_exit_inv {codec : Codec} {pf : Nat → Nat → Int} {inp : List Byte}
    {ba ch size : Nat} {l l1 : Loop} (h : loopStep codec pf inp ba ch size l = .exit l1) :
    ¬ l.total < size ∧ l1 = l := by
  by_cases ht : l.total < size
  · by_cases hz : (fread inp l.pos ba).length = 0
    · rw [loopStep_eof ht hz] at h; cases h
    · by_cases hf : (codec (fread inp l.pos ba) ch).frames = 0
      · rw [loopStep_codecFail ht hz hf] at h; cases h
      · rw [loopStep_next_eq ht hz hf] at h; cases h
  · rw [loopStep_exit ht] at h
    exact ⟨ht, (LoopStep.exit.inj h).symm⟩

theorem loopStep_eof_inv {codec : Codec} {pf : Nat → Nat → Int} {inp : List Byte}
    {ba ch size : Nat} {l l1 : Loop} (h : loopStep codec pf inp ba ch size l = .eof l1) :
    l.total < size ∧ (fread inp l.pos ba).length = 0 ∧ l1 = l := by
  by_cases ht : l.total < size
  · by_cases hz : (fread inp l.pos ba).length = 0
    · rw [loopStep_eof ht hz] at h
      exact ⟨ht, hz, (LoopStep.eof.inj h).symm⟩
    · by_cases hf : (codec (fread inp l.pos ba) ch).frames = 0
      · rw [loopStep_codecFail ht hz hf] at h; cases h
      · rw [loopStep_next_eq ht hz hf] at h; cases h
  · rw [loopStep_exit ht] at h; cases h

/-- The loop returns either the state it was cut at, or the result of a last round taken
from a state that the rounds before it lead to. -/
theorem transcodeLoop_last {codec : Codec} {pf : Nat → Nat → Int} {inp : List Byte}
    {ba ch size : Nat} (P : Loop → Prop)
    (hstep : ∀ l l1, P l → loopStep codec pf inp ba ch size l = .next l1 → P l1) :
    ∀ (fuel : Nat) (l : Loop), P l →
      ∃ l0, P l0 ∧ (transcodeLoop codec pf inp ba ch size fuel l = .next l0
        ∨ (transcodeLoop codec pf inp ba ch size fuel l = loopStep codec pf inp ba ch size l0
            ∧ ∀ l1, loopStep codec pf inp ba ch size l0 ≠ .next l1))
  | 0, l, hl => ⟨l, hl, Or.inl rfl⟩
  | fuel + 1, l, hl => by
    rw [transcodeLoop_succ]
    cases hs : loopStep codec pf inp ba ch size l with
    | next l1 => exact transcodeLoop_last P hstep fuel l1 (hstep l l1 hl hs)
    | exit l1 =>
      exact ⟨l, hl, Or.inr ⟨hs.symm, fun l2 h2 => by rw [hs] at h2; cases h2⟩⟩
    | eof l1 =>
      exact ⟨l, hl, Or.inr ⟨hs.symm, fun l2 h2 => by rw [hs] at h2; cases h2⟩⟩
    | codecFail l1 =>
      exact ⟨l, hl, Or.inr ⟨hs.symm, fun l2 h2 => by rw [hs] at h2; cases h2⟩⟩

/-- The transcode loop ends before its fuel does. -/
theorem transcodeLoop_ne_next {codec : Codec} {pf : Nat → Nat → Int} {inp : List Byte}
    {ba ch size : Nat} :
    ∀ (fuel : Nat) (l : Loop), size - l.total < fuel →
      ∀ l1, transcodeLoop codec pf inp ba ch size fuel l ≠ .next l1
  | 0, l, h, l1 => by omega
  | fuel + 1, l, h, l1 => by
    rw [transcodeLoop_succ]
    cases hs : loopStep codec pf inp ba ch size l with
    | next l2 =>
      obtain ⟨ht, hz, _, e⟩ := loopStep_next_inv hs
      have e2 : l2.total = l.total + (fread inp l.pos ba).length := by rw [e]
      exact transcodeLoop_ne_next fuel l2 (by omega) l1
    | exit l2 => intro h2; cases h2
    | eof l2 => intro h2; cases h2
    | codecFail l2 => intro h2; cases h2

theorem transcode_eq_loopRun {env : Env} {inp : List Byte} {hdr : WaveHeader} {s : Scan}
    (hm1 : env.mallocIn = true) (hm2 : env.mallocOut = true) :
    transcode env inp hdr s
      = loopRun hdr s (transcodeLoop env.codec env.progressOf inp hdr.block_align
          hdr.channels s.dataSize (s.dataSize + 1) (loopStart s.pos)) := by
  rw [transcode_of_alloc hm1 hm2]
  cases transcodeLoop env.codec env.progressOf inp hdr.block_align hdr.channels s.dataSize
      (s.dataSize + 1) (loopStart s.pos) <;> rfl

/-! ### Failure sites of the `fmt ` parser -/

theorem fmtFinish_ne_fail {size n : Nat} {hdr : WaveHeader} {why : Fail} {pos : Nat} :
    fmtFinish size n hdr ≠ .fail why pos := by
  unfold fmtFinish
  intro h
  split_ifs at h

theorem fmtValidBits_fail {inp : List Byte} {size n : Nat} {hdr : WaveHeader} {why : Fail}
    {pos : Nat} (h : fmtValidBits inp size n hdr = .fail why pos) : why = .vbRead := by
  unfold fmtValidBits at h
  dsimp only at h
  split_ifs at h
  · exact (FmtRes.fail.inj h).1.symm
  · exact absurd h fmtFinish_ne_fail
  · exact absurd h fmtFinish_ne_fail
  · exact absurd h fmtFinish_ne_fail

theorem fmtExtension_fail {inp : List Byte} {size : Nat} {hdr : WaveHeader} {why : Fail}
    {pos : Nat} (h : fmtExtension inp size hdr = .fail why pos) :
    why = .cbRead ∨ why = .vbRead ∨ why = .unsupported := by
  unfold fmtExtension at h
  dsimp only at h
  split_ifs at h
  · exact Or.inl (FmtRes.fail.inj h).1.symm
  · exact Or.inr (Or.inl (fmtValidBits_fail h))
  · exact Or.inr (Or.inl (fmtValidBits_fail h))
  · exact Or.inr (Or.inr (FmtRes.fail.inj h).1.symm)

/-- The parser of the `fmt ` chunk fails at none of the later sites. -/
theorem readFmt_fail_ne {j1 j2 : Nat} {inp : List Byte} {why : Fail} {pos : Nat}
    (h : readFmt j1 j2 inp = .fail why pos) : why ≠ .fuel ∧ why ≠ .codec := by
  unfold readFmt at h
  dsimp only at h
  split_ifs at h
  · rw [← (FmtRes.fail.inj h).1]; exact ⟨by decide, by decide⟩
  · rw [← (FmtRes.fail.inj h).1]; exact ⟨by decide, by decide⟩
  · rw [← (FmtRes.fail.inj h).1]; exact ⟨by decide, by decide⟩
  · rw [← (FmtRes.fail.inj h).1]; exact ⟨by decide, by decide⟩
  · rw [← (FmtRes.fail.inj h).1]; exact ⟨by decide, by decide⟩
  · rcases fmtExtension_fail h with e | e | e <;> rw [e] <;> exact ⟨by decide, by decide⟩

/-! ### The ways a run can go -/

theorem samplesPerBlock_value {ba ch : Nat} (hb : ba < 65536) (hc : ch < 65536)
    (h : ba > 4 * ch ∧ ch > 0) :
    samplesPerBlock (int32 ba) (int32 ch) = some (((ba / ch - 4) * 2 + 1 : Nat) : Int) := by
  have hq4 : 4 ≤ ba / ch := by
    rw [Nat.le_div_iff_mul_le h.2]; omega
  have hqle : ba / ch ≤ ba := Nat.div_le_self _ _
  have e1 : int32 (ba : Int) = ba := int32_of_range (by omega) (by omega)
  have e2 : int32 (ch : Int) = ch := int32_of_range (by omega) (by omega)
  have e3 : int32 (4 * (ch : Int)) = 4 * (ch : Int) := int32_of_range (by omega) (by omega)
  have htd : Int.tdiv (ba : Int) (ch : Int) = ((ba / ch : Nat) : Int) :=
    (Int.ofNat_tdiv ba ch).symm
  have e4 : int32 ((ba / ch : Nat) : Int) = ((ba / ch : Nat) : Int) :=
    int32_of_range (by omega) (by omega)
  have e5 : int32 (((ba / ch : Nat) : Int) - 4) = ((ba / ch : Nat) : Int) - 4 :=
    int32_of_range (by omega) (by omega)
  have e6 : int32 ((((ba / ch : Nat) : Int) - 4) * 2) = (((ba / ch : Nat) : Int) - 4) * 2 :=
    int32_of_range (by omega) (by omega)
  have e7 : int32 ((((ba / ch : Nat) : Int) - 4) * 2 + 1)
      = (((ba / ch : Nat) : Int) - 4) * 2 + 1 := int32_of_range (by omega) (by omega)
  unfold samplesPerBlock
  rw [e1, e2, e3, if_pos (by omega)]
  have e8 : (((ba / ch : Nat) : Int) - 4) * 2 + 1 = (((ba / ch - 4) * 2 + 1 : Nat) : Int) := by
    omega
  simp only [htd, e4, e5, e6, e7]
  rw [e8]

/-- The checks either stop the run early or, with a non-zero data size and a valid
geometry, hand over to the allocation. -/
theorem checks_split {env : Env} {inp : List Byte} {hdr : WaveHeader} {s : Scan}
    (hb : hdr.block_align < 65536) (hc : hdr.channels < 65536) :
    StoppedEarly (checks env inp hdr s)
      ∨ (s.dataSize ≠ 0 ∧ (hdr.block_align > 4 * hdr.channels ∧ hdr.channels > 0)
          ∧ checks env inp hdr s = transcode env inp hdr s) := by
  by_cases hz : s.dataSize = 0
  · left
    rw [checks_noData hz]
    exact ⟨rfl, rfl, rfl, rfl, rfl, rfl, rfl, Or.inr rfl, (by intro h; cases h),
      (by intro h; cases h), (by intro h; cases h)⟩
  · by_cases hg : hdr.block_align > 4 * hdr.channels ∧ hdr.channels > 0
    · exact Or.inr ⟨hz, hg, checks_pass hz hb hc hg⟩
    · left
      have hn : hdr.block_align ≤ 4 * hdr.channels ∨ hdr.channels = 0 := by omega
      rw [checks_geometry hz (samplesPerBlock_none hb hc hn)]
      exact ⟨rfl, rfl, rfl, rfl, rfl, rfl, rfl, Or.inr rfl, (by intro h; cases h),
        (by intro h; cases h), (by intro h; cases h)⟩

/-- With both files open, the run either stops early or reaches the allocation with a parsed
`fmt ` header, a `data` chunk of non-zero declared size and a valid geometry. -/
theorem body_cases (env : Env) (inp : List Byte) :
    StoppedEarly (body env inp)
      ∨ ∃ hdr p s, readFmt env.junkCb env.junkVb inp = .ok hdr p
          ∧ scanLoop inp (inp.length + 1) (scanStart p) = .stop s
          ∧ s.dataSize ≠ 0 ∧ hdr.block_align < 65536 ∧ hdr.channels < 65536
          ∧ (hdr.block_align > 4 * hdr.channels ∧ hdr.channels > 0)
          ∧ body env inp = transcode env inp hdr s := by
  cases hfmt : readFmt env.junkCb env.junkVb inp with
  | fail why p =>
    left
    rw [body_of_fail hfmt]
    exact ⟨rfl, rfl, rfl, rfl, rfl, rfl, rfl, Or.inr rfl, (by intro h; cases h),
      fun h => (readFmt_fail_ne hfmt).1 (Option.some.inj h),
      fun h => (readFmt_fail_ne hfmt).2 (Option.some.inj h)⟩
  | ok hdr p =>
    obtain ⟨_, hch, _, hba, _⟩ := readFmt_ok_fields hfmt
    have hb : hdr.block_align < 65536 := by rw [hba]; exact get16_lt _ _
    have hc : hdr.channels < 65536 := by rw [hch]; exact get16_lt _ _
    rw [body_of_ok hfmt]
    cases hs : scanLoop inp (inp.length + 1) (scanStart p) with
    | next s =>
      exact absurd hs (scanLoop_ne_next (inp.length + 1) (scanStart p)
        (by show inp.length - p < inp.length + 1; omega) s)
    | fail s =>
      left
      exact ⟨rfl, rfl, rfl, rfl, rfl, rfl, rfl, Or.inr rfl, (by intro h; cases h),
        (by intro h; cases h), (by intro h; cases h)⟩
    | stop s =>
      rcases @checks_split env inp hdr s hb hc with h | ⟨hz, hg, e⟩
      · exact Or.inl h
      · exact Or.inr ⟨hdr, p, s, rfl, hs, hz, hb, hc, hg, e⟩

/-! ### Invariants of the transcode loop -/

/-- How the loop ends: cut by the fuel, or by a last round from a state `l0` that the
rounds before it lead to. -/
theorem transcodeLoop_end {codec : Codec} {pf : Nat → Nat → Int} {inp : List Byte}
    {ba ch size : Nat} (P : Loop → Prop)
    (hstep : ∀ l l1, P l → loopStep codec pf inp ba ch size l = .next l1 → P l1)
    (fuel : Nat) (l : Loop) (hl : P l) :
    ∃ l0, P l0 ∧
      (transcodeLoop codec pf inp ba ch size fuel l = .next l0
        ∨ (transcodeLoop codec pf inp ba ch size fuel l = .exit l0 ∧ ¬ l0.total < size)
        ∨ (transcodeLoop codec pf inp ba ch size fuel l = .eof l0 ∧ l0.total < size
            ∧ (fread inp l0.pos ba).length = 0)
        ∨ (transcodeLoop codec pf inp ba ch size fuel l
              = .codecFail { l0 with pos := l0.pos + (fread inp l0.pos ba).length,
                                     blocks := l0.blocks ++ [((fread inp l0.pos ba).length, 0)] }
            ∧ l0.total < size ∧ (fread inp l0.pos ba).length ≠ 0
            ∧ (codec (fread inp l0.pos ba) ch).frames = 0)) := by
  obtain ⟨l0, h0, h⟩ := transcodeLoop_last P hstep fuel l hl
  refine ⟨l0, h0, ?_⟩
  rcases h with h | ⟨h, hn⟩
  · exact Or.inl h
  · rw [h]
    cases hs : loopStep codec pf inp ba ch size l0 with
    | next l1 => exact absurd hs (hn l1)
    | exit l1 =>
      obtain ⟨a, b⟩ := loopStep_exit_inv hs
      rw [b]
      exact Or.inr (Or.inl ⟨rfl, a⟩)
    | eof l1 =>
      obtain ⟨a, b, c⟩ := loopStep_eof_inv hs
      rw [c]
      exact Or.inr (Or.inr (Or.inl ⟨rfl, a, b⟩))
    | codecFail l1 =>
      obtain ⟨a, b, c, d⟩ := loopStep_codecFail_inv hs
      rw [d]
      exact Or.inr (Or.inr (Or.inr ⟨rfl, a, b, c⟩))

theorem progressInv_start (pos : Nat) : ProgressInv (loopStart pos) :=
  ⟨List.Pairwise.nil, fun u hu => absurd hu (List.not_mem_nil u), rfl⟩

theorem progressInv_step {codec : Codec} {pf : Nat → Nat → Int} {inp : List Byte}
    {ba ch size : Nat} (l l1 : Loop) (hl : ProgressInv l)
    (h : loopStep codec pf inp ba ch size l = .next l1) : ProgressInv l1 := by
  obtain ⟨_, _, _, e⟩ := loopStep_next_inv h
  obtain ⟨h1, h2, h3⟩ := hl
  rw [e]
  unfold ProgressInv
  dsimp only
  by_cases c : pf (l.total + (fread inp l.pos ba).length) size > l.progress
  · rw [if_pos c, if_pos c]
    have hp : 0 ≤ l.progress := by
      rw [h3]
      cases hu : l.updates.getLast? with
      | none =>
        rw [List.getLastD_eq_getLast?, hu]; exact Int.le_refl 0
      | some v =>
        rw [List.getLastD_eq_getLast?, hu]
        exact Int.le_of_lt (h2 v (List.mem_of_getLast?_eq_some hu)).1
    refine ⟨?_, ?_, ?_⟩
    · rw [List.pairwise_append]
      refine ⟨h1, List.pairwise_singleton _ _, ?_⟩
      intro a ha b hb
      rw [List.mem_singleton] at hb
      rw [hb]
      exact Int.lt_of_le_of_lt (h2 a ha).2 c
    · intro u hu
      rw [List.mem_append, List.mem_singleton] at hu
      rcases hu with hu | hu
      · exact ⟨(h2 u hu).1, Int.le_of_lt (Int.lt_of_le_of_lt (h2 u hu).2 c)⟩
      · rw [hu]; exact ⟨Int.lt_of_le_of_lt hp c, Int.le_refl _⟩
    · rw [List.getLastD_concat]
  · rw [if_neg c, if_neg c]
    exact ⟨h1, h2, h3⟩

theorem totalInv_start {ba size : Nat} (pos : Nat) (h : 0 < size) :
    TotalInv ba size (loopStart pos) :=
  ⟨by show 0 < size + ba; omega, Nat.zero_le _, Nat.zero_le _⟩

theorem totalInv_step {codec : Codec} {pf : Nat → Nat → Int} {inp : List Byte}
    {ba ch size : Nat} (l l1 : Loop) (hl : TotalInv ba size l)
    (h : loopStep codec pf inp ba ch size l = .next l1) : TotalInv ba size l1 := by
  obtain ⟨ht, hz, _, e⟩ := loopStep_next_inv h
  obtain ⟨h1, h2, h3⟩ := hl
  have hlen : (fread inp l.pos ba).length ≤ ba := by
    rw [length_fread]; exact Nat.min_le_left _ _
  rw [e]
  unfold TotalInv
  dsimp only
  rw [List.length_append, List.length_singleton]
  omega

theorem blocksPcm_append (codec : Codec) (ch : Nat) (xs ys : List (List Byte)) :
    blocksPcm codec ch (xs ++ ys) = blocksPcm codec ch xs ++ blocksPcm codec ch ys := by
  induction xs with
  | nil => rfl
  | cons x xs ih =>
    show blockPcm codec ch x ++ blocksPcm codec ch (xs ++ ys) = _
    rw [ih, ← List.append_assoc]
    rfl

theorem blocksLength_append (xs ys : List (List Byte)) :
    blocksLength (xs ++ ys) = blocksLength xs + blocksLength ys := by
  simp [blocksLength]

theorem traceInv_start (codec : Codec) (inp : List Byte) (ba ch start : Nat) :
    TraceInv codec inp ba ch start (loopStart start) :=
  ⟨[], fun b hb => absurd hb (List.not_mem_nil b), rfl, rfl, rfl, rfl, rfl⟩

/-- The block a round reads is the next block of the input. -/
theorem splitBlocks_fread {inp : List Byte} {pos ba : Nat}
    (hz : (fread inp pos ba).length ≠ 0) :
    splitBlocks ba (inp.drop pos)
      = fread inp pos ba :: splitBlocks ba (inp.drop (pos + (fread inp pos ba).length)) := by
  have hba : 0 < ba := by
    rw [length_fread] at hz
    by_contra hc
    have : ba = 0 := by omega
    rw [this] at hz
    exact hz (Nat.zero_min _)
  have hne : inp.drop pos ≠ [] := by
    intro hc
    unfold fread at hz
    rw [hc] at hz
    exact hz (by simp)
  rw [splitBlocks_of_ne_nil hba hne]
  unfold fread
  rw [← List.drop_drop, drop_length_take]

theorem traceInv_step {codec : Codec} {pf : Nat → Nat → Int} {inp : List Byte}
    {ba ch size start : Nat} (l l1 : Loop) (hl : TraceInv codec inp ba ch start l)
    (h : loopStep codec pf inp ba ch size l = .next l1) :
    TraceInv codec inp ba ch start l1 := by
  obtain ⟨ht, hz, hf, e⟩ := loopStep_next_inv h
  obtain ⟨pre, h1, h2, h3, h4, h5, h6⟩ := hl
  have hne : fread inp l.pos ba ≠ [] := fun hc => hz (by rw [hc]; rfl)
  refine ⟨pre ++ [fread inp l.pos ba], ?_, ?_, ?_, ?_, ?_, ?_⟩
  · intro b hb
    rw [List.mem_append, List.mem_singleton] at hb
    rcases hb with hb | hb
    · exact h1 b hb
    · rw [hb]; exact ⟨hne, hf⟩
  · rw [e, List.map_append, ← h2]; rfl
  · rw [e, blocksPcm_append, ← List.append_assoc, ← h3]
    show l.out ++ blockPcm codec ch (fread inp l.pos ba)
      = l.out ++ (blockPcm codec ch (fread inp l.pos ba) ++ [])
    rw [List.append_nil]
  · rw [e, blocksLength_append]
    show l.pos + (fread inp l.pos ba).length
      = start + (blocksLength pre + blocksLength [fread inp l.pos ba])
    have e1 : blocksLength [fread inp l.pos ba] = (fread inp l.pos ba).length := by
      simp [blocksLength]
    rw [e1, h4]; omega
  · rw [e, blocksLength_append]
    show l.total + (fread inp l.pos ba).length
      = blocksLength pre + blocksLength [fread inp l.pos ba]
    have e1 : blocksLength [fread inp l.pos ba] = (fread inp l.pos ba).length := by
      simp [blocksLength]
    rw [e1, h5]
  · rw [h6, splitBlocks_fread hz, e, List.append_assoc]
    rfl

/-! ### The run as a whole -/

theorem loopRun_state (hdr : WaveHeader) (s : Scan) (r : LoopStep) :
    (loopRun hdr s r).blocks = r.state.blocks ∧ (loopRun hdr s r).total = r.state.total
      ∧ (loopRun hdr s r).progress = r.state.progress
      ∧ (loopRun hdr s r).updates = r.state.updates
      ∧ (loopRun hdr s r).pos = r.state.pos
      ∧ (loopRun hdr s r).allocated = true
      ∧ (loopRun hdr s r).notified = [] := by
  cases r <;> exact ⟨rfl, rfl, rfl, rfl, rfl, rfl, rfl⟩

/-- After the allocation: either a `malloc` failed, or the run is that of the transcode
loop. -/
theorem transcode_cases (env : Env) (inp : List Byte) (hdr : WaveHeader) (s : Scan) :
    ((env.mallocIn = false ∨ env.mallocOut = false)
        ∧ transcode env inp hdr s
          = { Run.init with pos := s.pos, out := dummy_header, hdrs := s.hdrs,
                            sawData := s.sawData, allocated := true, fail := some .alloc })
      ∨ (env.mallocIn = true ∧ env.mallocOut = true
        ∧ transcode env inp hdr s
          = loopRun hdr s (transcodeLoop env.codec env.progressOf inp hdr.block_align
              hdr.channels s.dataSize (s.dataSize + 1) (loopStart s.pos))) := by
  by_cases hm : env.mallocIn = false ∨ env.mallocOut = false
  · exact Or.inl ⟨hm, transcode_no_alloc hm⟩
  · have hm1 : env.mallocIn = true := by
      cases h : env.mallocIn with
      | true => rfl
      | false => exact absurd (Or.inl h) hm
    have hm2 : env.mallocOut = true := by
      cases h : env.mallocOut with
      | true => rfl
      | false => exact absurd (Or.inr h) hm
    exact Or.inr ⟨hm1, hm2, transcode_eq_loopRun hm1 hm2⟩

/-- Every call either stops before the allocation, or has both files open, a parsed `fmt `
header, a `data` chunk of non-zero declared size and a valid geometry, and goes on to the
allocation. -/
theorem decodeToPCM_cases (env : Env) :
    StoppedEarly (decodeToPCM env)
      ∨ ∃ inp hdr p s, env.opens inp
          ∧ readFmt env.junkCb env.junkVb inp = .ok hdr p
          ∧ scanLoop inp (inp.length + 1) (scanStart p) = .stop s
          ∧ s.dataSize ≠ 0 ∧ hdr.block_align < 65536 ∧ hdr.channels < 65536
          ∧ (hdr.block_align > 4 * hdr.channels ∧ hdr.channels > 0)
          ∧ decodeToPCM env = endLabel env true true (transcode env inp hdr s) := by
  by_cases h1 : env.listener = some false
  · left
    unfold decodeToPCM
    rw [if_pos h1]
    exact ⟨rfl, rfl, rfl, rfl, rfl, rfl, rfl, Or.inl rfl, (by intro h; cases h),
      (by intro h; cases h), (by intro h; cases h)⟩
  · cases h2 : env.inFile with
    | none =>
      left
      unfold decodeToPCM
      rw [if_neg h1, h2]
      exact ⟨rfl, rfl, rfl, rfl, rfl, rfl, rfl, Or.inl rfl, (by intro h; cases h),
        (by intro h; cases h), (by intro h; cases h)⟩
    | some inp =>
      by_cases h3 : env.outOk = false
      · left
        unfold decodeToPCM
        rw [if_neg h1, h2]
        dsimp only
        rw [if_pos h3]
        exact ⟨rfl, rfl, rfl, rfl, rfl, rfl, rfl, Or.inl rfl, (by intro h; cases h),
          (by intro h; cases h), (by intro h; cases h)⟩
      · have h3t : env.outOk = true := by
          cases h : env.outOk with
          | true => rfl
          | false => exact absurd h h3
        have hopen : env.opens inp := ⟨h1, h2, h3t⟩
        rw [decodeToPCM_of_opens hopen]
        rcases body_cases env inp with h | ⟨hdr, p, s, a, b, c, d, e, f, g⟩
        · exact Or.inl (stoppedEarly_endLabel h)
        · exact Or.inr ⟨inp, hdr, p, s, hopen, a, b, c, d, e, f, by rw [g]⟩

/-- The observables of a call that got to the allocation, in terms of the state the
transcode loop ended in (the start state when a `malloc` failed). -/
theorem decodeToPCM_loop (env : Env) :
    StoppedEarly (decodeToPCM env)
      ∨ ∃ inp hdr p s, env.opens inp
          ∧ readFmt env.junkCb env.junkVb inp = .ok hdr p
          ∧ scanLoop inp (inp.length + 1) (scanStart p) = .stop s
          ∧ s.dataSize ≠ 0 ∧ hdr.block_align < 65536 ∧ hdr.channels < 65536
          ∧ (hdr.block_align > 4 * hdr.channels ∧ hdr.channels > 0)
          ∧ (decodeToPCM env).allocated = true
          ∧ (((env.mallocIn = false ∨ env.mallocOut = false)
              ∧ (decodeToPCM env).fail = some Fail.alloc
              ∧ (decodeToPCM env).result = false
              ∧ (decodeToPCM env).blocks = [] ∧ (decodeToPCM env).total = 0
              ∧ (decodeToPCM env).progress = 0 ∧ (decodeToPCM env).updates = []
              ∧ (decodeToPCM env).out = dummy_header)
            ∨ (env.mallocIn = true ∧ env.mallocOut = true
              ∧ decodeToPCM env
                = endLabel env true true (loopRun hdr s (transcodeLoop env.codec env.progressOf
                    inp hdr.block_align hdr.channels s.dataSize (s.dataSize + 1)
                    (loopStart s.pos))))) := by
  rcases decodeToPCM_cases env with h | ⟨inp, hdr, p, s, a, b, c, d, e, f, g, h⟩
  · exact Or.inl h
  · right
    refine ⟨inp, hdr, p, s, a, b, c, d, e, f, g, ?_⟩
    rcases transcode_cases env inp hdr s with ⟨hm, ht⟩ | ⟨hm1, hm2, ht⟩
    · rw [h, ht]
      exact ⟨rfl, Or.inl ⟨hm, rfl, rfl, rfl, rfl, rfl, rfl, rfl⟩⟩
    · rw [h, ht]
      exact ⟨(loopRun_state hdr s _).2.2.2.2.2.1, Or.inr ⟨hm1, hm2, rfl⟩⟩

/-- With both files open, a parsed `fmt ` header and a scan that stopped, the call either
stops before the allocation or goes on to it with a non-zero data size and a valid
geometry. -/
theorem decodeToPCM_of_scan {env : Env} {inp : List Byte} {hdr : WaveHeader} {p : Nat}
    {s : Scan} (hopen : env.opens inp) (hfmt : readFmt env.junkCb env.junkVb inp = .ok hdr p)
    (hscan : scanLoop inp (inp.length + 1) (scanStart p) = .stop s) :
    StoppedEarly (decodeToPCM env)
      ∨ (s.dataSize ≠ 0 ∧ hdr.block_align < 65536 ∧ hdr.channels < 65536
          ∧ (hdr.block_align > 4 * hdr.channels ∧ hdr.channels > 0)
          ∧ decodeToPCM env = endLabel env true true (transcode env inp hdr s)) := by
  obtain ⟨_, hch, _, hba, _⟩ := readFmt_ok_fields hfmt
  have hb : hdr.block_align < 65536 := by rw [hba]; exact get16_lt _ _
  have hc : hdr.channels < 65536 := by rw [hch]; exact get16_lt _ _
  have hbody : body env inp = checks env inp hdr s := by
    rw [body_of_ok hfmt, hscan]
  rw [decodeToPCM_of_opens hopen, hbody]
  rcases @checks_split env inp hdr s hb hc with h | ⟨hz, hg, e⟩
  · exact Or.inl (stoppedEarly_endLabel h)
  · exact Or.inr ⟨hz, hb, hc, hg, by rw [e]⟩

/-- The progress bookkeeping holds in the state the loop ends in. -/
theorem transcodeLoop_progressInv {codec : Codec} {pf : Nat → Nat → Int} {inp : List Byte}
    {ba ch size : Nat} (fuel pos : Nat) :
    ProgressInv (transcodeLoop codec pf inp ba ch size fuel (loopStart pos)).state := by
  obtain ⟨l0, h0, h⟩ := @transcodeLoop_end codec pf inp ba ch size ProgressInv
    progressInv_step fuel (loopStart pos) (progressInv_start pos)
  rcases h with h | ⟨h, _⟩ | ⟨h, _⟩ | ⟨h, _⟩ <;> rw [h] <;> exact h0

/-- The byte accounting in the state the loop ends in. -/
theorem transcodeLoop_total {codec : Codec} {pf : Nat → Nat → Int} {inp : List Byte}
    {ba ch size : Nat} (hsize : 0 < size) (fuel pos : Nat) :
    (transcodeLoop codec pf inp ba ch size fuel (loopStart pos)).state.total < size + ba
      ∧ (transcodeLoop codec pf inp ba ch size fuel (loopStart pos)).state.blocks.length ≤ size
      ∧ (∀ l1, transcodeLoop codec pf inp ba ch size fuel (loopStart pos) = .exit l1 →
          size ≤ l1.total) := by
  obtain ⟨l0, ⟨a, b, c⟩, h⟩ := @transcodeLoop_end codec pf inp ba ch size (TotalInv ba size)
    totalInv_step fuel (loopStart pos) (totalInv_start pos hsize)
  rcases h with h | ⟨h, h1⟩ | ⟨h, _⟩ | ⟨h, h1, _⟩
  · rw [h]
    exact ⟨a, c, fun l1 e => by cases e⟩
  · rw [h]
    refine ⟨a, c, fun l1 e => ?_⟩
    rw [← LoopStep.exit.inj e]
    omega
  · rw [h]
    exact ⟨a, c, fun l1 e => by cases e⟩
  · rw [h]
    refine ⟨a, ?_, fun l1 e => by cases e⟩
    show (l0.blocks ++ [((fread inp l0.pos ba).length, 0)]).length ≤ size
    rw [List.length_append, List.length_singleton]
    omega

/-- A run of the transcode loop with the fuel `decodeToPCM` gives it does not fail for lack
of fuel. -/
theorem loopRun_fail_ne_fuel {codec : Codec} {pf : Nat → Nat → Int} {inp : List Byte}
    {ba ch size : Nat} (hdr : WaveHeader) (s : Scan) (pos : Nat) :
    (loopRun hdr s (transcodeLoop codec pf inp ba ch size (size + 1) (loopStart pos))).fail
      ≠ some Fail.fuel := by
  have hn := @transcodeLoop_ne_next codec pf inp ba ch size (size + 1) (loopStart pos)
    (by show size - 0 < size + 1; omega)
  cases hr : transcodeLoop codec pf inp ba ch size (size + 1) (loopStart pos) with
  | next l => exact absurd hr (hn l)
  | exit l => intro h; cases h
  | eof l => intro h; cases h
  | codecFail l => intro h; cases h

/-! ### Resources at the `end:` label -/

theorem decodeToPCM_endLabel (env : Env) : ∃ a b r, decodeToPCM env = endLabel env a b r := by
  unfold decodeToPCM
  by_cases h1 : env.listener = some false
  · rw [if_pos h1]; exact ⟨_, _, _, rfl⟩
  · rw [if_neg h1]
    cases env.inFile with
    | none => exact ⟨_, _, _, rfl⟩
    | some inp =>
      dsimp only
      by_cases h3 : env.outOk = false
      · rw [if_pos h3]; exact ⟨_, _, _, rfl⟩
      · rw [if_neg h3]; exact ⟨_, _, _, rfl⟩

/-- At `end:` on a path that jumped over the allocation, the buffers count as released
exactly when the indeterminate pointers are non-null; they were not acquired. -/
theorem endLabel_early (env : Env) (a b : Bool) (r : Run) (h : r.allocated = false) :
    Res.inBuf ∉ (endLabel env a b r).acquired ∧ Res.outBuf ∉ (endLabel env a b r).acquired
      ∧ (Res.inBuf ∈ (endLabel env a b r).released ↔ env.junkInBuf = true)
      ∧ (Res.outBuf ∈ (endLabel env a b r).released ↔ env.junkOutBuf = true) := by
  unfold endLabel
  dsimp only
  rw [h]
  cases env.junkInBuf <;> cases env.junkOutBuf <;> cases a <;> cases b <;>
    by_cases hl : env.listener = some true <;> simp [hl]

theorem decodeToPCM_notified (env : Env) : (decodeToPCM env).notified = [] := by
  rcases decodeToPCM_cases env with he | ⟨inp, hdr, p, s, _, _, _, _, _, _, _, h⟩
  · exact he.2.2.2.2.2.2.1
  · rcases transcode_cases env inp hdr s with ⟨_, ht⟩ | ⟨_, _, ht⟩
    · rw [h, ht]; rfl
    · rw [h, ht, endLabel_notified]
      exact (loopRun_state hdr s _).2.2.2.2.2.2

/-! ### Codec failure and success of the loop -/

theorem not_mem_map_blockEntry {codec : Codec} {ch : Nat} {pre : List (List Byte)}
    (h : ∀ b ∈ pre, b ≠ [] ∧ (codec b ch).frames ≠ 0) (n : Nat) :
    (n, 0) ∉ pre.map (blockEntry codec ch) := by
  intro hc
  rw [List.mem_map] at hc
  obtain ⟨b, hb, e⟩ := hc
  have e2 : (codec b ch).frames = 0 := congrArg Prod.snd e
  exact (h b hb).2 e2

theorem take_dummy_header (rest : List Byte) :
    (dummy_header ++ rest).take 44 = List.replicate 44 0 :=
  List.take_left' (by simp [dummy_header])

/-- The state the transcode loop of a call ends in, with the blocks that went through the
codec before the last round. -/
theorem transcodeLoop_trace {codec : Codec} {pf : Nat → Nat → Int} {inp : List Byte}
    {ba ch size : Nat} (fuel start : Nat) :
    ∃ l0, (TraceInv codec inp ba ch start l0 ∧ LoopInv ch l0) ∧
      (transcodeLoop codec pf inp ba ch size fuel (loopStart start) = .next l0
        ∨ (transcodeLoop codec pf inp ba ch size fuel (loopStart start) = .exit l0
            ∧ ¬ l0.total < size)
        ∨ (transcodeLoop codec pf inp ba ch size fuel (loopStart start) = .eof l0
            ∧ l0.total < size ∧ (fread inp l0.pos ba).length = 0)
        ∨ (transcodeLoop codec pf inp ba ch size fuel (loopStart start)
              = .codecFail { l0 with pos := l0.pos + (fread inp l0.pos ba).length,
                                     blocks := l0.blocks ++ [((fread inp l0.pos ba).length, 0)] }
            ∧ l0.total < size ∧ (fread inp l0.pos ba).length ≠ 0
            ∧ (codec (fread inp l0.pos ba) ch).frames = 0)) := by
  refine @transcodeLoop_end codec pf inp ba ch size
    (fun l => TraceInv codec inp ba ch start l ∧ LoopInv ch l) ?_ fuel (loopStart start)
    ⟨traceInv_start codec inp ba ch start, loopInv_start ch start⟩
  intro l l1 hl h
  refine ⟨traceInv_step l l1 hl.1 h, ?_⟩
  have k := @loopStep_inv codec pf inp ba ch size l hl.2
  rw [h] at k
  exact k

theorem header_fields_mono (n : Nat) (rest : List Byte) :
    get16 (write_pcm_wav_header 1 8000 16 n ++ rest) 20 = 1
      ∧ get16 (write_pcm_wav_header 1 8000 16 n ++ rest) 22 = 1
      ∧ get32 (write_pcm_wav_header 1 8000 16 n ++ rest) 24 = 8000
      ∧ get16 (write_pcm_wav_header 1 8000 16 n ++ rest) 32 = 2
      ∧ get16 (write_pcm_wav_header 1 8000 16 n ++ rest) 34 = 16 := by
  have e1 : u16 (WAVE_FORMAT_PCM : Nat) = 1 := by decide
  have e2 : u16 16 = 16 := by decide
  have e3 : u16 1 = 1 := by decide
  have e4 : u32 8000 = 8000 := by decide
  have e5 : u16 (int32 (Int.tdiv (int32 (1 * 16)) 8)) = 2 := by decide
  unfold write_pcm_wav_header
  dsimp only
  rw [e1, e2, e3, e4, e5]
  simp only [tagRIFF, tagWAVE, tagFmt, tagData, le32, le16, get16, get32, List.cons_append,
    List.nil_append, List.getD_cons_zero, List.getD_cons_succ, List.append_assoc]
  decide

/-! ### Reading the output header back -/

theorem u16_lt (x : Int) : u16 x < 65536 := by
  unfold u16; omega

theorem u32_lt (x : Int) : u32 x < 4294967296 := by
  unfold u32; omega

/-- A 16-bit value passed through `int` and stored in a `uint16_t` is unchanged. -/
theorem u16_int32 {c : Nat} (h : c < 65536) : u16 (int32 c) = c := by
  unfold u16 int32; omega

/-- A 32-bit value passed through `int` and stored in a `uint32_t` is unchanged. -/
theorem u32_int32 {r : Nat} (h : r < 4294967296) : u32 (int32 r) = r := by
  unfold u32 int32; omega

/-- The `fmt ` fields of the header that `write_pcm_wav_header` emits for 16 bits per
sample, read back at their offsets. -/
theorem header_fields (c r : Int) (n : Nat) (rest : List Byte) :
    get16 (write_pcm_wav_header c r 16 n ++ rest) 20 = 1
      ∧ get16 (write_pcm_wav_header c r 16 n ++ rest) 22 = u16 c
      ∧ get32 (write_pcm_wav_header c r 16 n ++ rest) 24 = u32 r
      ∧ get16 (write_pcm_wav_header c r 16 n ++ rest) 32 = u16 (c * 2)
      ∧ get16 (write_pcm_wav_header c r 16 n ++ rest) 34 = 16 := by
  have e1 : u16 (WAVE_FORMAT_PCM : Nat) = 1 := by decide
  have e2 : u16 16 = 16 := by decide
  have h1 := u16_lt c
  have h2 := u32_lt r
  have h3 := u16_lt (c * 2)
  unfold write_pcm_wav_header
  dsimp only
  rw [blockAlign_field, e1, e2]
  simp only [tagRIFF, tagWAVE, tagFmt, tagData, le32, le16, get16, get32, List.cons_append,
    List.nil_append, List.getD_cons_zero, List.getD_cons_succ, List.append_assoc, Fin.ofNat]
  refine ⟨by decide, ?_, ?_, ?_, by decide⟩ <;> omega

/-! ### Whether the call returns -/

/-- With null indeterminate buffer pointers nothing is freed that was not allocated, and the
call returns. -/
theorem endLabel_returns {env : Env} {a b : Bool} {r : Run} (h1 : env.junkInBuf = false)
    (h2 : env.junkOutBuf = false) : (endLabel env a b r).returns = true := by
  unfold endLabel
  dsimp only
  rw [h1, h2]
  cases r.allocated <;> rfl

/-- Past the allocation the pointers freed at `end:` are those `malloc` returned, and the
call returns. -/
theorem endLabel_returns_allocated {env : Env} {a b : Bool} {r : Run}
    (h : r.allocated = true) : (endLabel env a b r).returns = true := by
  unfold endLabel
  dsimp only
  rw [h]
  rfl

/-- With a `fmt ` header declaring at least 16 bytes of which fewer than 16 follow, the
parse stops at the read of the base fields. -/
theorem readFmt_short {j1 j2 : Nat} {inp : List Byte} (h : riffWave inp)
    (hlen : 20 ≤ inp.length) (hshort : inp.length < 36)
    (htag : (inp.drop 12).take 4 = tagFmt) (hsize : 16 ≤ get32 (inp.drop 12) 4) :
    readFmt j1 j2 inp = .fail .fmtShort inp.length := by
  rw [readFmt_of_riffWave h]
  dsimp only
  have c3 : ¬ ((fread inp 12 8).length ≠ 8 ∨ (fread inp 12 8).take 4 ≠ tagFmt) := by
    rw [not_or, not_not, not_not, length_fread, take_fread (by omega)]
    exact ⟨by omega, htag⟩
  have c4 : ¬ get32 (fread inp 12 8) 4 < 16 := by
    rw [get32_fread (by omega)]; omega
  have c5 : (fread inp 20 16).length ≠ 16 := by
    rw [length_fread]; omega
  have e : 20 + (fread inp 20 16).length = inp.length := by
    rw [length_fread]; omega
  rw [if_neg c3, if_neg c4, if_pos c5, e]

/-! ### Runs on a payload that ends before the declared size -/

/-- A run on a payload that ends before the declared size ends in `finish`, entered from
the zero-byte read, with one log entry per block of the payload. -/
theorem decode_truncated (env : Env) (inp : List Byte) (hdr : WaveHeader) (pos : Nat)
    (s : Scan) (hopen : env.opens inp)
    (hm1 : env.mallocIn = true) (hm2 : env.mallocOut = true)
    (hfmt : readFmt env.junkCb env.junkVb inp = .ok hdr pos)
    (hscan : scanLoop inp (inp.length + 1) (scanStart pos) = .stop s)
    (hgeo : hdr.block_align > 4 * hdr.channels ∧ hdr.channels > 0)
    (hshort : (inp.drop s.pos).length < s.dataSize)
    (hcodec : ∀ blk ∈ splitBlocks hdr.block_align (inp.drop s.pos),
      (env.codec blk hdr.channels).frames ≠ 0) :
    ∃ l1, decodeToPCM env = endLabel env true true (finish hdr s l1 true)
      ∧ LoopInv hdr.channels l1
      ∧ l1.out = List.replicate 44 0
          ++ (splitBlocks hdr.block_align (inp.drop s.pos)).flatMap
              (blockPcm env.codec hdr.channels)
      ∧ l1.total = (inp.drop s.pos).length
      ∧ l1.blocks = (splitBlocks hdr.block_align (inp.drop s.pos)).map
          (fun b => (b.length, (env.codec b hdr.channels).frames)) := by
  obtain ⟨-, hch, -, hba, -⟩ := readFmt_ok_fields hfmt
  have hb16 : hdr.block_align < 65536 := by rw [hba]; exact get16_lt _ _
  have hc16 : hdr.channels < 65536 := by rw [hch]; exact get16_lt _ _
  have hz : s.dataSize ≠ 0 := by omega
  have key := @transcodeLoop_truncated env.codec env.progressOf inp
    hdr.block_align hdr.channels s.dataSize (by omega) (s.dataSize + 1) (loopStart s.pos)
  have e1 : (loopStart s.pos).pos = s.pos := rfl
  have e2 : (loopStart s.pos).total = 0 := rfl
  have e3 : (loopStart s.pos).out = List.replicate 44 0 := rfl
  have e4 : (loopStart s.pos).blocks = [] := rfl
  rw [e1, e2, e3, e4] at key
  obtain ⟨l1, r1, -, r3, r4, r5⟩ := key (by omega) (by omega) hcodec
  have hinv := @transcodeLoop_inv env.codec env.progressOf inp hdr.block_align hdr.channels
    s.dataSize (s.dataSize + 1) (loopStart s.pos) (loopInv_start _ _)
  rw [r1] at hinv
  refine ⟨l1, ?_, hinv, r3, by rw [r4]; omega, by rw [r5, List.nil_append]⟩
  rw [decodeToPCM_of_opens hopen, body_of_ok hfmt, hscan]
  dsimp only
  rw [checks_pass hz hb16 hc16 hgeo, transcode_of_alloc hm1 hm2, r1]

theorem exampleLargeTruncated_fmt :
    readFmt 0 0 exampleLargeTruncated
      = .ok { format_tag := 17, channels := 1, sample_rate := 8000, bytes_per_second := 0,
              block_align := 65532, bits_per_sample := 4, cb_size := 2,
              valid_bits_per_sample := 9 } 40 := by
  decide

theorem exampleLargeTruncated_length :
    exampleLargeTruncated.length = 48 + 1073807352 := by
  unfold exampleLargeTruncated
  rw [List.length_append, List.length_replicate]
  rfl

theorem exampleLargeTruncated_drop :
    exampleLargeTruncated.drop 48 = List.replicate 1073807352 0 := by
  unfold exampleLargeTruncated
  exact List.drop_left' (by decide)

theorem exampleLargeTruncated_scan :
    scanLoop exampleLargeTruncated (exampleLargeTruncated.length + 1) (scanStart 40)
      = .stop { pos := 48, fact := 0, dataSize := 1073807353, hdrs := 1, sawData := true } := by
  have h1 : (scanStart 40).pos + 8 ≤ exampleLargeTruncated.length := by
    rw [exampleLargeTruncated_length]; decide
  have h2 : (exampleLargeTruncated.drop (scanStart 40).pos).take 4 = tagData := by decide
  have h3 : get32 (exampleLargeTruncated.drop (scanStart 40).pos) 4 = 1073807353 := by decide
  rw [scanLoop_succ, scanStep_data h1 h2, h3]
  rfl

/-- C1: for 16-bit `blockAlign`, `channels` with `blockAlign > 4*channels` and
`channels > 0`, the computed `samples_per_block` is exactly
`((blockAlign / channels) - 4) * 2 + 1` with truncating division, the value agrees with the
same formula over the naturals, and it lies in `[1, 2^31)`, so no `int` operation wraps. -/
theorem C1_samples_per_block_exact (blockAlign channels : Nat)
    (hb : blockAlign < 65536) (hc : channels < 65536)
    (hgeo : blockAlign > 4 * channels) (hpos : channels > 0) :
    samplesPerBlock (blockAlign : Int) (channels : Int)
        = some ((Int.tdiv (blockAlign : Int) (channels : Int) - 4) * 2 + 1)
      ∧ (Int.tdiv (blockAlign : Int) (channels : Int) - 4) * 2 + 1
        = (((blockAlign / channels - 4) * 2 + 1 : Nat) : Int)
      ∧ 1 ≤ (blockAlign / channels - 4) * 2 + 1
      ∧ (blockAlign / channels - 4) * 2 + 1 < 2147483648 := by
  have hq4 : 4 ≤ blockAlign / channels := by
    rw [Nat.le_div_iff_mul_le hpos]; omega
  have hqle : blockAlign / channels ≤ blockAlign := Nat.div_le_self _ _
  have htd : Int.tdiv (blockAlign : Int) (channels : Int) = ((blockAlign / channels : Nat) : Int) := by
    exact (Int.ofNat_tdiv blockAlign channels).symm
  refine ⟨?_, ?_, by omega, by omega⟩
  · unfold samplesPerBlock
    rw [htd]
    have e1 : int32 (4 * (channels : Int)) = 4 * (channels : Int) :=
      int32_of_range (by omega) (by omega)
    have e0 : int32 ((blockAlign / channels : Nat) : Int) = ((blockAlign / channels : Nat) : Int) :=
      int32_of_range (by omega) (by omega)
    have e2 : int32 (((blockAlign / channels : Nat) : Int) - 4)
        = ((blockAlign / channels : Nat) : Int) - 4 := int32_of_range (by omega) (by omega)
    have e3 : int32 ((((blockAlign / channels : Nat) : Int) - 4) * 2)
        = (((blockAlign / channels : Nat) : Int) - 4) * 2 := int32_of_range (by omega) (by omega)
    have e4 : int32 ((((blockAlign / channels : Nat) : Int) - 4) * 2 + 1)
        = (((blockAlign / channels : Nat) : Int) - 4) * 2 + 1 :=
      int32_of_range (by omega) (by omega)
    simp only [e0, e1, e2, e3, e4]
    have hc1 : (blockAlign : Int) > 4 * (channels : Int) ∧ (channels : Int) > 0 := by
      constructor <;> omega
    rw [if_pos hc1]
  · rw [htd]; omega

theorem C1_samples_per_block_exact_witness :
    samplesPerBlock (256 : Nat) (1 : Nat) = some ((Int.tdiv (256 : Nat) (1 : Nat) - 4) * 2 + 1)
      ∧ (Int.tdiv ((256 : Nat) : Int) ((1 : Nat) : Int) - 4) * 2 + 1
        = (((256 / 1 - 4) * 2 + 1 : Nat) : Int)
      ∧ 1 ≤ (256 / 1 - 4) * 2 + 1
      ∧ (256 / 1 - 4) * 2 + 1 < 2147483648 :=
  C1_samples_per_block_exact 256 1 (by decide) (by decide) (by decide) (by decide)

/-- C6: when the first 8 bytes cannot be read or do not start with `RIFF`, or the next 4
bytes are missing or are not `WAVE`, `decodeToPCM` returns, with failure (at the RIFF or the
WAVE test), and the output file holds exactly the 44 zero bytes of the placeholder. The
return needs the two buffer pointers, which this path leaves indeterminate, to be null: a
non-null one is handed to `free` at `end:`. -/
theorem C6_bad_magic_fails (env : Env) (inp : List Byte) (hopen : env.opens inp)
    (hj1 : env.junkInBuf = false) (hj2 : env.junkOutBuf = false)
    (hbad : inp.length < 8 ∨ inp.take 4 ≠ tagRIFF ∨ inp.length < 12
              ∨ (inp.drop 8).take 4 ≠ tagWAVE) :
    (decodeToPCM env).returns = true
      ∧ (decodeToPCM env).result = false
      ∧ (decodeToPCM env).out = List.replicate 44 0
      ∧ ((decodeToPCM env).fail = some Fail.notRiff
          ∨ (decodeToPCM env).fail = some Fail.notWave) := by
  obtain ⟨why, p, hr, hw⟩ := @readFmt_bad_magic env.junkCb env.junkVb inp hbad
  rw [decodeToPCM_of_opens hopen, body_of_fail hr]
  refine ⟨endLabel_returns hj1 hj2, rfl, rfl, ?_⟩
  rcases hw with hw | hw <;> subst hw
  · exact Or.inl rfl
  · exact Or.inr rfl

theorem C6_bad_magic_fails_witness :
    (exampleEnv [82, 73, 70, 88, 0, 0, 0, 0, 87, 65, 86, 69]).opens
        [82, 73, 70, 88, 0, 0, 0, 0, 87, 65, 86, 69]
      ∧ (decodeToPCM (exampleEnv [82, 73, 70, 88, 0, 0, 0, 0, 87, 65, 86, 69])).returns = true
      ∧ (decodeToPCM (exampleEnv [82, 73, 70, 88, 0, 0, 0, 0, 87, 65, 86, 69])).result = false
      ∧ (decodeToPCM (exampleEnv [82, 73, 70, 88, 0, 0, 0, 0, 87, 65, 86, 69])).out
          = List.replicate 44 0 :=
  have h := C6_bad_magic_fails (exampleEnv [82, 73, 70, 88, 0, 0, 0, 0, 87, 65, 86, 69])
    [82, 73, 70, 88, 0, 0, 0, 0, 87, 65, 86, 69] ⟨by decide, rfl, rfl⟩ rfl rfl (by decide)
  ⟨⟨by decide, rfl, rfl⟩, h.1, h.2.1, h.2.2.1⟩

/-- C7: with a valid `RIFF`/`WAVE` prefix and a `fmt ` chunk of declared size at least 16
whose format tag is not `0x0011`, `decodeToPCM` returns, with failure, the scan loop having
read no chunk header, and the output file holds exactly the 44-byte zero placeholder. When
the 16 base bytes are present the site is the format-tag test, with the input cursor at
offset 36, right after them; when the input ends before offset 36 it is the read of the base
bytes. The return needs the two buffer pointers, which this path leaves indeterminate, to be
null: a non-null one is handed to `free` at `end:`. -/
theorem C7_unsupported_format_fails (env : Env) (inp : List Byte) (hopen : env.opens inp)
    (hj1 : env.junkInBuf = false) (hj2 : env.junkOutBuf = false)
    (hpre : riffWave inp) (hlen : 22 ≤ inp.length) (htag : (inp.drop 12).take 4 = tagFmt)
    (hsize : 16 ≤ get32 (inp.drop 12) 4)
    (hfmt : get16 (inp.drop 20) 0 ≠ WAVE_FORMAT_IMA_ADPCM) :
    (decodeToPCM env).returns = true
      ∧ (decodeToPCM env).result = false
      ∧ (decodeToPCM env).hdrs = 0
      ∧ (decodeToPCM env).sawData = false
      ∧ (decodeToPCM env).allocated = false
      ∧ (decodeToPCM env).out = List.replicate 44 0
      ∧ (36 ≤ inp.length →
          (decodeToPCM env).fail = some Fail.unsupported ∧ (decodeToPCM env).pos = 36)
      ∧ (inp.length < 36 → (decodeToPCM env).fail = some Fail.fmtShort) := by
  by_cases h36 : 36 ≤ inp.length
  · have hr : readFmt env.junkCb env.junkVb inp = .fail .unsupported 36 := by
      rw [readFmt_of_fmt hpre h36 htag hsize]
      unfold fmtExtension
      rw [if_neg (by simpa [baseHeader] using hfmt)]
    rw [decodeToPCM_of_opens hopen, body_of_fail hr]
    exact ⟨endLabel_returns hj1 hj2, rfl, rfl, rfl, rfl, rfl, fun _ => ⟨rfl, rfl⟩,
      fun h => absurd h36 (by omega)⟩
  · have hr : readFmt env.junkCb env.junkVb inp = .fail .fmtShort inp.length :=
      readFmt_short hpre (by omega) (by omega) htag hsize
    rw [decodeToPCM_of_opens hopen, body_of_fail hr]
    exact ⟨endLabel_returns hj1 hj2, rfl, rfl, rfl, rfl, rfl, fun h => absurd h h36,
      fun _ => rfl⟩

theorem C7_unsupported_format_fails_witness :
    get16 ((exampleHead 1 1 8000 256 ++ tagData ++ le32 4 ++ [0, 0, 0, 0]).drop 20) 0 = 1
      ∧ (decodeToPCM (exampleEnv
            (exampleHead 1 1 8000 256 ++ tagData ++ le32 4 ++ [0, 0, 0, 0]))).returns = true
      ∧ (decodeToPCM (exampleEnv
            (exampleHead 1 1 8000 256 ++ tagData ++ le32 4 ++ [0, 0, 0, 0]))).result = false
      ∧ (decodeToPCM (exampleEnv
            (exampleHead 1 1 8000 256 ++ tagData ++ le32 4 ++ [0, 0, 0, 0]))).fail
          = some Fail.unsupported
      ∧ (decodeToPCM (exampleEnv
            (exampleHead 1 1 8000 256 ++ tagData ++ le32 4 ++ [0, 0, 0, 0]))).pos = 36 :=
  have h := C7_unsupported_format_fails
    (exampleEnv (exampleHead 1 1 8000 256 ++ tagData ++ le32 4 ++ [0, 0, 0, 0]))
    (exampleHead 1 1 8000 256 ++ tagData ++ le32 4 ++ [0, 0, 0, 0])
    ⟨by decide, rfl, rfl⟩ rfl rfl ⟨by decide, by decide, by decide⟩ (by decide) (by decide)
    (by decide) (by decide)
  ⟨by decide, h.1, h.2.1, (h.2.2.2.2.2.2.1 (by decide)).1, (h.2.2.2.2.2.2.1 (by decide)).2⟩

/-- C8: with a valid `RIFF`/`WAVE` prefix, when the next chunk header is missing or is not
tagged `fmt `, or declares fewer than 16 bytes, or fewer than 16 payload bytes follow it,
`decodeToPCM` returns, with failure at one of the three `fmt ` sites; no buffer is
allocated, the codec is never called and the output file holds only the placeholder. The
return needs the two buffer pointers, which this path leaves indeterminate, to be null: a
non-null one is handed to `free` at `end:`. -/
theorem C8_missing_fmt_fails (env : Env) (inp : List Byte) (hopen : env.opens inp)
    (hj1 : env.junkInBuf = false) (hj2 : env.junkOutBuf = false) (hpre : riffWave inp)
    (hbad : inp.length < 20 ∨ (inp.drop 12).take 4 ≠ tagFmt ∨ get32 (inp.drop 12) 4 < 16
              ∨ inp.length < 36) :
    (decodeToPCM env).returns = true
      ∧ (decodeToPCM env).result = false
      ∧ ((decodeToPCM env).fail = some Fail.missingFmt
          ∨ (decodeToPCM env).fail = some Fail.fmtTooSmall
          ∨ (decodeToPCM env).fail = some Fail.fmtShort)
      ∧ (decodeToPCM env).allocated = false
      ∧ (decodeToPCM env).blocks = []
      ∧ (decodeToPCM env).out = List.replicate 44 0 := by
  have hr : ∃ why p, readFmt env.junkCb env.junkVb inp = .fail why p
      ∧ (why = .missingFmt ∨ why = .fmtTooSmall ∨ why = .fmtShort) := by
    rw [readFmt_of_riffWave hpre]
    dsimp only
    by_cases c3 : (fread inp 12 8).length ≠ 8 ∨ (fread inp 12 8).take 4 ≠ tagFmt
    · rw [if_pos c3]; exact ⟨_, _, rfl, Or.inl rfl⟩
    · rw [if_neg c3]
      rw [not_or, not_not, not_not, length_fread, take_fread (by omega)] at c3
      by_cases c4 : get32 (fread inp 12 8) 4 < 16
      · rw [if_pos c4]; exact ⟨_, _, rfl, Or.inr (Or.inl rfl)⟩
      · rw [if_neg c4]
        rw [get32_fread (by omega)] at c4
        have c5 : (fread inp 20 16).length ≠ 16 := by
          rw [length_fread]
          rcases hbad with h | h | h | h
          · omega
          · exact absurd c3.2 h
          · omega
          · omega
        rw [if_pos c5]; exact ⟨_, _, rfl, Or.inr (Or.inr rfl)⟩
  obtain ⟨why, p, hr, hw⟩ := hr
  rw [decodeToPCM_of_opens hopen, body_of_fail hr]
  refine ⟨endLabel_returns hj1 hj2, rfl, ?_, rfl, rfl, rfl⟩
  rcases hw with hw | hw | hw <;> subst hw
  · exact Or.inl rfl
  · exact Or.inr (Or.inl rfl)
  · exact Or.inr (Or.inr rfl)

theorem C8_missing_fmt_fails_witness :
    (decodeToPCM (exampleEnv
        (tagRIFF ++ le32 100 ++ tagWAVE ++ tagFact ++ le32 4 ++ le32 1000
          ++ (exampleHead 17 1 8000 256).drop 12))).returns = true
      ∧ (decodeToPCM (exampleEnv
        (tagRIFF ++ le32 100 ++ tagWAVE ++ tagFact ++ le32 4 ++ le32 1000
          ++ (exampleHead 17 1 8000 256).drop 12))).result = false
      ∧ (decodeToPCM (exampleEnv
        (tagRIFF ++ le32 100 ++ tagWAVE ++ tagFact ++ le32 4 ++ le32 1000
          ++ (exampleHead 17 1 8000 256).drop 12))).blocks = [] :=
  have h := C8_missing_fmt_fails
    (exampleEnv (tagRIFF ++ le32 100 ++ tagWAVE ++ tagFact ++ le32 4 ++ le32 1000
      ++ (exampleHead 17 1 8000 256).drop 12))
    (tagRIFF ++ le32 100 ++ tagWAVE ++ tagFact ++ le32 4 ++ le32 1000
      ++ (exampleHead 17 1 8000 256).drop 12)
    ⟨by decide, rfl, rfl⟩ rfl rfl ⟨by decide, by decide, by decide⟩ (by decide)
  ⟨h.1, h.2.1, h.2.2.2.2.1⟩

/-- C4: called with 16 bits per sample, `write_pcm_wav_header` emits exactly 44 bytes, as
many as the zero placeholder, and they are the layout of the specification: `RIFF`, u32
`36 + pcm_data_size`, `WAVE`, `fmt `, u32 16, u16 format tag 1, u16 channels, u32 sample
rate, u32 byte rate (sample rate times the block-align field), u16 block align
`channels * 2`, u16 16, `data`, u32 `pcm_data_size`, every field little-endian at its
width. -/
theorem C4_header_layout (channels sample_rate : Int) (pcm_data_size : Nat) :
    write_pcm_wav_header channels sample_rate 16 pcm_data_size
        = specHeader channels sample_rate pcm_data_size
      ∧ (write_pcm_wav_header channels sample_rate 16 pcm_data_size).length = 44
      ∧ (write_pcm_wav_header channels sample_rate 16 pcm_data_size).length
          = dummy_header.length := by
  refine ⟨?_, by simp [write_pcm_wav_header, tagRIFF, tagWAVE, tagFmt, tagData, le32, le16],
    by simp [write_pcm_wav_header, tagRIFF, tagWAVE, tagFmt, tagData, le32, le16, dummy_header]⟩
  unfold write_pcm_wav_header specHeader
  dsimp only
  rw [blockAlign_field, le32_mod, le32_mod, le32_mod]
  have e1 : u16 (WAVE_FORMAT_PCM : Nat) = 1 := by decide
  have e2 : u16 16 = 16 := by decide
  rw [e1, e2]
  simp only [List.append_assoc]

/-- C5: in the scan loop, a chunk header read in full whose tag is neither `data` nor `fact`
moves the cursor to the position just after the 8 header bytes plus the declared size (any
32-bit value, no padding byte); the fact count, the data size and the data flag of the scan
state are unchanged, and the loop goes round again from that state. The parsed `WaveHeader`
is no part of the scan state. -/
theorem C5_unknown_chunk_skipped (inp : List Byte) (s : Scan) (fuel : Nat)
    (hhdr : s.pos + 8 ≤ inp.length)
    (hdata : (inp.drop s.pos).take 4 ≠ tagData) (hfact : (inp.drop s.pos).take 4 ≠ tagFact) :
    scanStep inp s = .next { s with pos := s.pos + 8 + get32 (inp.drop s.pos) 4,
                                    hdrs := s.hdrs + 1 }
      ∧ get32 (inp.drop s.pos) 4 < 4294967296
      ∧ scanLoop inp (fuel + 1) s
          = scanLoop inp fuel { s with pos := s.pos + 8 + get32 (inp.drop s.pos) 4,
                                       hdrs := s.hdrs + 1 } := by
  refine ⟨scanStep_unknown hhdr hdata hfact, get32_lt _ _, ?_⟩
  rw [scanLoop_succ, scanStep_unknown hhdr hdata hfact]

theorem C5_unknown_chunk_skipped_witness :
    get32 ((exampleHead 17 1 8000 256 ++ [76, 73, 83, 84] ++ le32 3 ++ [1, 2, 3]).drop 40) 4 = 3
      ∧ scanStep (exampleHead 17 1 8000 256 ++ [76, 73, 83, 84] ++ le32 3 ++ [1, 2, 3])
            (scanStart 40)
          = .next { scanStart 40 with pos := 51, hdrs := 1 } :=
  ⟨by decide,
   (C5_unknown_chunk_skipped
      (exampleHead 17 1 8000 256 ++ [76, 73, 83, 84] ++ le32 3 ++ [1, 2, 3]) (scanStart 40) 0
      (by decide) (by decide) (by decide)).1⟩

/-- C2: when the parsed `fmt ` chunk has `blockAlign <= 4 * channels` or `channels = 0`,
`decodeToPCM` returns, with failure, without executing the two allocations, without calling
the codec and with nothing but the placeholder in the output file. The site is the geometry
test whenever the scan finds a data chunk of non-zero declared size (the otherwise valid
input); else it is the fact read or the data-size test, both of which come earlier. The
return needs the two buffer pointers, which this path leaves indeterminate, to be null: a
non-null one is handed to `free` at `end:`. -/
theorem C2_bad_geometry_fails (env : Env) (inp : List Byte) (hdr : WaveHeader) (pos : Nat)
    (hopen : env.opens inp) (hj1 : env.junkInBuf = false) (hj2 : env.junkOutBuf = false)
    (hfmt : readFmt env.junkCb env.junkVb inp = .ok hdr pos)
    (hgeo : hdr.block_align ≤ 4 * hdr.channels ∨ hdr.channels = 0) :
    (decodeToPCM env).returns = true
      ∧ (decodeToPCM env).result = false
      ∧ (decodeToPCM env).allocated = false
      ∧ (decodeToPCM env).blocks = []
      ∧ (decodeToPCM env).out = List.replicate 44 0
      ∧ ((decodeToPCM env).fail = some Fail.geometry ∨ (decodeToPCM env).fail = some Fail.noData
          ∨ (decodeToPCM env).fail = some Fail.factRead)
      ∧ (∀ s, scanLoop inp (inp.length + 1) (scanStart pos) = .stop s → s.dataSize ≠ 0 →
          (decodeToPCM env).fail = some Fail.geometry) := by
  obtain ⟨-, hch, -, hba, -⟩ := readFmt_ok_fields hfmt
  have hnone : samplesPerBlock (int32 hdr.block_align) (int32 hdr.channels) = none :=
    samplesPerBlock_none (by rw [hba]; exact get16_lt _ _) (by rw [hch]; exact get16_lt _ _) hgeo
  rw [decodeToPCM_of_opens hopen, body_of_ok hfmt]
  cases hs : scanLoop inp (inp.length + 1) (scanStart pos) with
  | next s => exact absurd hs (scanLoop_ne_next _ _ (by omega) s)
  | fail s =>
    refine ⟨endLabel_returns hj1 hj2, rfl, rfl, rfl, rfl, Or.inr (Or.inr rfl), ?_⟩
    intro s1 h1; cases h1
  | stop s =>
    dsimp only
    by_cases hz : s.dataSize = 0
    · rw [checks_noData hz]
      refine ⟨endLabel_returns hj1 hj2, rfl, rfl, rfl, rfl, Or.inr (Or.inl rfl), ?_⟩
      intro s1 h1 h2
      have e := ScanStep.stop.inj h1
      rw [← e] at h2
      exact absurd hz h2
    · rw [checks_geometry hz hnone]
      exact ⟨endLabel_returns hj1 hj2, rfl, rfl, rfl, rfl, Or.inl rfl, fun _ _ _ => rfl⟩

theorem C2_bad_geometry_fails_witness :
    readFmt 0 0 (exampleHead 17 2 8000 8 ++ tagData ++ le32 8 ++ [0, 0, 0, 0, 0, 0, 0, 0])
        = .ok { format_tag := 17, channels := 2, sample_rate := 8000, bytes_per_second := 0,
                block_align := 8, bits_per_sample := 4, cb_size := 2,
                valid_bits_per_sample := 9 } 40
      ∧ (decodeToPCM (exampleEnv (exampleHead 17 2 8000 8 ++ tagData ++ le32 8
            ++ [0, 0, 0, 0, 0, 0, 0, 0]))).returns = true
      ∧ (decodeToPCM (exampleEnv (exampleHead 17 2 8000 8 ++ tagData ++ le32 8
            ++ [0, 0, 0, 0, 0, 0, 0, 0]))).result = false
      ∧ (decodeToPCM (exampleEnv (exampleHead 17 2 8000 8 ++ tagData ++ le32 8
            ++ [0, 0, 0, 0, 0, 0, 0, 0]))).allocated = false
      ∧ (decodeToPCM (exampleEnv (exampleHead 17 2 8000 8 ++ tagData ++ le32 8
            ++ [0, 0, 0, 0, 0, 0, 0, 0]))).fail = some Fail.geometry :=
  have h := C2_bad_geometry_fails
    (exampleEnv (exampleHead 17 2 8000 8 ++ tagData ++ le32 8 ++ [0, 0, 0, 0, 0, 0, 0, 0]))
    (exampleHead 17 2 8000 8 ++ tagData ++ le32 8 ++ [0, 0, 0, 0, 0, 0, 0, 0])
    { format_tag := 17, channels := 2, sample_rate := 8000, bytes_per_second := 0,
      block_align := 8, bits_per_sample := 4, cb_size := 2, valid_bits_per_sample := 9 } 40
    ⟨by decide, rfl, rfl⟩ rfl rfl (by decide) (by decide)
  ⟨by decide, h.1, h.2.1, h.2.2.1,
    h.2.2.2.2.2.2 { pos := 48, fact := 0, dataSize := 8, hdrs := 1, sawData := true }
      (by decide) (by decide)⟩

/-- C3 (amended): for every successful run of `decodeToPCM` in which the codec returned frame
counts summing to `N`, with `channels` the channel count of the `fmt ` chunk, exactly
`N * channels * 2` payload bytes follow the 44-byte header, and the data chunk size field of
the header holds `N * channels * 2` modulo `2 ^ 32`, hence that number itself whenever it is
below `2 ^ 32`. -/
theorem C3_data_size_field (env : Env) (inp : List Byte) (hopen : env.opens inp)
    (hres : (decodeToPCM env).result = true) :
    (decodeToPCM env).out.length
        = 44 + framesSum (decodeToPCM env).blocks * get16 (inp.drop 20) 2 * 2
      ∧ get32 (decodeToPCM env).out 40
        = (framesSum (decodeToPCM env).blocks * get16 (inp.drop 20) 2 * 2) % 4294967296
      ∧ (framesSum (decodeToPCM env).blocks * get16 (inp.drop 20) 2 * 2 < 4294967296 →
          get32 (decodeToPCM env).out 40
            = framesSum (decodeToPCM env).blocks * get16 (inp.drop 20) 2 * 2) := by
  rw [decodeToPCM_of_opens hopen] at hres ⊢
  rw [endLabel_result] at hres
  rw [endLabel_out, endLabel_blocks]
  obtain ⟨hdr, p, s, l, vb, hfmt, hinv, hb⟩ := body_success hres
  obtain ⟨-, hch, -, -, -⟩ := readFmt_ok_fields hfmt
  obtain ⟨-, f2, -, f4, f5⟩ := finish_facts hdr s l vb hinv
  rw [hb, f2, f4, f5, ← hch]
  refine ⟨rfl, rfl, ?_⟩
  intro hlt
  exact Nat.mod_eq_of_lt hlt

theorem C3_data_size_field_witness :
    (decodeToPCM (exampleEnv exampleTruncated)).result = true
      ∧ (decodeToPCM (exampleEnv exampleTruncated)).out.length
          = 44 + framesSum (decodeToPCM (exampleEnv exampleTruncated)).blocks
              * get16 (exampleTruncated.drop 20) 2 * 2
      ∧ get32 (decodeToPCM (exampleEnv exampleTruncated)).out 40 = 20 :=
  have h := C3_data_size_field (exampleEnv exampleTruncated) exampleTruncated
    ⟨by decide, rfl, rfl⟩ (by decide)
  ⟨by decide, h.1, by decide⟩

/-- C3, counterexample: a well-formed mono input of 16386 blocks of 65532 bytes, decoded by a
codec that returns 131057 frames per block (the block's capacity), succeeds; the frame
counts sum to `N` with `N * channels * 2 = 4295000004`, but the data chunk size field of the
output header holds 32708. -/
theorem C3_counterexample :
    (decodeToPCM (exampleEnv exampleLarge)).result = true
      ∧ framesSum (decodeToPCM (exampleEnv exampleLarge)).blocks
          * get16 (exampleLarge.drop 20) 2 * 2 = 4295000004
      ∧ get32 (decodeToPCM (exampleEnv exampleLarge)).out 40 = 32708
      ∧ get32 (decodeToPCM (exampleEnv exampleLarge)).out 40
          ≠ framesSum (decodeToPCM (exampleEnv exampleLarge)).blocks
              * get16 (exampleLarge.drop 20) 2 * 2 := by
  have hblocks : splitBlocks 65532 ((exampleLarge.drop 48).take (16386 * 65532))
      = List.replicate 16386 (List.replicate 65532 0) := by
    rw [exampleLarge_drop, List.take_replicate]
    exact splitBlocks_replicate (by decide) 0 16386
  have hframes : (exampleCodec (List.replicate 65532 0) 1).frames = 131057 := by
    rw [exampleCodec_frames, List.length_replicate]
    decide
  have hcodec : ∀ blk ∈ splitBlocks 65532 ((exampleLarge.drop 48).take (16386 * 65532)),
      (exampleCodec blk 1).frames ≠ 0 := by
    rw [hblocks]
    intro blk hb
    rw [List.eq_of_mem_replicate hb, hframes]
    decide
  have havail : 16386 * 65532 ≤ (exampleLarge.drop 48).length := by
    rw [exampleLarge_drop, List.length_replicate]
  obtain ⟨l1, hrun, hinv, r4⟩ := decode_exact (exampleEnv exampleLarge) exampleLarge
    { format_tag := 17, channels := 1, sample_rate := 8000, bytes_per_second := 0,
      block_align := 65532, bits_per_sample := 4, cb_size := 2, valid_bits_per_sample := 9 }
    40 { pos := 48, fact := 0, dataSize := 1073807352, hdrs := 1, sawData := true } 16386
    ⟨by decide, rfl, rfl⟩ rfl rfl exampleLarge_fmt exampleLarge_scan (by decide) (by decide)
    (by decide) havail hcodec
  have r5 : l1.blocks = (splitBlocks 65532 ((exampleLarge.drop 48).take (16386 * 65532))).map
      (fun b => (b.length, (exampleCodec b 1).frames)) := r4
  rw [hblocks, List.map_replicate, List.length_replicate, hframes] at r5
  obtain ⟨f1, f2, -, -, f5⟩ := finish_facts
    { format_tag := 17, channels := 1, sample_rate := 8000, bytes_per_second := 0,
      block_align := 65532, bits_per_sample := 4, cb_size := 2, valid_bits_per_sample := 9 }
    { pos := 48, fact := 0, dataSize := 1073807352, hdrs := 1, sawData := true } l1 false hinv
  have hch : get16 (exampleLarge.drop 20) 2 = 1 := by decide
  rw [hrun, endLabel_result, endLabel_blocks, endLabel_out, f2, f5, r5, framesSum_replicate,
    hch]
  exact ⟨f1, by decide, by decide, by decide⟩

/-- C9 (amended): after a valid `RIFF`/`WAVE`/`fmt ` prefix the scan loop stops as soon as a
chunk header tagged `data` is read and records its declared size, whatever that size is; a
scan that stops without a `data` header has its cursor at or past the end of the input; and
the NoDataChunk failure occurs exactly when the scan stops without a `data` header having
been read or the `data` header that was read declares size 0. -/
theorem C9_data_chunk_scan (env : Env) (inp : List Byte) (hdr : WaveHeader) (pos : Nat)
    (hopen : env.opens inp) (hfmt : readFmt env.junkCb env.junkVb inp = .ok hdr pos) :
    (∀ (s : Scan) (fuel : Nat), s.pos + 8 ≤ inp.length → (inp.drop s.pos).take 4 = tagData →
        scanLoop inp (fuel + 1) s
          = .stop { s with pos := s.pos + 8, hdrs := s.hdrs + 1,
                           dataSize := get32 (inp.drop s.pos) 4, sawData := true })
      ∧ (∀ s, scanLoop inp (inp.length + 1) (scanStart pos) = .stop s → s.sawData = false →
          inp.length ≤ s.pos ∧ s.dataSize = 0)
      ∧ ((decodeToPCM env).fail = some Fail.noData ↔
          ∃ s, scanLoop inp (inp.length + 1) (scanStart pos) = .stop s
            ∧ (s.sawData = false ∨ s.dataSize = 0)) := by
  have hinv : ∀ s, scanLoop inp (inp.length + 1) (scanStart pos) = .stop s →
      s.sawData = false → inp.length ≤ s.pos ∧ s.dataSize = 0 := by
    intro s hs hf
    obtain ⟨i1, i2⟩ := scanLoop_inv (inp.length + 1) (scanStart pos) s (fun _ => rfl) rfl hs
    exact ⟨i2 hf, i1 hf⟩
  refine ⟨?_, hinv, ?_⟩
  · intro s fuel hhdr hdata
    rw [scanLoop_succ, scanStep_data hhdr hdata]
  · rw [decodeToPCM_of_opens hopen, endLabel_fail, body_of_ok hfmt]
    cases hs : scanLoop inp (inp.length + 1) (scanStart pos) with
    | next s => exact absurd hs (scanLoop_ne_next _ _ (by omega) s)
    | fail s =>
      constructor
      · intro h; cases h
      · rintro ⟨s1, h1, -⟩; cases h1
    | stop s =>
      dsimp only
      by_cases hz : s.dataSize = 0
      · rw [checks_noData hz]
        exact ⟨fun _ => ⟨s, rfl, Or.inr hz⟩, fun _ => rfl⟩
      · constructor
        · intro h
          exact absurd h (checks_fail_ne_noData hz)
        · rintro ⟨s1, h1, h2⟩
          have e := ScanStep.stop.inj h1
          rw [← e] at h2
          rcases h2 with h2 | h2
          · exact absurd (hinv s hs h2).2 hz
          · exact absurd h2 hz

theorem C9_data_chunk_scan_witness :
    readFmt 0 0 exampleTruncated
        = .ok { format_tag := 17, channels := 1, sample_rate := 8000, bytes_per_second := 0,
                block_align := 8, bits_per_sample := 4, cb_size := 2,
                valid_bits_per_sample := 9 } 40
      ∧ scanLoop exampleTruncated (0 + 1) (scanStart 40)
          = .stop { pos := 48, fact := 0, dataSize := 16, hdrs := 1, sawData := true } :=
  have h := C9_data_chunk_scan (exampleEnv exampleTruncated) exampleTruncated
    { format_tag := 17, channels := 1, sample_rate := 8000, bytes_per_second := 0,
      block_align := 8, bits_per_sample := 4, cb_size := 2, valid_bits_per_sample := 9 } 40
    ⟨by decide, rfl, rfl⟩ (by decide)
  ⟨by decide, h.1 (scanStart 40) 0 (by decide) (by decide)⟩

/-- C9, counterexample: on an input whose `data` header declares size 0 the scan reads a
chunk header tagged `data`, and the run nevertheless fails at the NoDataChunk site. -/
theorem C9_counterexample :
    (exampleZeroData.drop 40).take 4 = tagData
      ∧ get32 (exampleZeroData.drop 40) 4 = 0
      ∧ (decodeToPCM (exampleEnv exampleZeroData)).sawData = true
      ∧ (decodeToPCM (exampleEnv exampleZeroData)).fail = some Fail.noData
      ∧ ¬ ((decodeToPCM (exampleEnv exampleZeroData)).fail = some Fail.noData ↔
            (decodeToPCM (exampleEnv exampleZeroData)).sawData = false) := by
  decide

/-- C10 (amended): on an input with a valid header and geometry whose payload ends before
the declared data size, with a codec that reports at least one frame for every block it is
handed, `decodeToPCM` hands the codec the available payload block by block (the last block
possibly shorter than `blockAlign`), leaves the loop through the zero-byte read once the
payload is used up, keeps everything written, overwrites the placeholder with the header,
returns, and reports success. The data size field of that header holds the number of
payload bytes written modulo `2 ^ 32`, hence that number itself whenever it is below
`2 ^ 32`. -/
theorem C10_truncated_payload (env : Env) (inp : List Byte) (hdr : WaveHeader) (pos : Nat)
    (s : Scan) (hopen : env.opens inp)
    (hm1 : env.mallocIn = true) (hm2 : env.mallocOut = true)
    (hfmt : readFmt env.junkCb env.junkVb inp = .ok hdr pos)
    (hscan : scanLoop inp (inp.length + 1) (scanStart pos) = .stop s)
    (hgeo : hdr.block_align > 4 * hdr.channels ∧ hdr.channels > 0)
    (hshort : (inp.drop s.pos).length < s.dataSize)
    (hcodec : ∀ blk ∈ splitBlocks hdr.block_align (inp.drop s.pos),
      (env.codec blk hdr.channels).frames ≠ 0) :
    (decodeToPCM env).returns = true
      ∧ (decodeToPCM env).result = true
      ∧ (decodeToPCM env).viaBreak = true
      ∧ (decodeToPCM env).blocks
          = (splitBlocks hdr.block_align (inp.drop s.pos)).map
              (fun b => (b.length, (env.codec b hdr.channels).frames))
      ∧ (decodeToPCM env).total = (inp.drop s.pos).length
      ∧ (decodeToPCM env).out
          = write_pcm_wav_header (int32 hdr.channels) (int32 hdr.sample_rate) 16
              ((splitBlocks hdr.block_align (inp.drop s.pos)).flatMap
                (blockPcm env.codec hdr.channels)).length
            ++ (splitBlocks hdr.block_align (inp.drop s.pos)).flatMap
                (blockPcm env.codec hdr.channels)
      ∧ get32 (decodeToPCM env).out 40
          = ((splitBlocks hdr.block_align (inp.drop s.pos)).flatMap
              (blockPcm env.codec hdr.channels)).length % 4294967296
      ∧ (((splitBlocks hdr.block_align (inp.drop s.pos)).flatMap
            (blockPcm env.codec hdr.channels)).length < 4294967296 →
          get32 (decodeToPCM env).out 40
            = ((splitBlocks hdr.block_align (inp.drop s.pos)).flatMap
                (blockPcm env.codec hdr.channels)).length) := by
  obtain ⟨l1, hrun, -, hout, r4, r5⟩ :=
    decode_truncated env inp hdr pos s hopen hm1 hm2 hfmt hscan hgeo hshort hcodec
  have h44 : l1.out.length - 44
      = ((splitBlocks hdr.block_align (inp.drop s.pos)).flatMap
          (blockPcm env.codec hdr.channels)).length := by
    rw [hout, List.length_append, List.length_replicate]; omega
  have hdrop : l1.out.drop 44
      = (splitBlocks hdr.block_align (inp.drop s.pos)).flatMap
          (blockPcm env.codec hdr.channels) := by
    rw [hout, List.drop_left' (List.length_replicate _ _)]
  have hfin : (finish hdr s l1 true).out
      = write_pcm_wav_header (int32 hdr.channels) (int32 hdr.sample_rate) 16
          ((splitBlocks hdr.block_align (inp.drop s.pos)).flatMap
            (blockPcm env.codec hdr.channels)).length
        ++ (splitBlocks hdr.block_align (inp.drop s.pos)).flatMap
            (blockPcm env.codec hdr.channels) := by
    unfold finish
    dsimp only
    rw [length_write_pcm_wav_header, h44, hdrop]
  rw [hrun]
  refine ⟨endLabel_returns_allocated rfl, rfl, rfl, ?_, ?_, ?_, ?_, ?_⟩
  · rw [endLabel_blocks]
    exact r5
  · rw [endLabel_total]
    exact r4
  · rw [endLabel_out]
    exact hfin
  · rw [endLabel_out, hfin, get32_data_field]
  · intro hlt
    rw [endLabel_out, hfin, get32_data_field]
    exact Nat.mod_eq_of_lt hlt

theorem C10_truncated_payload_witness :
    (decodeToPCM (exampleEnv exampleTruncated)).returns = true
      ∧ (decodeToPCM (exampleEnv exampleTruncated)).result = true
      ∧ (decodeToPCM (exampleEnv exampleTruncated)).viaBreak = true
      ∧ (decodeToPCM (exampleEnv exampleTruncated)).blocks = [(8, 9), (4, 1)]
      ∧ get32 (decodeToPCM (exampleEnv exampleTruncated)).out 40 = 20 :=
  have h := C10_truncated_payload (exampleEnv exampleTruncated) exampleTruncated
    { format_tag := 17, channels := 1, sample_rate := 8000, bytes_per_second := 0,
      block_align := 8, bits_per_sample := 4, cb_size := 2, valid_bits_per_sample := 9 } 40
    { pos := 48, fact := 0, dataSize := 16, hdrs := 1, sawData := true }
    ⟨by decide, rfl, rfl⟩ rfl rfl (by decide) (by decide) (by decide) (by decide) (by decide)
  ⟨h.1, h.2.1, h.2.2.1, h.2.2.2.1, h.2.2.2.2.2.2.2 (by decide)⟩

/-- C10, counterexample: a mono input of 16386 whole blocks of 65532 bytes whose `data`
header declares one byte more than is present, decoded by a codec that returns 131057 frames
per block. The loop ends on the zero-byte read and the call succeeds, having written
4295000004 payload bytes after the header; the data size field of the header holds 32708,
not the payload size. -/
theorem C10_counterexample :
    scanLoop exampleLargeTruncated (exampleLargeTruncated.length + 1) (scanStart 40)
        = .stop { pos := 48, fact := 0, dataSize := 1073807353, hdrs := 1, sawData := true }
      ∧ (exampleLargeTruncated.drop 48).length < 1073807353
      ∧ (decodeToPCM (exampleEnv exampleLargeTruncated)).result = true
      ∧ (decodeToPCM (exampleEnv exampleLargeTruncated)).viaBreak = true
      ∧ (decodeToPCM (exampleEnv exampleLargeTruncated)).out.length = 44 + 4295000004
      ∧ get32 (decodeToPCM (exampleEnv exampleLargeTruncated)).out 40 = 32708
      ∧ get32 (decodeToPCM (exampleEnv exampleLargeTruncated)).out 40
          ≠ (decodeToPCM (exampleEnv exampleLargeTruncated)).out.length - 44 := by
  have hblocks : splitBlocks 65532 (exampleLargeTruncated.drop 48)
      = List.replicate 16386 (List.replicate 65532 0) := by
    rw [exampleLargeTruncated_drop]
    exact splitBlocks_replicate (by decide) 0 16386
  have hframes : (exampleCodec (List.replicate 65532 0) 1).frames = 131057 := by
    rw [exampleCodec_frames, List.length_replicate]
    decide
  have hcodec : ∀ blk ∈ splitBlocks 65532 (exampleLargeTruncated.drop 48),
      (exampleCodec blk 1).frames ≠ 0 := by
    rw [hblocks]
    intro blk hb
    rw [List.eq_of_mem_replicate hb, hframes]
    decide
  have hshort : (exampleLargeTruncated.drop 48).length < 1073807353 := by
    rw [exampleLargeTruncated_drop, List.length_replicate]
    decide
  obtain ⟨l1, hrun, hinv, -, -, r5⟩ := decode_truncated (exampleEnv exampleLargeTruncated)
    exampleLargeTruncated
    { format_tag := 17, channels := 1, sample_rate := 8000, bytes_per_second := 0,
      block_align := 65532, bits_per_sample := 4, cb_size := 2, valid_bits_per_sample := 9 }
    40 { pos := 48, fact := 0, dataSize := 1073807353, hdrs := 1, sawData := true }
    ⟨by decide, rfl, rfl⟩ rfl rfl exampleLargeTruncated_fmt exampleLargeTruncated_scan
    (by decide) hshort hcodec
  have r6 : l1.blocks = (splitBlocks 65532 (exampleLargeTruncated.drop 48)).map
      (fun b => (b.length, (exampleCodec b 1).frames)) := r5
  rw [hblocks, List.map_replicate, List.length_replicate, hframes] at r6
  obtain ⟨f1, -, -, f4, f5⟩ := finish_facts
    { format_tag := 17, channels := 1, sample_rate := 8000, bytes_per_second := 0,
      block_align := 65532, bits_per_sample := 4, cb_size := 2, valid_bits_per_sample := 9 }
    { pos := 48, fact := 0, dataSize := 1073807353, hdrs := 1, sawData := true } l1 true hinv
  rw [r6, framesSum_replicate] at f4 f5
  rw [hrun, endLabel_result, endLabel_viaBreak, endLabel_out, f4, f5]
  exact ⟨exampleLargeTruncated_scan, hshort, f1, rfl, by decide, by decide, by decide⟩

/-- C16: for every IMA-ADPCM `fmt ` chunk of declared size `S >= 16` whose `S` payload
bytes are present, and for every `cbSize` (read from the input, or the indeterminate
initial value when it is not read), the parse consumes 16, 18 or 20 bytes, never more than
`S`, skips the rest and leaves the cursor at the start of the `fmt ` payload plus `S`. -/
theorem C16_fmt_cursor (junkCb junkVb : Nat) (inp : List Byte) (hpre : riffWave inp)
    (htag : (inp.drop 12).take 4 = tagFmt) (hsize : 16 ≤ get32 (inp.drop 12) 4)
    (havail : 20 + get32 (inp.drop 12) 4 ≤ inp.length)
    (hfmt : get16 (inp.drop 20) 0 = WAVE_FORMAT_IMA_ADPCM) :
    ∃ hdr consumed, (consumed = 16 ∨ consumed = 18 ∨ consumed = 20)
      ∧ consumed ≤ get32 (inp.drop 12) 4
      ∧ readFmt junkCb junkVb inp = fmtFinish (get32 (inp.drop 12) 4) consumed hdr
      ∧ readFmt junkCb junkVb inp = .ok hdr (20 + get32 (inp.drop 12) 4) := by
  have hs : get32 (inp.drop 12) 4 < 18446744073709551616 :=
    Nat.lt_trans (get32_lt _ _) (by decide)
  rw [readFmt_of_fmt hpre (by omega) htag hsize]
  obtain ⟨hdr1, n, hn, hle, e⟩ := @fmtExtension_consumed inp (get32 (inp.drop 12) 4)
    (baseHeader junkCb junkVb inp) hfmt hsize hs havail
  exact ⟨hdr1, n, hn, hle, e, by rw [e, fmtFinish_pos hdr1 hle hs]⟩

set_option maxRecDepth 8192 in
theorem C16_fmt_cursor_witness :
    get32 (exampleScenarioA.drop 12) 4 = 20
      ∧ ∃ hdr consumed, (consumed = 16 ∨ consumed = 18 ∨ consumed = 20)
          ∧ consumed ≤ get32 (exampleScenarioA.drop 12) 4
          ∧ readFmt 0 0 exampleScenarioA
              = fmtFinish (get32 (exampleScenarioA.drop 12) 4) consumed hdr
          ∧ readFmt 0 0 exampleScenarioA
              = .ok hdr (20 + get32 (exampleScenarioA.drop 12) 4) :=
  ⟨by decide,
   C16_fmt_cursor 0 0 exampleScenarioA ⟨by decide, by decide, by decide⟩ (by decide)
     (by decide) (by decide) (by decide)⟩

/-- C18: whenever a call of `decodeToPCM` reaches the two `malloc` calls of lines 368-370
(and so the transcode loop), both files are open, the `fmt ` header was parsed, the scan
stopped at a `data` chunk, and `channels >= 1`, `blockAlign > 0`, the declared data size is
`> 0` and `samples_per_block` was computed, with a value that is `>= 1` and odd. -/
theorem C18_pipeline_precondition (env : Env) (h : (decodeToPCM env).allocated = true) :
    ∃ inp hdr p s, env.opens inp
      ∧ readFmt env.junkCb env.junkVb inp = .ok hdr p
      ∧ scanLoop inp (inp.length + 1) (scanStart p) = .stop s
      ∧ decodeToPCM env = endLabel env true true (transcode env inp hdr s)
      ∧ 1 ≤ hdr.channels ∧ 0 < hdr.block_align ∧ 0 < s.dataSize
      ∧ samplesPerBlock (int32 hdr.block_align) (int32 hdr.channels)
          = some (((hdr.block_align / hdr.channels - 4) * 2 + 1 : Nat) : Int)
      ∧ 1 ≤ (hdr.block_align / hdr.channels - 4) * 2 + 1
      ∧ ((hdr.block_align / hdr.channels - 4) * 2 + 1) % 2 = 1 := by
  rcases decodeToPCM_cases env with he | ⟨inp, hdr, p, s, a, b, c, d, e, f, g, i⟩
  · rw [he.2.1] at h; cases h
  · exact ⟨inp, hdr, p, s, a, b, c, i, by omega, by omega, by omega,
      samplesPerBlock_value e f g, by omega, by omega⟩

theorem C18_pipeline_precondition_witness :
    ∃ inp hdr p s, (exampleEnv exampleTruncated).opens inp
      ∧ readFmt (exampleEnv exampleTruncated).junkCb (exampleEnv exampleTruncated).junkVb inp
          = .ok hdr p
      ∧ scanLoop inp (inp.length + 1) (scanStart p) = .stop s
      ∧ decodeToPCM (exampleEnv exampleTruncated)
          = endLabel (exampleEnv exampleTruncated) true true
              (transcode (exampleEnv exampleTruncated) inp hdr s)
      ∧ 1 ≤ hdr.channels ∧ 0 < hdr.block_align ∧ 0 < s.dataSize
      ∧ samplesPerBlock (int32 hdr.block_align) (int32 hdr.channels)
          = some (((hdr.block_align / hdr.channels - 4) * 2 + 1 : Nat) : Int)
      ∧ 1 ≤ (hdr.block_align / hdr.channels - 4) * 2 + 1
      ∧ ((hdr.block_align / hdr.channels - 4) * 2 + 1) % 2 = 1 :=
  C18_pipeline_precondition (exampleEnv exampleTruncated) (by decide)

/-- C19: the transcode loop terminates for every input, declared data size and codec. A
round that goes on to the next one was entered with the consumed total below the declared
size and raises the total by at least 1 and at most `blockAlign` (every other round leaves
the loop); so from a state with total `t` the loop is over within `size - t` rounds, from
the start state within `size` rounds, at most `size` blocks go through the codec, and no
call of `decodeToPCM` is cut short for lack of fuel. -/
theorem C19_loop_terminates (codec : Codec) (pf : Nat → Nat → Int) (inp : List Byte)
    (ba ch size : Nat) :
    (∀ l l1, loopStep codec pf inp ba ch size l = .next l1 →
        l.total < size ∧ l.total + 1 ≤ l1.total ∧ l1.total ≤ l.total + ba)
      ∧ (∀ fuel l l1, size - l.total < fuel →
          transcodeLoop codec pf inp ba ch size fuel l ≠ .next l1)
      ∧ (∀ pos l1, transcodeLoop codec pf inp ba ch size (size + 1) (loopStart pos) ≠ .next l1)
      ∧ (∀ pos fuel,
          (transcodeLoop codec pf inp ba ch size fuel (loopStart pos)).state.blocks.length
            ≤ size)
      ∧ (∀ env : Env, (decodeToPCM env).fail ≠ some Fail.fuel) := by
  refine ⟨?_, ?_, ?_, ?_, ?_⟩
  · intro l l1 h
    obtain ⟨ht, hz, _, e⟩ := loopStep_next_inv h
    have hlen : (fread inp l.pos ba).length ≤ ba := by
      rw [length_fread]; exact Nat.min_le_left _ _
    have e2 : l1.total = l.total + (fread inp l.pos ba).length := by rw [e]
    omega
  · intro fuel l l1 h
    exact transcodeLoop_ne_next fuel l h l1
  · intro pos l1
    exact transcodeLoop_ne_next (size + 1) (loopStart pos)
      (by show size - 0 < size + 1; omega) l1
  · intro pos fuel
    by_cases hs : 0 < size
    · exact (transcodeLoop_total hs fuel pos).2.1
    · cases fuel with
      | zero => exact Nat.zero_le _
      | succ n =>
        rw [transcodeLoop_succ,
          loopStep_exit (by show ¬ (0 : Nat) < size; exact hs)]
        exact Nat.zero_le _
  · intro env
    rcases decodeToPCM_loop env with he | ⟨inp1, hdr, p, s, _, _, _, _, _, _, _, _, h⟩
    · exact he.2.2.2.2.2.2.2.2.2.1
    · rcases h with ⟨_, hf, _⟩ | ⟨_, _, e⟩
      · rw [hf]; intro hc; cases hc
      · rw [e, endLabel_fail]
        exact loopRun_fail_ne_fuel hdr s s.pos

theorem C19_loop_terminates_witness :
    loopStep exampleCodec (exampleEnv []).progressOf exampleTruncated 8 1 16 (loopStart 48)
        = .next { pos := 56,
                  out := dummy_header ++ blockPcm exampleCodec 1 (List.replicate 8 7),
                  total := 8, progress := 50, blocks := [(8, 9)], updates := [50] }
      ∧ (loopStart 48).total < 16 ∧ (loopStart 48).total + 1 ≤ 8
      ∧ 8 ≤ (loopStart 48).total + 8 :=
  ⟨rfl,
   (C19_loop_terminates exampleCodec (exampleEnv []).progressOf exampleTruncated 8 1 16).1
     (loopStart 48)
     { pos := 56, out := dummy_header ++ blockPcm exampleCodec 1 (List.replicate 8 7),
       total := 8, progress := 50, blocks := [(8, 9)], updates := [50] } rfl⟩

/-- C20: with both files open, a parsed `fmt ` header and a scan that stopped at a `data`
chunk of declared size `> 0` (the only way to the loop), the consumed total is below
`declaredDataSize + blockAlign` in every state of the transcode loop (the state after any
number of rounds) and at the exit of the call; and when the call succeeds having left the
loop through its condition rather than through the zero-byte read,
`declaredDataSize <= consumed < declaredDataSize + blockAlign`. -/
theorem C20_total_bound (env : Env) (inp : List Byte) (hdr : WaveHeader) (p : Nat) (s : Scan)
    (hopen : env.opens inp) (hfmt : readFmt env.junkCb env.junkVb inp = .ok hdr p)
    (hscan : scanLoop inp (inp.length + 1) (scanStart p) = .stop s)
    (hsize : 0 < s.dataSize) :
    (∀ fuel, (transcodeLoop env.codec env.progressOf inp hdr.block_align hdr.channels
          s.dataSize fuel (loopStart s.pos)).state.total < s.dataSize + hdr.block_align)
      ∧ (∀ fuel l1, transcodeLoop env.codec env.progressOf inp hdr.block_align hdr.channels
            s.dataSize fuel (loopStart s.pos) = .exit l1 →
          s.dataSize ≤ l1.total ∧ l1.total < s.dataSize + hdr.block_align)
      ∧ (decodeToPCM env).total < s.dataSize + hdr.block_align
      ∧ ((decodeToPCM env).result = true → (decodeToPCM env).viaBreak = false →
          s.dataSize ≤ (decodeToPCM env).total) := by
  have key := fun fuel => @transcodeLoop_total env.codec env.progressOf inp hdr.block_align
    hdr.channels s.dataSize hsize fuel s.pos
  refine ⟨fun fuel => (key fuel).1, ?_, ?_⟩
  · intro fuel l1 h
    have k := key fuel
    rw [h] at k
    exact ⟨k.2.2 l1 rfl, k.1⟩
  · rcases decodeToPCM_of_scan hopen hfmt hscan with he | ⟨_, _, _, _, e⟩
    · refine ⟨by rw [he.2.2.2.1]; omega, fun hr => ?_⟩
      rw [he.1] at hr; cases hr
    · rcases transcode_cases env inp hdr s with ⟨_, ht⟩ | ⟨_, _, ht⟩
      · rw [e, ht]
        refine ⟨by show 0 < s.dataSize + hdr.block_align; omega, fun hr => ?_⟩
        cases hr
      · rw [e, ht, endLabel_total, endLabel_result, endLabel_viaBreak,
          (loopRun_state hdr s _).2.1]
        refine ⟨(key (s.dataSize + 1)).1, ?_⟩
        have k := key (s.dataSize + 1)
        cases hr : transcodeLoop env.codec env.progressOf inp hdr.block_align hdr.channels
            s.dataSize (s.dataSize + 1) (loopStart s.pos) with
        | next l => intro h1; cases h1
        | codecFail l => intro h1; cases h1
        | eof l => intro _ h2; cases h2
        | exit l =>
          intro _ _
          rw [hr] at k
          exact k.2.2 l rfl

theorem C20_total_bound_witness :
    (decodeToPCM (exampleEnv exampleOverrun)).total = 16
      ∧ (decodeToPCM (exampleEnv exampleOverrun)).total < 12 + 8
      ∧ 12 ≤ (decodeToPCM (exampleEnv exampleOverrun)).total :=
  have h := C20_total_bound (exampleEnv exampleOverrun) exampleOverrun
    { format_tag := 17, channels := 1, sample_rate := 8000, bytes_per_second := 0,
      block_align := 8, bits_per_sample := 4, cb_size := 2, valid_bits_per_sample := 9 } 40
    { pos := 48, fact := 0, dataSize := 12, hdrs := 1, sawData := true }
    ⟨by decide, rfl, rfl⟩ (by decide) (by decide) (by decide)
  ⟨by decide, h.2.2.1, h.2.2.2 (by decide) (by decide)⟩

/-- C14: `progress_percent` starts at 0; a round of the transcode loop never lowers it, and
either leaves it and the list of values it was updated to as they are, or raises it and
appends the new value; over every call of `decodeToPCM` the values it was updated to are
strictly increasing (so no value occurs twice) and positive, and its final value is the last
of them, or 0 when there is none. -/
theorem C14_progress_monotone :
    (∀ pos, (loopStart pos).progress = 0)
      ∧ (∀ (codec : Codec) (pf : Nat → Nat → Int) (inp : List Byte) (ba ch size : Nat)
          (l l1 : Loop), loopStep codec pf inp ba ch size l = .next l1 →
            l.progress ≤ l1.progress
              ∧ ((l1.progress = l.progress ∧ l1.updates = l.updates)
                ∨ (l.progress < l1.progress ∧ l1.updates = l.updates ++ [l1.progress])))
      ∧ (∀ env : Env,
          List.Pairwise (fun a b => a < b) (decodeToPCM env).updates
            ∧ (decodeToPCM env).updates.Nodup
            ∧ (∀ u ∈ (decodeToPCM env).updates, 0 < u)
            ∧ (decodeToPCM env).progress = (decodeToPCM env).updates.getLastD 0) := by
  refine ⟨fun _ => rfl, ?_, ?_⟩
  · intro codec pf inp ba ch size l l1 h
    obtain ⟨_, _, _, e⟩ := loopStep_next_inv h
    rw [e]
    dsimp only
    by_cases c : pf (l.total + (fread inp l.pos ba).length) size > l.progress
    · rw [if_pos c, if_pos c]
      exact ⟨Int.le_of_lt c, Or.inr ⟨c, rfl⟩⟩
    · rw [if_neg c, if_neg c]
      exact ⟨Int.le_refl _, Or.inl ⟨rfl, rfl⟩⟩
  · intro env
    have hfin : ProgressInv
        { pos := 0, out := [], total := 0, progress := (decodeToPCM env).progress,
          blocks := [], updates := (decodeToPCM env).updates } := by
      rcases decodeToPCM_loop env with he | ⟨inp1, hdr, p, s, _, _, _, _, _, _, _, _, h⟩
      · obtain ⟨_, _, _, _, h5, h6, _⟩ := he
        rw [h5, h6]
        exact progressInv_start 0
      · rcases h with ⟨_, _, _, _, _, h5, h6, _⟩ | ⟨_, _, e⟩
        · rw [h5, h6]
          exact progressInv_start 0
        · rw [e, endLabel_progress, endLabel_updates, (loopRun_state hdr s _).2.2.1,
            (loopRun_state hdr s _).2.2.2.1]
          exact @transcodeLoop_progressInv env.codec env.progressOf inp1 hdr.block_align
            hdr.channels s.dataSize (s.dataSize + 1) s.pos
    obtain ⟨h1, h2, h3⟩ := hfin
    refine ⟨h1, ?_, fun u hu => (h2 u hu).1, h3⟩
    exact h1.imp (fun hab => Int.ne_of_lt hab)

theorem C14_progress_monotone_witness :
    (decodeToPCM (exampleEnv exampleTruncated)).updates = [50, 75]
      ∧ List.Pairwise (fun a b => a < b) (decodeToPCM (exampleEnv exampleTruncated)).updates
      ∧ (decodeToPCM (exampleEnv exampleTruncated)).progress
          = (decodeToPCM (exampleEnv exampleTruncated)).updates.getLastD 0 :=
  have h := C14_progress_monotone.2.2 (exampleEnv exampleTruncated)
  ⟨by decide, h.1, h.2.2.2⟩

/-- C13 (as the code has it): in a round of the transcode loop that goes on, when the
progress value computed after the block exceeds `progress_percent`, `progress_percent` is
set to it and the value is recorded once; otherwise both are left as they are. The listener
is not notified in either case: over every call of `decodeToPCM` no value is handed to it,
the call of line 400 being commented out. -/
theorem C13_progress_recorded_not_notified :
    (∀ (codec : Codec) (pf : Nat → Nat → Int) (inp : List Byte) (ba ch size : Nat)
        (l l1 : Loop), loopStep codec pf inp ba ch size l = .next l1 →
          (pf l1.total size > l.progress →
              l1.progress = pf l1.total size ∧ l1.updates = l.updates ++ [pf l1.total size])
            ∧ (¬ pf l1.total size > l.progress →
              l1.progress = l.progress ∧ l1.updates = l.updates))
      ∧ (∀ env : Env, (decodeToPCM env).notified = []) := by
  refine ⟨?_, decodeToPCM_notified⟩
  intro codec pf inp ba ch size l l1 h
  obtain ⟨_, _, _, e⟩ := loopStep_next_inv h
  rw [e]
  dsimp only
  constructor
  · intro c
    rw [if_pos c, if_pos c]
    exact ⟨rfl, rfl⟩
  · intro c
    rw [if_neg c, if_neg c]
    exact ⟨rfl, rfl⟩

theorem C13_progress_recorded_not_notified_witness :
    (decodeToPCM (exampleEnvListener exampleTruncated)).progress = 75
      ∧ (decodeToPCM (exampleEnvListener exampleTruncated)).notified = [] :=
  ⟨by decide, C13_progress_recorded_not_notified.2 (exampleEnvListener exampleTruncated)⟩

/-- Counterexample to C13 as stated: with a listener supplied, the computed progress exceeds
the last value twice (50, then 75) and the listener is notified of neither. -/
theorem C13_counterexample :
    (exampleEnvListener exampleTruncated).listener = some true
      ∧ (decodeToPCM (exampleEnvListener exampleTruncated)).result = true
      ∧ (decodeToPCM (exampleEnvListener exampleTruncated)).updates = [50, 75]
      ∧ (decodeToPCM (exampleEnvListener exampleTruncated)).notified = []
      ∧ (decodeToPCM (exampleEnvListener exampleTruncated)).notified
          ≠ (decodeToPCM (exampleEnvListener exampleTruncated)).updates := by
  decide

/-- C15 fails on the code: on the early failure of `exampleEnvJunk` (no `RIFF` header) the
`end:` label frees both streaming buffers although neither was allocated, the two pointers
being declared after the `goto end` and tested while indeterminate. In general, on every
path that skips the allocation the buffers are not acquired, and each is freed exactly when
its indeterminate pointer is non-null. -/
theorem C15_early_exit_frees_unallocated :
    ((decodeToPCM exampleEnvJunk).fail = some Fail.notRiff
        ∧ (decodeToPCM exampleEnvJunk).allocated = false
        ∧ (decodeToPCM exampleEnvJunk).acquired = [Res.inFile, Res.outFile]
        ∧ (decodeToPCM exampleEnvJunk).released
            = [Res.inFile, Res.outFile, Res.inBuf, Res.outBuf])
      ∧ (∀ env : Env, (decodeToPCM env).allocated = false →
          Res.inBuf ∉ (decodeToPCM env).acquired ∧ Res.outBuf ∉ (decodeToPCM env).acquired
            ∧ (Res.inBuf ∈ (decodeToPCM env).released ↔ env.junkInBuf = true)
            ∧ (Res.outBuf ∈ (decodeToPCM env).released ↔ env.junkOutBuf = true)) := by
  refine ⟨by decide, ?_⟩
  intro env h
  obtain ⟨a, b, r, e⟩ := decodeToPCM_endLabel env
  rw [e] at h ⊢
  exact endLabel_early env a b r h

theorem C15_early_exit_frees_unallocated_witness :
    Res.inBuf ∉ (decodeToPCM exampleEnvJunk).acquired
      ∧ Res.outBuf ∉ (decodeToPCM exampleEnvJunk).acquired
      ∧ (Res.inBuf ∈ (decodeToPCM exampleEnvJunk).released ↔ exampleEnvJunk.junkInBuf = true)
      ∧ (Res.outBuf ∈ (decodeToPCM exampleEnvJunk).released
          ↔ exampleEnvJunk.junkOutBuf = true) :=
  C15_early_exit_frees_unallocated.2 exampleEnvJunk (by decide)

/-- C11: in every call of `decodeToPCM` in which the codec returned 0 frames for a block (of
`n` bytes, necessarily non-empty), the call returns failure at the codec site; the failing
block is the last one read (the cursor stops right after it, and it is the last entry of
the block log), every block before it gave a non-zero frame count, the output is the
44-byte zero placeholder followed by exactly the payload written for those earlier blocks,
and so its first 44 bytes are still zero. -/
theorem C11_codec_failure_aborts (env : Env) (n : Nat)
    (hzero : (n, 0) ∈ (decodeToPCM env).blocks) :
    (decodeToPCM env).result = false
      ∧ (decodeToPCM env).fail = some Fail.codec
      ∧ (decodeToPCM env).out.take 44 = List.replicate 44 0
      ∧ ∃ inp hdr p s pre blk rest, env.opens inp
          ∧ readFmt env.junkCb env.junkVb inp = .ok hdr p
          ∧ scanLoop inp (inp.length + 1) (scanStart p) = .stop s
          ∧ splitBlocks hdr.block_align (inp.drop s.pos) = pre ++ blk :: rest
          ∧ (∀ b ∈ pre, b ≠ [] ∧ (env.codec b hdr.channels).frames ≠ 0)
          ∧ blk ≠ [] ∧ blk.length = n ∧ (env.codec blk hdr.channels).frames = 0
          ∧ (decodeToPCM env).blocks = pre.map (blockEntry env.codec hdr.channels) ++ [(n, 0)]
          ∧ (decodeToPCM env).out = dummy_header ++ blocksPcm env.codec hdr.channels pre
          ∧ (decodeToPCM env).pos = s.pos + blocksLength pre + n := by
  rcases decodeToPCM_loop env with he | ⟨inp, hdr, p, s, a, b, c, _, _, _, _, _, h⟩
  · rw [he.2.2.1] at hzero
    exact absurd hzero (List.not_mem_nil _)
  · rcases h with ⟨_, _, _, h4, _⟩ | ⟨_, _, e⟩
    · rw [h4] at hzero
      exact absurd hzero (List.not_mem_nil _)
    · obtain ⟨l0, ⟨⟨pre, t1, t2, t3, t4, t5, t6⟩, _⟩, hr⟩ :=
        @transcodeLoop_trace env.codec env.progressOf inp hdr.block_align hdr.channels
          s.dataSize (s.dataSize + 1) s.pos
      rw [e, endLabel_blocks, (loopRun_state hdr s _).1] at hzero
      rcases hr with hr | ⟨hr, _⟩ | ⟨hr, _⟩ | ⟨hr, _, hz, hf⟩
      · rw [hr] at hzero
        exact absurd (t2 ▸ hzero) (not_mem_map_blockEntry t1 n)
      · rw [hr] at hzero
        exact absurd (t2 ▸ hzero) (not_mem_map_blockEntry t1 n)
      · rw [hr] at hzero
        exact absurd (t2 ▸ hzero) (not_mem_map_blockEntry t1 n)
      · rw [hr] at hzero
        have hmem : (n, 0) ∈ l0.blocks ++ [((fread inp l0.pos hdr.block_align).length, 0)] :=
          hzero
        rw [List.mem_append, List.mem_singleton] at hmem
        have hn : (fread inp l0.pos hdr.block_align).length = n := by
          rcases hmem with hm | hm
          · exact absurd (t2 ▸ hm) (not_mem_map_blockEntry t1 n)
          · exact (congrArg Prod.fst hm).symm
        have hne : fread inp l0.pos hdr.block_align ≠ [] := fun hc => hz (by rw [hc]; rfl)
        rw [e, hr]
        refine ⟨rfl, rfl, ?_, inp, hdr, p, s, pre, fread inp l0.pos hdr.block_align,
          splitBlocks hdr.block_align
            (inp.drop (l0.pos + (fread inp l0.pos hdr.block_align).length)), a, b, c,
          ?_, t1, hne, hn, hf, ?_, ?_, ?_⟩
        · show l0.out.take 44 = List.replicate 44 0
          rw [t3]
          exact take_dummy_header _
        · rw [t6, splitBlocks_fread hz]
        · show l0.blocks ++ [((fread inp l0.pos hdr.block_align).length, 0)] = _
          rw [t2, hn]
        · exact t3
        · show l0.pos + (fread inp l0.pos hdr.block_align).length = _
          rw [hn, t4]

theorem C11_codec_failure_aborts_witness :
    (2, 0) ∈ (decodeToPCM (exampleEnv exampleShortTail)).blocks
      ∧ (decodeToPCM (exampleEnv exampleShortTail)).result = false
      ∧ (decodeToPCM (exampleEnv exampleShortTail)).fail = some Fail.codec
      ∧ (decodeToPCM (exampleEnv exampleShortTail)).out.take 44 = List.replicate 44 0 :=
  have h := C11_codec_failure_aborts (exampleEnv exampleShortTail) 2 (by decide)
  ⟨by decide, h.1, h.2.1, h.2.2.1⟩

/-- C12 (as the code has it): for an input whose `fmt ` chunk parses to mono, 8000 Hz, block
alignment 256 and whose scan stops at a `data` chunk of non-zero declared size, whatever the
`fact` chunk states, if both buffers are allocated and the codec reports a non-zero frame
count for every block of the payload, `decodeToPCM` succeeds and the output starts with the
header of a mono 16-bit 8000 Hz PCM WAVE whose `data` size field is twice the number of
frames the codec reported (mod 2^32), which is also the number of payload bytes written; the
blocks decoded are the first blocks of the payload. The count of the `fact` chunk has no
part in it. -/
theorem C12_scenario_A_output (env : Env) (inp : List Byte) (hdr : WaveHeader) (p : Nat)
    (s : Scan) (hopen : env.opens inp)
    (hfmt : readFmt env.junkCb env.junkVb inp = .ok hdr p)
    (hch : hdr.channels = 1) (hrate : hdr.sample_rate = 8000) (hba : hdr.block_align = 256)
    (hscan : scanLoop inp (inp.length + 1) (scanStart p) = .stop s)
    (hz : s.dataSize ≠ 0) (hm1 : env.mallocIn = true) (hm2 : env.mallocOut = true)
    (hcodec : ∀ blk ∈ splitBlocks 256 (inp.drop s.pos), (env.codec blk 1).frames ≠ 0) :
    (decodeToPCM env).result = true
      ∧ (decodeToPCM env).out.length = 44 + framesSum (decodeToPCM env).blocks * 2
      ∧ (decodeToPCM env).out.take 44
          = write_pcm_wav_header 1 8000 16 (framesSum (decodeToPCM env).blocks * 2)
      ∧ get16 (decodeToPCM env).out 20 = WAVE_FORMAT_PCM
      ∧ get16 (decodeToPCM env).out 22 = 1
      ∧ get32 (decodeToPCM env).out 24 = 8000
      ∧ get16 (decodeToPCM env).out 34 = 16
      ∧ get32 (decodeToPCM env).out 40
          = (framesSum (decodeToPCM env).blocks * 2) % 4294967296
      ∧ ∃ pre rest, splitBlocks 256 (inp.drop s.pos) = pre ++ rest
          ∧ (decodeToPCM env).blocks = pre.map (blockEntry env.codec 1) := by
  have hbody : body env inp = transcode env inp hdr s := by
    rw [body_of_ok hfmt, hscan]
    exact checks_pass hz (by omega) (by omega) (by omega)
  have e1 : int32 ((1 : Nat) : Int) = 1 := by decide
  have e2 : int32 ((8000 : Nat) : Int) = 8000 := by decide
  have hfin : ∀ (l0 : Loop) (vb : Bool) (pre : List (List Byte)), LoopInv 1 l0 →
      l0.blocks = pre.map (blockEntry env.codec 1) →
      splitBlocks 256 (inp.drop s.pos) = pre ++ splitBlocks 256 (inp.drop l0.pos) →
      (finish hdr s l0 vb).result = true
        ∧ (finish hdr s l0 vb).out.length = 44 + framesSum (finish hdr s l0 vb).blocks * 2
        ∧ (finish hdr s l0 vb).out.take 44
            = write_pcm_wav_header 1 8000 16 (framesSum (finish hdr s l0 vb).blocks * 2)
        ∧ get16 (finish hdr s l0 vb).out 20 = WAVE_FORMAT_PCM
        ∧ get16 (finish hdr s l0 vb).out 22 = 1
        ∧ get32 (finish hdr s l0 vb).out 24 = 8000
        ∧ get16 (finish hdr s l0 vb).out 34 = 16
        ∧ get32 (finish hdr s l0 vb).out 40
            = (framesSum (finish hdr s l0 vb).blocks * 2) % 4294967296
        ∧ ∃ pre rest, splitBlocks 256 (inp.drop s.pos) = pre ++ rest
            ∧ (finish hdr s l0 vb).blocks = pre.map (blockEntry env.codec 1) := by
    intro l0 vb pre hinv hb hsplit
    obtain ⟨f1, f2, f3, f4, f5⟩ := finish_facts hdr s l0 vb hinv
    have hlen : l0.out.length - 44 = framesSum l0.blocks * 2 := by
      unfold LoopInv at hinv
      rw [hinv]
      omega
    rw [hch, hrate, e1, e2, hlen] at f3
    obtain ⟨g1, g2, g3, _, g5⟩ :=
      header_fields_mono (framesSum l0.blocks * 2) (l0.out.drop 44)
    rw [f2, f3]
    refine ⟨f1, ?_, List.take_left' (length_write_pcm_wav_header _ _ _ _), g1, g2, g3, g5, ?_,
      pre, _, hsplit, hb⟩
    · rw [← f3, f4, Nat.mul_one]
    · rw [← f3, f5, Nat.mul_one]
  rw [decodeToPCM_of_opens hopen, hbody, transcode_eq_loopRun hm1 hm2, hch, hba]
  obtain ⟨l0, ⟨⟨pre, t1, t2, t3, t4, t5, t6⟩, hinv⟩, hr⟩ :=
    @transcodeLoop_trace env.codec env.progressOf inp 256 1 s.dataSize (s.dataSize + 1) s.pos
  rcases hr with hr | ⟨hr, _⟩ | ⟨hr, _⟩ | ⟨hr, _, hzl, hf⟩
  · exact absurd hr (transcodeLoop_ne_next (s.dataSize + 1) (loopStart s.pos)
      (by show s.dataSize - 0 < s.dataSize + 1; omega) l0)
  · rw [hr]
    exact hfin l0 false pre hinv t2 t6
  · rw [hr]
    exact hfin l0 true pre hinv t2 t6
  · have hmem : fread inp l0.pos 256 ∈ splitBlocks 256 (inp.drop s.pos) := by
      rw [t6, splitBlocks_fread hzl]
      exact List.mem_append_right _ (List.mem_cons_self _ _)
    exact absurd hf (hcodec _ hmem)

set_option maxRecDepth 4096 in
theorem C12_scenario_A_output_witness :
    (decodeToPCM (exampleEnv exampleScenarioA)).result = true
      ∧ get16 (decodeToPCM (exampleEnv exampleScenarioA)).out 22 = 1
      ∧ get32 (decodeToPCM (exampleEnv exampleScenarioA)).out 40
          = (framesSum (decodeToPCM (exampleEnv exampleScenarioA)).blocks * 2) % 4294967296 :=
  have h := C12_scenario_A_output (exampleEnv exampleScenarioA) exampleScenarioA
    { format_tag := 17, channels := 1, sample_rate := 8000, bytes_per_second := 4055,
      block_align := 256, bits_per_sample := 4, cb_size := 2, valid_bits_per_sample := 505 } 40
    { pos := 60, fact := 1000, dataSize := 512, hdrs := 2, sawData := true }
    ⟨by decide, rfl, rfl⟩ (by decide) rfl rfl rfl (by decide) (by decide) rfl rfl (by decide)
  ⟨h.1, h.2.2.2.2.1, h.2.2.2.2.2.2.2.1⟩

set_option maxRecDepth 4096 in
/-- Counterexample to C12 as stated: a well-formed mono 8 kHz input with block alignment 256
and a `fact` chunk stating 1000 samples, holding two whole blocks; the call succeeds and the
`data` size field of the output is 2020 (two blocks of 505 frames), not 2000. -/
theorem C12_counterexample :
    readFmt 0 0 exampleScenarioA
        = .ok { format_tag := 17, channels := 1, sample_rate := 8000, bytes_per_second := 4055,
                block_align := 256, bits_per_sample := 4, cb_size := 2,
                valid_bits_per_sample := 505 } 40
      ∧ scanLoop exampleScenarioA (exampleScenarioA.length + 1) (scanStart 40)
          = .stop { pos := 60, fact := 1000, dataSize := 512, hdrs := 2, sawData := true }
      ∧ (decodeToPCM (exampleEnv exampleScenarioA)).result = true
      ∧ (decodeToPCM (exampleEnv exampleScenarioA)).blocks = [(256, 505), (256, 505)]
      ∧ get32 (decodeToPCM (exampleEnv exampleScenarioA)).out 40 = 2020
      ∧ get32 (decodeToPCM (exampleEnv exampleScenarioA)).out 40 ≠ 2000 := by
  have hfmt : readFmt 0 0 exampleScenarioA
      = .ok { format_tag := 17, channels := 1, sample_rate := 8000, bytes_per_second := 4055,
              block_align := 256, bits_per_sample := 4, cb_size := 2,
              valid_bits_per_sample := 505 } 40 := by decide
  have hres : (decodeToPCM (exampleEnv exampleScenarioA)).result = true := by decide
  have hblocks : (decodeToPCM (exampleEnv exampleScenarioA)).blocks = [(256, 505), (256, 505)] := by
    decide
  have hopen : (exampleEnv exampleScenarioA).opens exampleScenarioA := ⟨by decide, rfl, rfl⟩
  have hfield : get32 (decodeToPCM (exampleEnv exampleScenarioA)).out 40 = 2020 := by
    rw [decodeToPCM_of_opens hopen] at hres hblocks ⊢
    rw [endLabel_result] at hres
    rw [endLabel_blocks] at hblocks
    rw [endLabel_out]
    obtain ⟨hdr, p, s, l, vb, h1, h2, h3⟩ := body_success hres
    have hh : FmtRes.ok hdr p = _ := h1.symm.trans hfmt
    have hc : hdr.channels = 1 := by rw [(FmtRes.ok.inj hh).1]
    obtain ⟨_, f2, _, _, f5⟩ := finish_facts hdr s l vb h2
    rw [h3] at hblocks ⊢
    rw [f5, ← f2, hblocks, hc]
    decide
  refine ⟨hfmt, by decide, hres, hblocks, hfield, ?_⟩
  rw [hfield]
  decide

/-- C21: for every `fmt ` header parsed from the input that passes the geometry check of
lines 342-347 (16-bit `blockAlign` and `channels` with `blockAlign > 4*channels` and
`channels > 0`), `channels <= 16383`; hence the `int` value `channels * 16 / 8` is
`channels * 2` without wrap and is stored in the 16-bit block-align field of the output
header without truncation, and the channel count and the sample rate that
`write_pcm_wav_header` writes (for any data size) are those read from the `fmt ` chunk of
the input; so are the three fields of the output of every successful call. -/
theorem C21_output_header_fields (env : Env) (inp : List Byte) (hdr : WaveHeader) (p : Nat)
    (hopen : env.opens inp) (hfmt : readFmt env.junkCb env.junkVb inp = .ok hdr p)
    (hgeo : samplesPerBlock (int32 hdr.block_align) (int32 hdr.channels) ≠ none) :
    (hdr.block_align < 65536 ∧ hdr.channels < 65536
        ∧ hdr.block_align > 4 * hdr.channels ∧ hdr.channels > 0)
      ∧ hdr.channels ≤ 16383
      ∧ int32 (Int.tdiv (int32 (int32 hdr.channels * 16)) 8) = ((hdr.channels * 2 : Nat) : Int)
      ∧ u16 (int32 (Int.tdiv (int32 (int32 hdr.channels * 16)) 8)) = hdr.channels * 2
      ∧ hdr.channels * 2 < 65536
      ∧ (∀ (n : Nat) (rest : List Byte),
          get16 (write_pcm_wav_header (int32 hdr.channels) (int32 hdr.sample_rate) 16 n
              ++ rest) 22 = hdr.channels
            ∧ get32 (write_pcm_wav_header (int32 hdr.channels) (int32 hdr.sample_rate) 16 n
                ++ rest) 24 = hdr.sample_rate
            ∧ get16 (write_pcm_wav_header (int32 hdr.channels) (int32 hdr.sample_rate) 16 n
                ++ rest) 32 = hdr.channels * 2)
      ∧ hdr.channels = get16 (inp.drop 20) 2
      ∧ hdr.sample_rate = get32 (inp.drop 20) 4
      ∧ ((decodeToPCM env).result = true →
          get16 (decodeToPCM env).out 22 = get16 (inp.drop 20) 2
            ∧ get32 (decodeToPCM env).out 24 = get32 (inp.drop 20) 4
            ∧ get16 (decodeToPCM env).out 32 = get16 (inp.drop 20) 2 * 2) := by
  obtain ⟨_, hch, hsr, hba, _⟩ := readFmt_ok_fields hfmt
  have hb : hdr.block_align < 65536 := by rw [hba]; exact get16_lt _ _
  have hc : hdr.channels < 65536 := by rw [hch]; exact get16_lt _ _
  have hr : hdr.sample_rate < 4294967296 := by rw [hsr]; exact get32_lt _ _
  have hg : hdr.block_align > 4 * hdr.channels ∧ hdr.channels > 0 := by
    by_contra hn
    have hn2 : hdr.block_align ≤ 4 * hdr.channels ∨ hdr.channels = 0 := by omega
    exact hgeo (samplesPerBlock_none hb hc hn2)
  have hle : hdr.channels ≤ 16383 := by omega
  have e1 : int32 (hdr.channels : Int) = hdr.channels := int32_of_range (by omega) (by omega)
  have e2 : int32 ((hdr.channels : Int) * 16) = (hdr.channels : Int) * 16 :=
    int32_of_range (by omega) (by omega)
  have e3 : Int.tdiv ((hdr.channels : Int) * 16) 8 = (hdr.channels : Int) * 2 := by
    have hd : (8 : Int) ∣ (hdr.channels : Int) * 16 := ⟨(hdr.channels : Int) * 2, by omega⟩
    rw [Int.tdiv_eq_ediv_of_dvd hd]
    omega
  have e4 : int32 ((hdr.channels : Int) * 2) = (hdr.channels : Int) * 2 :=
    int32_of_range (by omega) (by omega)
  have e5 : u16 ((hdr.channels : Int) * 2) = hdr.channels * 2 := by
    unfold u16; omega
  have hw : ∀ (n : Nat) (rest : List Byte),
      get16 (write_pcm_wav_header (int32 hdr.channels) (int32 hdr.sample_rate) 16 n
          ++ rest) 22 = hdr.channels
        ∧ get32 (write_pcm_wav_header (int32 hdr.channels) (int32 hdr.sample_rate) 16 n
            ++ rest) 24 = hdr.sample_rate
        ∧ get16 (write_pcm_wav_header (int32 hdr.channels) (int32 hdr.sample_rate) 16 n
            ++ rest) 32 = hdr.channels * 2 := by
    intro n rest
    obtain ⟨_, g2, g3, g4, _⟩ :=
      header_fields (int32 hdr.channels) (int32 hdr.sample_rate) n rest
    refine ⟨?_, ?_, ?_⟩
    · rw [g2]; exact u16_int32 hc
    · rw [g3]; exact u32_int32 hr
    · rw [g4, e1]; exact e5
  refine ⟨⟨hb, hc, hg.1, hg.2⟩, hle, ?_, ?_, by omega, hw, hch, hsr, ?_⟩
  · rw [e1, e2, e3, e4]
    omega
  · rw [e1, e2, e3, e4]
    exact e5
  · intro hres
    rw [decodeToPCM_of_opens hopen] at hres ⊢
    rw [endLabel_result] at hres
    rw [endLabel_out]
    obtain ⟨hdr1, p1, s, l, vb, h1, h2, h3⟩ := body_success hres
    have hh : FmtRes.ok hdr1 p1 = FmtRes.ok hdr p := h1.symm.trans hfmt
    have he : hdr1 = hdr := (FmtRes.ok.inj hh).1
    rw [he] at h2 h3
    obtain ⟨_, _, f3, _, _⟩ := finish_facts hdr s l vb h2
    rw [h3, f3, ← hch, ← hsr]
    exact hw _ _

theorem C21_output_header_fields_witness :
    get16 (decodeToPCM (exampleEnv exampleTruncated)).out 22
        = get16 (exampleTruncated.drop 20) 2
      ∧ get32 (decodeToPCM (exampleEnv exampleTruncated)).out 24
        = get32 (exampleTruncated.drop 20) 4
      ∧ get16 (decodeToPCM (exampleEnv exampleTruncated)).out 32
        = get16 (exampleTruncated.drop 20) 2 * 2 :=
  (C21_output_header_fields (exampleEnv exampleTruncated) exampleTruncated
    { format_tag := 17, channels := 1, sample_rate := 8000, bytes_per_second := 0,
      block_align := 8, bits_per_sample := 4, cb_size := 2, valid_bits_per_sample := 9 } 40
    ⟨by decide, rfl, rfl⟩ (by decide) (by decide)).2.2.2.2.2.2.2.2 (by decide)

end FastRec
